import Mathlib

/-!
# Peakline route planner: route model and hybrid-routing orchestrator

A shallow embedding of the `RoutePlanner` class of `src/route-planner.js`.

Modelling conventions.

* A JavaScript number is a double, and every finite double is a rational number: numbers
  are values of `ℚ`. The arithmetic of `updateRouteInfo`, `findClosestSegment` and
  `getPointAtDistance` is the rounded arithmetic of the section on number arithmetic;
  durations, distance markers and trail speeds are computed in exact arithmetic.
* The object state `this.*` is the record `RoutePlanner`; every method is a function
  from states to states.
* The external world is the record `Env`: the haversine routine (floating-point
  trigonometry) and the replies of the routing services.
* An `await` is modelled as a synchronous call: a run of `calculateHybridRoute` is
  executed without interleaving other handlers. The section on overlapping runs splits a
  run at its `await` instead.
* Everything the planner does towards its collaborators (events emitted, alerts,
  cache look-ups, provider requests) is appended to the ghost field `trace`, which no
  modelled code ever reads.
* Leaflet layers, DOM updates and console output carry no planner state and are left
  out.
* The map projection `map.latLngToLayerPoint` is a collaborator and a parameter of the
  functions that use it.
-/

set_option autoImplicit false

namespace Peakline

/-! ## Data model -/

/-- A Leaflet `L.latLng(lat, lng)` value. -/
structure LatLng where
  lat : ℚ
  lng : ℚ
deriving DecidableEq

/-- A GeoJSON line geometry; every coordinate is the pair `[lng, lat]`. -/
structure Geometry where
  coordinates : List (ℚ × ℚ)
deriving DecidableEq

/-- The object `{geometry, distance, duration}` a routing provider resolves to; this is
also what `routingCache` stores. -/
structure RouteData where
  geometry : Geometry
  distance : ℚ
  duration : ℚ
deriving DecidableEq

/-- An element of `autoSegments`, as written by `calculateAutoSegment`. -/
structure AutoSegment where
  startPoint : LatLng
  endPoint : LatLng
  geometry : Geometry
  distance : ℚ
  duration : ℚ
deriving DecidableEq

/-- An element of `autoPolylines`: the `[lat, lng]` pairs handed to `L.polyline`. -/
structure Polyline where
  latlngs : List (ℚ × ℚ)
deriving DecidableEq

/-- A route marker: its position and the `routeIndex` property set by `addMarker`. -/
structure Marker where
  latlng : LatLng
  routeIndex : Nat
deriving DecidableEq

/-- What the planner does towards its collaborators, in program order. -/
inductive Action where
  | emit (event : String) (data : Option String)
  | alert (message : String)
  | abort
  | cacheLookup (segmentIndex : Nat) (cacheKey : String)
  | providerRequest (segmentIndex : Nat) (startPoint endPoint : LatLng)
deriving DecidableEq

/-- A JavaScript `Map` with string keys: the entries in insertion order. -/
structure JSMap (β : Type) where
  entries : List (String × β)
deriving DecidableEq

/-- The fields of `this` that the route model and the hybrid router use. -/
structure RoutePlanner where
  route : List LatLng
  markers : List Marker
  totalDistance : ℚ
  routingMode : String
  routingProfile : String
  routingCache : JSMap RouteData
  autoSegments : List (Option AutoSegment)
  autoPolylines : List (Option Polyline)
  pendingRouteRequest : Bool
  isMeasuring : Bool
  measurementPoints : List LatLng
  trace : List Action
deriving DecidableEq

/-- The collaborators of the planner. `calculateDistance` is the haversine routine
(lines 613-623), whose value is a double. `requestRouteFromAPI i a b` is the outcome of
the provider request issued for gap `i` from `a` to `b`: the resolved route data, or the
message of the error the promise rejects with. The gap index lets two requests with the
same end points be answered differently. A resolved reply has the shape
`{geometry: {coordinates}, distance, duration}` that all providers build (lines 2763-2767,
2866-2870, 2910-2917, 3133-3137). -/
structure Env where
  calculateDistance : ℚ → ℚ → ℚ → ℚ → ℚ
  requestRouteFromAPI : Nat → LatLng → LatLng → Except String RouteData

/-! ## JavaScript library semantics -/

/-- The method `Map.prototype.has`. -/
def JSMap.has {β : Type} (m : JSMap β) (key : String) : Bool :=
  m.entries.any (fun p => p.1 == key)

/-- The method `Map.prototype.get`; `none` is `undefined`. -/
def JSMap.get {β : Type} (m : JSMap β) (key : String) : Option β :=
  (m.entries.find? (fun p => p.1 == key)).map (fun p => p.2)

/-- The method `Map.prototype.set`: an existing key keeps its position. -/
def JSMap.set {β : Type} (m : JSMap β) (key : String) (value : β) : JSMap β :=
  if m.has key then
    ⟨m.entries.map (fun p => if p.1 == key then (key, value) else p)⟩
  else
    ⟨m.entries ++ [(key, value)]⟩

/-- The method `Map.prototype.clear`. -/
def JSMap.clear {β : Type} (_m : JSMap β) : JSMap β :=
  ⟨[]⟩

/-- The assignment `xs[i] = v` on a JavaScript array; `none` is a hole. Writing past the
end pads the array with holes. -/
def jsArraySet {α : Type} (xs : List (Option α)) (i : Nat) (v : α) : List (Option α) :=
  if i < xs.length then xs.set i (some v)
  else xs ++ List.replicate (i - xs.length) none ++ [some v]

/-- The start position `Array.prototype.splice` derives from its first argument. -/
def spliceStart (len : Nat) (start : Int) : Nat :=
  if start < 0 then (Int.ofNat len + start).toNat else min start.toNat len

/-- Six fraction digits, padded with zeros on the left. -/
def padFraction (n : Nat) : String :=
  let d := toString n
  String.mk (List.replicate (6 - d.length) '0') ++ d

/-- The call `x.toFixed(6)` of `Number.prototype.toFixed` for a finite `x` below `10^21`:
the sign if `x < 0`, then the integer `n` with `n / 10^6` nearest to `|x|` (the larger one
on a tie) printed with six fraction digits. -/
def toFixed6 (x : ℚ) : String :=
  let n := (2 * x.num.natAbs * 1000000 + x.den) / (2 * x.den)
  (if x < 0 then "-" else "") ++ toString (n / 1000000) ++ "." ++ padFraction (n % 1000000)

/-! ## Number arithmetic

A JavaScript number is an IEEE 754 double. A finite double is a rational number, and the
result of an arithmetic operation is the double nearest to the exact result, a tie going to
the even mantissa. Overflow to `Infinity` and `NaN` are not modelled. -/

/-- The number of binary digits of `n`, found in at most `fuel` halvings. -/
def bitLengthAux : Nat → Nat → Nat
  | 0, _ => 0
  | fuel + 1, n => if n = 0 then 0 else bitLengthAux fuel (n / 2) + 1

/-- The number of binary digits of `n`. -/
def bitLength (n : Nat) : Nat :=
  bitLengthAux n n

/-- The exponent `e` with `2 ^ e ≤ |x| < 2 ^ (e + 1)`, for `x` other than zero. -/
def floorLog2 (x : ℚ) : ℤ :=
  let e0 : ℤ := (bitLength x.num.natAbs : ℤ) - (bitLength x.den : ℤ)
  if (2 : ℚ) ^ e0 ≤ |x| then e0 else e0 - 1

/-- The integer nearest to `r`, a tie going to the even one. -/
def roundHalfEven (r : ℚ) : ℤ :=
  if r - ⌊r⌋ < 1 / 2 then ⌊r⌋
  else if 1 / 2 < r - ⌊r⌋ then ⌊r⌋ + 1
  else if ⌊r⌋ % 2 = 0 then ⌊r⌋ else ⌊r⌋ + 1

/-- The exponent of the binade of `x`; numbers below `2 ^ (-1022)` are subnormal and share
the exponent -1022. -/
def binadeExponent (x : ℚ) : ℤ :=
  max (floorLog2 x) (-1022)

/-- The distance between neighbouring doubles around `x`: 53 binary digits. -/
def ulp (x : ℚ) : ℚ :=
  2 ^ (binadeExponent x - 52)

/-- The double nearest to the rational `x`, ties to even. -/
def roundDouble (x : ℚ) : ℚ :=
  roundHalfEven (x / ulp x) * ulp x

/-- The number `x` is a double. -/
def Representable (x : ℚ) : Prop :=
  roundDouble x = x

/-- The operator `+` on numbers. -/
def fadd (x y : ℚ) : ℚ :=
  roundDouble (x + y)

/-- The operator `-` on numbers. -/
def fsub (x y : ℚ) : ℚ :=
  roundDouble (x - y)

/-- The operator `*` on numbers. -/
def fmul (x y : ℚ) : ℚ :=
  roundDouble (x * y)

/-- The operator `/` on numbers, for a divisor other than zero. -/
def fdiv (x y : ℚ) : ℚ :=
  roundDouble (x / y)

/-- The integer square root, bit by bit: the bits below `k` are tried from the highest
down, `r` holding the bits decided so far. -/
def sqrtBits (n : Nat) : Nat → Nat → Nat
  | 0, r => r
  | k + 1, r =>
    if (r + 2 ^ k) * (r + 2 ^ k) ≤ n then sqrtBits n k (r + 2 ^ k) else sqrtBits n k r

/-- The integer square root of `n`. -/
def natSqrt (n : Nat) : Nat :=
  sqrtBits n (bitLength n / 2 + 1) 0

/-- The function `Math.sqrt` on a number that is not negative, as the correctly rounded
square root that engines compute: the root lies in the binade of exponent `h`, its 53
leading digits are the integer root `m` of `x / 4 ^ (h - 52)`, and it is rounded up when
it is beyond `m + 1/2`. -/
def fsqrt (x : ℚ) : ℚ :=
  if x ≤ 0 then 0
  else
    let h : ℤ := floorLog2 x / 2
    let scaled : ℚ := x / 2 ^ (2 * (h - 52))
    let m : ℕ := natSqrt ⌊scaled⌋.toNat
    let up : Bool := decide (((m : ℚ) + 1 / 2) * ((m : ℚ) + 1 / 2) ≤ scaled)
    ((if up then m + 1 else m : ℕ) : ℚ) * 2 ^ (h - 52)

instance (x : ℚ) : Decidable (Representable x) := by
  unfold Representable
  infer_instance

/-! ## Events and route bookkeeping -/

/-- The initial field values set by the constructor (lines 7-44). -/
def newRoutePlanner : RoutePlanner :=
  { route := [], markers := [], totalDistance := 0,
    routingMode := "hybrid", routingProfile := "driving",
    routingCache := ⟨[]⟩, autoSegments := [], autoPolylines := [],
    pendingRouteRequest := false, isMeasuring := false, measurementPoints := [],
    trace := [] }

/-- The method `emit(event, data)` (lines 2607-2611). The subscribers are collaborators;
the emission itself is recorded. -/
def emit (event : String) (data : Option String) (s : RoutePlanner) : RoutePlanner :=
  { s with trace := s.trace ++ [Action.emit event data] }

/-- The call `alert(message)`. -/
def alert (message : String) (s : RoutePlanner) : RoutePlanner :=
  { s with trace := s.trace ++ [Action.alert message] }

/-- The loop of `updateRouteInfo` (lines 627-633): the distances of consecutive waypoints,
added from left to right with the operator `+=` of numbers. -/
def sumDistances (env : Env) (route : List LatLng) : ℚ :=
  (List.zip route route.tail).foldl
    (fun acc p => fadd acc (env.calculateDistance p.1.lat p.1.lng p.2.lat p.2.lng)) 0

/-- The method `updateRouteInfo` (lines 626-680). -/
def updateRouteInfo (env : Env) (s : RoutePlanner) : RoutePlanner :=
  emit "routeUpdated" none
    (emit "routeChanged" none { s with totalDistance := sumDistances env s.route })

/-- The method `updateMarkerIndices` (lines 683-688). -/
def updateMarkerIndices (s : RoutePlanner) : RoutePlanner :=
  { s with markers := s.markers.enum.map (fun p => { p.2 with routeIndex := p.1 }) }

/-- The method `updatePolyline` (lines 928-943): all markers are rebuilt from the route
by `addMarker`. -/
def updatePolyline (s : RoutePlanner) : RoutePlanner :=
  { s with markers := s.route.enum.map (fun p => { latlng := p.2, routeIndex := p.1 }) }

/-- The method `init` (lines 49-54) on a fresh object. -/
def init (env : Env) : RoutePlanner :=
  updateRouteInfo env newRoutePlanner

/-- The method `addPoint(latlng, insertIndex)` (lines 992-1002); `insertIndex` is `-1`
when the caller leaves it out. -/
def addPoint (env : Env) (latlng : LatLng) (insertIndex : Int) (s : RoutePlanner) :
    RoutePlanner :=
  let route :=
    if insertIndex = -1 then s.route ++ [latlng]
    else
      let start := spliceStart s.route.length insertIndex
      s.route.take start ++ [latlng] ++ s.route.drop start
  updateRouteInfo env (updatePolyline { s with route := route })

/-- The method `removePoint(index)` (lines 1611-1616): `route.splice(index, 1)`. -/
def removePoint (env : Env) (index : Int) (s : RoutePlanner) : RoutePlanner :=
  let start := spliceStart s.route.length index
  let deleteCount := min 1 (s.route.length - start)
  let route := s.route.take start ++ s.route.drop (start + deleteCount)
  updateRouteInfo env (updatePolyline { s with route := route })

/-- The `drag` handler of marker number `k` (lines 873-887): the waypoint at the
marker's `routeIndex` is overwritten with the marker's new position. -/
def drag (k : Nat) (newPos : LatLng) (s : RoutePlanner) : RoutePlanner :=
  match s.markers.get? k with
  | none => s
  | some marker =>
    { s with
      route := s.route.set marker.routeIndex newPos,
      markers := s.markers.set k { marker with latlng := newPos } }

/-- The `dragend` handler of a marker (lines 889-898). -/
def dragend (env : Env) (s : RoutePlanner) : RoutePlanner :=
  updateRouteInfo env (updateMarkerIndices s)

/-- The method `clearAutoSegments` (lines 3163-3173). -/
def clearAutoSegments (s : RoutePlanner) : RoutePlanner :=
  emit "autoSegmentsCleared" none { s with autoPolylines := [], autoSegments := [] }

/-- The method `clearMeasurement` (lines 1181-1192). -/
def clearMeasurement (env : Env) (s : RoutePlanner) : RoutePlanner :=
  updateRouteInfo env { s with measurementPoints := [] }

/-- The method `clearRoute` (lines 2382-2402): the route and its markers are emptied, then
`clearMeasurement`, `clearAutoSegments` and `updateRouteInfo` are called, in this order. -/
def clearRoute (env : Env) (s : RoutePlanner) : RoutePlanner :=
  updateRouteInfo env
    (clearAutoSegments (clearMeasurement env { s with route := [], markers := [] }))

/-- The method `loadRoute(coordinates, name)` (lines 2493-2518). -/
def loadRoute (env : Env) (coordinates : List LatLng) (s : RoutePlanner) : RoutePlanner :=
  let s1 := clearRoute env s
  updateRouteInfo env
    (updatePolyline { s1 with route := coordinates.map (fun c => LatLng.mk c.lat c.lng) })

/-- The method `setRoutingMode(mode)` (lines 2568-2579). -/
def setRoutingMode (mode : String) (s : RoutePlanner) : RoutePlanner :=
  if mode = "manual" ∨ mode = "hybrid" then
    emit "routingModeChanged" (some mode) { s with routingMode := mode }
  else s

/-- The method `setRoutingProfile(profile)` (lines 2582-2597). -/
def setRoutingProfile (profile : String) (s : RoutePlanner) : RoutePlanner :=
  if profile ∈ ["driving", "walking", "cycling", "cycling-mountain", "cycling-gravel",
      "cycling-regular"] then
    emit "routingProfileChanged" (some profile)
      { s with routingProfile := profile, routingCache := s.routingCache.clear }
  else s

/-! ## Hybrid routing -/

/-- The method `getCacheKey(startPoint, endPoint)` (lines 3176-3178). -/
def getCacheKey (s : RoutePlanner) (startPoint endPoint : LatLng) : String :=
  s.routingProfile ++ "_" ++ toFixed6 startPoint.lat ++ "_" ++ toFixed6 startPoint.lng ++ "_" ++
    toFixed6 endPoint.lat ++ "_" ++ toFixed6 endPoint.lng

/-- The method `displayAutoSegment(geometry, segmentIndex)` (lines 3147-3160): the
polyline of the swapped coordinates is stored in `autoPolylines[segmentIndex]`. -/
def displayAutoSegment (geometry : Geometry) (segmentIndex : Nat) (s : RoutePlanner) :
    RoutePlanner :=
  { s with
    autoPolylines :=
      jsArraySet s.autoPolylines segmentIndex
        { latlngs := geometry.coordinates.map (fun coord => (coord.2, coord.1)) } }

/-- The method `calculateAutoSegment(startPoint, endPoint, segmentIndex)` (lines
2655-2682). The first component is the message of the error the returned promise rejects
with, `none` when it resolves; the second is the state it leaves. No stored value is
`undefined`, so `routingCache.has(cacheKey)` holds exactly when `routingCache.get(cacheKey)`
is a stored entry (`JSMap.has_eq_isSome_get`), and the test and the read are one `match`. -/
def calculateAutoSegment (env : Env) (startPoint endPoint : LatLng) (segmentIndex : Nat)
    (s : RoutePlanner) : Option String × RoutePlanner :=
  let cacheKey := getCacheKey s startPoint endPoint
  let s1 := { s with trace := s.trace ++ [Action.cacheLookup segmentIndex cacheKey] }
  match s1.routingCache.get cacheKey with
  | some cached => (none, displayAutoSegment cached.geometry segmentIndex s1)
  | none =>
    let s2 :=
      { s1 with trace := s1.trace ++ [Action.providerRequest segmentIndex startPoint endPoint] }
    match env.requestRouteFromAPI segmentIndex startPoint endPoint with
    | Except.error message => (some message, s2)
    | Except.ok routeData =>
      let s3 := { s2 with routingCache := s2.routingCache.set cacheKey routeData }
      let s4 := displayAutoSegment routeData.geometry segmentIndex s3
      (none,
        { s4 with
          autoSegments :=
            jsArraySet s4.autoSegments segmentIndex
              { startPoint := startPoint, endPoint := endPoint,
                geometry := routeData.geometry, distance := routeData.distance,
                duration := routeData.duration } })

/-- The `for` loop of `calculateHybridRoute` (lines 2636-2641), entered at gap `i` with
the waypoints from index `i` on: the gaps are computed one after the other and the first
rejection leaves the loop. -/
def hybridLoop (env : Env) : Nat → List LatLng → RoutePlanner → Option String × RoutePlanner
  | i, startPoint :: endPoint :: rest, s =>
    match calculateAutoSegment env startPoint endPoint i s with
    | (some message, s1) => (some message, s1)
    | (none, s1) => hybridLoop env (i + 1) (endPoint :: rest) s1
  | _, _, s => (none, s)

/-- The state in which the `for` loop of `calculateHybridRoute` is entered (lines
2624-2633): a pending request is aborted and the automatic segments are cleared. -/
def hybridStart (s : RoutePlanner) : RoutePlanner :=
  clearAutoSegments
    (if s.pendingRouteRequest then { s with trace := s.trace ++ [Action.abort] } else s)

/-- The method `calculateHybridRoute` (lines 2618-2652). -/
def calculateHybridRoute (env : Env) (s : RoutePlanner) : RoutePlanner :=
  if s.route.length < 2 then
    alert "Нужно минимум 2 точки для расчета маршрута" s
  else
    match hybridLoop env 0 (hybridStart s).route (hybridStart s) with
    | (none, s1) => emit "routeChanged" none (updateRouteInfo env s1)
    | (some message, s1) => alert ("Ошибка расчета маршрута: " ++ message) s1

/-- The run of `calculateHybridRoute` reaches the statements after its loop: the route has
two waypoints or more and no gap computation was rejected. -/
def hybridCompleted (env : Env) (s : RoutePlanner) : Prop :=
  2 ≤ s.route.length ∧ (hybridLoop env 0 (hybridStart s).route (hybridStart s)).1 = none

/-- One step of the loop of `getFullRoute` (lines 2544-2558) for `autoSegments[i]`. -/
def spliceSegment (route : List LatLng) (fullRoute : List (Option LatLng)) (i : Nat)
    (segment : Option AutoSegment) : List (Option LatLng) :=
  let fullRoute1 :=
    match segment with
    | some seg =>
      fullRoute ++ (seg.geometry.coordinates.drop 1).map (fun coord => some (LatLng.mk coord.2 coord.1))
    | none => fullRoute
  if i + 1 < route.length then fullRoute1 ++ [route.get? (i + 1)] else fullRoute1

/-- The method `getFullRoute` (lines 2534-2561). An element `none` is `undefined`, which
`this.route[0]` is on an empty route. -/
def getFullRoute (s : RoutePlanner) : List (Option LatLng) :=
  if s.routingMode = "manual" ∨ s.autoSegments.length = 0 then
    s.route.map some
  else
    s.autoSegments.enum.foldl (fun fullRoute p => spliceSegment s.route fullRoute p.1 p.2)
      [s.route.get? 0]

/-- The actions appended to the trace between the states `s` and `t`. -/
def actionsSince (s t : RoutePlanner) : List Action :=
  t.trace.drop s.trace.length

/-- The gap indices of the cache look-ups among the actions, in order. -/
def lookupsOf (actions : List Action) : List Nat :=
  actions.filterMap (fun x => match x with
    | Action.cacheLookup i _ => some i
    | _ => none)

/-- The gap indices of the provider requests among the actions, in order. -/
def requestsOf (actions : List Action) : List Nat :=
  actions.filterMap (fun x => match x with
    | Action.providerRequest i _ _ => some i
    | _ => none)

/-- The topics of the events emitted among the actions, in order. -/
def emitsOf (actions : List Action) : List String :=
  actions.filterMap (fun x => match x with
    | Action.emit event _ => some event
    | _ => none)

/-- The entry `autoSegments[i]` that `calculateAutoSegment` writes for the provider reply
`d` to the request from `a` to `b`. -/
def segmentOf (a b : LatLng) (d : RouteData) : AutoSegment :=
  { startPoint := a, endPoint := b, geometry := d.geometry, distance := d.distance,
    duration := d.duration }

/-- Every gap between consecutive waypoints of the list has its key in `routingCache`. -/
def AllCached (s : RoutePlanner) : List LatLng → Prop
  | a :: b :: rest => s.routingCache.has (getCacheKey s a b) = true ∧ AllCached s (b :: rest)
  | _ => True

/-- What one execution of the loop of `calculateHybridRoute` does: entered at gap `i` in
state `s` with the waypoints `rt`, it ends with `r`, having appended the actions `new` and
looked up `k` gaps. -/
structure LoopSpec (env : Env) (i : Nat) (rt : List LatLng) (s : RoutePlanner)
    (r : Option String × RoutePlanner) (new : List Action) (k : Nat) : Prop where
  trace_eq : r.2.trace = s.trace ++ new
  route_eq : r.2.route = s.route
  markers_eq : r.2.markers = s.markers
  totalDistance_eq : r.2.totalDistance = s.totalDistance
  mode_eq : r.2.routingMode = s.routingMode
  profile_eq : r.2.routingProfile = s.routingProfile
  pending_eq : r.2.pendingRouteRequest = s.pendingRouteRequest
  k_le : k ≤ rt.length - 1
  lookups : lookupsOf new = List.range' i k
  requests : (requestsOf new).Sublist (List.range' i k)
  gapActions : ∀ x ∈ new, (∃ j key, x = Action.cacheLookup j key) ∨
    (∃ j a b, x = Action.providerRequest j a b)
  lookup_args : ∀ j key, Action.cacheLookup j key ∈ new → i ≤ j ∧
    ∃ a b, rt.get? (j - i) = some a ∧ rt.get? (j - i + 1) = some b ∧ key = getCacheKey s a b
  request_args : ∀ j a b, Action.providerRequest j a b ∈ new → i ≤ j ∧
    rt.get? (j - i) = some a ∧ rt.get? (j - i + 1) = some b
  completed : r.1 = none → k = rt.length - 1 ∧
    ∀ j a b, Action.providerRequest j a b ∈ new → ∃ d, env.requestRouteFromAPI j a b = Except.ok d
  failed : ∀ e, r.1 = some e → 1 ≤ k ∧
    (∃ a b, Action.providerRequest (i + k - 1) a b ∈ new ∧
      env.requestRouteFromAPI (i + k - 1) a b = Except.error e) ∧
    ∀ j a b, Action.providerRequest j a b ∈ new → j + 1 < i + k →
      ∃ d, env.requestRouteFromAPI j a b = Except.ok d
  cache_mono : ∀ key, s.routingCache.has key = true → r.2.routingCache.has key = true
  cached : r.1 = none → AllCached r.2 rt
  hits : AllCached s rt → r.1 = none ∧ requestsOf new = [] ∧ k = rt.length - 1
  segs_below : ∀ j, j < i → j < s.autoSegments.length →
    r.2.autoSegments.get? j = s.autoSegments.get? j
  segs_len_ge : s.autoSegments.length ≤ r.2.autoSegments.length
  segs_len_le : r.2.autoSegments.length ≤ max s.autoSegments.length (i + k)
  segs_len_failed : ∀ e, r.1 = some e →
    r.2.autoSegments.length ≤ max s.autoSegments.length (i + k - 1)
  segs_stored : ∀ j a b d, Action.providerRequest j a b ∈ new →
    env.requestRouteFromAPI j a b = Except.ok d →
    r.2.autoSegments.get? j = some (some (segmentOf a b d))
  segs_all : r.1 = none → requestsOf new = List.range' i k → 1 ≤ k →
    r.2.autoSegments.length = max s.autoSegments.length (i + k)

/-! ## Nearest segment and map clicks -/

/-- A Leaflet `L.Point`: a position on the screen, in pixels. -/
structure Point where
  x : ℚ
  y : ℚ
deriving DecidableEq

/-- The comparison `d < m` where `m` is a number or, as `none`, `Infinity`. -/
def ltInfinity (d : ℚ) (m : Option ℚ) : Bool :=
  match m with
  | none => true
  | some v => decide (d < v)

/-- The variable `lenSq` of `findClosestSegment` (lines 1634-1638): the squared length of
the segment on the screen, as computed. -/
def lenSq (segmentStart segmentEnd : Point) : ℚ :=
  fadd
    (fmul (fsub segmentEnd.x segmentStart.x) (fsub segmentEnd.x segmentStart.x))
    (fmul (fsub segmentEnd.y segmentStart.y) (fsub segmentEnd.y segmentStart.y))

/-- The variable `dot` of `findClosestSegment` (lines 1632-1637). -/
def segmentDot (clickLayerPoint segmentStart segmentEnd : Point) : ℚ :=
  fadd
    (fmul (fsub clickLayerPoint.x segmentStart.x) (fsub segmentEnd.x segmentStart.x))
    (fmul (fsub clickLayerPoint.y segmentStart.y) (fsub segmentEnd.y segmentStart.y))

/-- The variable `param` of `findClosestSegment` (line 1651). -/
def segmentParam (clickLayerPoint segmentStart segmentEnd : Point) : ℚ :=
  fdiv (segmentDot clickLayerPoint segmentStart segmentEnd) (lenSq segmentStart segmentEnd)

/-- The variable `closestPoint` of `findClosestSegment` (lines 1653-1663). -/
def closestPoint (clickLayerPoint segmentStart segmentEnd : Point) : Point :=
  let param := segmentParam clickLayerPoint segmentStart segmentEnd
  if param < 0 then segmentStart
  else if param > 1 then segmentEnd
  else
    { x := fadd segmentStart.x (fmul param (fsub segmentEnd.x segmentStart.x)),
      y := fadd segmentStart.y (fmul param (fsub segmentEnd.y segmentStart.y)) }

/-- The distance between two screen points as lines 1642 and 1665-1668 compute it: the
square root of the sum of the squared differences. `Math.pow(v, 2)` is the rounded product
of `v` with itself, as `v * v` is. -/
def pointDistance (a b : Point) : ℚ :=
  fsqrt (fadd (fmul (fsub a.x b.x) (fsub a.x b.x)) (fmul (fsub a.y b.y) (fsub a.y b.y)))

/-- The `distance` that `findClosestSegment` computes for one pair of consecutive
waypoints: to the start of a segment that is a point (line 1642), else to the closest
point of the segment (lines 1665-1668). -/
def segmentDistance (clickLayerPoint segmentStart segmentEnd : Point) : ℚ :=
  if lenSq segmentStart segmentEnd = 0 then pointDistance clickLayerPoint segmentStart
  else pointDistance clickLayerPoint (closestPoint clickLayerPoint segmentStart segmentEnd)

/-- The local variables of `findClosestSegment` that its loop updates (lines 1622-1624);
`none` is `Infinity`. -/
structure ClosestState where
  minDistance : Option ℚ
  closestSegment : Int
  closestDistance : Option ℚ
deriving DecidableEq

/-- The body of the loop of `findClosestSegment` (lines 1627-1676) for the pair `i` of
waypoints with the screen positions `segmentStart` and `segmentEnd`. -/
def closestStep (clickLayerPoint : Point) (st : ClosestState) (i : Nat)
    (segmentStart segmentEnd : Point) : ClosestState :=
  let distance := segmentDistance clickLayerPoint segmentStart segmentEnd
  if lenSq segmentStart segmentEnd = 0 then
    if ltInfinity distance st.minDistance then
      { minDistance := some distance, closestSegment := i, closestDistance := some distance }
    else st
  else
    if ltInfinity distance st.minDistance ∧ distance < 30 ∧
        ltInfinity distance st.closestDistance then
      { minDistance := some distance, closestSegment := i + 1,
        closestDistance := some distance }
    else st

/-- The squared length of a segment in exact arithmetic, `|end - start|²`. -/
def exactLenSq (s e : Point) : ℚ :=
  (e.x - s.x) * (e.x - s.x) + (e.y - s.y) * (e.y - s.y)

/-- The parameter of the projection of `p` on the line through `s` and `e` in exact
arithmetic, `((p - s)·(e - s)) / |e - s|²`. -/
def exactParam (p s e : Point) : ℚ :=
  ((p.x - s.x) * (e.x - s.x) + (p.y - s.y) * (e.y - s.y)) / exactLenSq s e

/-- The standard projection clamped to the segment in exact arithmetic,
`s + clamp(t, 0, 1)·(e - s)`. -/
def exactClosestPoint (p s e : Point) : Point :=
  { x := s.x + max 0 (min (exactParam p s e) 1) * (e.x - s.x),
    y := s.y + max 0 (min (exactParam p s e) 1) * (e.y - s.y) }

/-- The squared distance between two points in exact arithmetic. -/
def exactDistanceSq (a b : Point) : ℚ :=
  (a.x - b.x) ^ 2 + (a.y - b.y) ^ 2

/-- No operation of lines 1632-1662 rounds for the click `p` and the segment from `s` to
`e`: the differences, the products, the sums, the quotient and the coordinates of the
projected point are doubles as they stand. -/
def ExactComputation (p s e : Point) : Prop :=
  Representable (p.x - s.x) ∧ Representable (p.y - s.y) ∧
  Representable (e.x - s.x) ∧ Representable (e.y - s.y) ∧
  Representable ((p.x - s.x) * (e.x - s.x)) ∧ Representable ((p.y - s.y) * (e.y - s.y)) ∧
  Representable ((p.x - s.x) * (e.x - s.x) + (p.y - s.y) * (e.y - s.y)) ∧
  Representable ((e.x - s.x) * (e.x - s.x)) ∧ Representable ((e.y - s.y) * (e.y - s.y)) ∧
  Representable (exactLenSq s e) ∧
  Representable (exactParam p s e) ∧
  Representable (exactParam p s e * (e.x - s.x)) ∧
  Representable (exactParam p s e * (e.y - s.y)) ∧
  Representable (s.x + exactParam p s e * (e.x - s.x)) ∧
  Representable (s.y + exactParam p s e * (e.y - s.y))

instance (p s e : Point) : Decidable (ExactComputation p s e) := by
  unfold ExactComputation
  infer_instance

/-- The loop of `findClosestSegment` (line 1626), entered at pair `i` with the waypoints
from index `i` on. -/
def closestLoop (latLngToLayerPoint : LatLng → Point) (clickPoint : LatLng) :
    Nat → List LatLng → ClosestState → ClosestState
  | i, a :: b :: rest, st =>
    closestLoop latLngToLayerPoint clickPoint (i + 1) (b :: rest)
      (closestStep (latLngToLayerPoint clickPoint) st i (latLngToLayerPoint a)
        (latLngToLayerPoint b))
  | _, _, st => st

/-- The method `findClosestSegment(clickPoint)` (lines 1619-1680) on the route `route`. -/
def findClosestSegment (latLngToLayerPoint : LatLng → Point) (route : List LatLng)
    (clickPoint : LatLng) : Int :=
  if route.length < 2 then -1
  else
    (closestLoop latLngToLayerPoint clickPoint 0 route
      { minDistance := none, closestSegment := -1, closestDistance := none }).closestSegment

/-- The method `addMeasurementPoint(latlng)` (lines 1087-1126). -/
def addMeasurementPoint (latlng : LatLng) (s : RoutePlanner) : RoutePlanner :=
  { s with measurementPoints := s.measurementPoints ++ [latlng] }

/-- The method `handleMapClick(e)` (lines 1683-1707) for a click at `latlng`. -/
def handleMapClick (env : Env) (latLngToLayerPoint : LatLng → Point) (latlng : LatLng)
    (s : RoutePlanner) : RoutePlanner :=
  if s.isMeasuring then addMeasurementPoint latlng s
  else
    let insertIndex := findClosestSegment latLngToLayerPoint s.route latlng
    if insertIndex ≠ -1 then addPoint env latlng insertIndex s
    else addPoint env latlng (-1) s

/-- The method `addHybridPoint(latlng)` (lines 3220-3233): the point is appended to the
route; the rest of the method enables the calculate button of the page. -/
def addHybridPoint (env : Env) (latlng : LatLng) (s : RoutePlanner) : RoutePlanner :=
  addPoint env latlng (-1) s

/-- The method `handleMapClickEnhanced(e)` (lines 3204-3217), the handler bound to map
clicks (line 498), for a click at `latlng`. -/
def handleMapClickEnhanced (env : Env) (latLngToLayerPoint : LatLng → Point) (latlng : LatLng)
    (s : RoutePlanner) : RoutePlanner :=
  if s.isMeasuring then addMeasurementPoint latlng s
  else if s.routingMode = "manual" then handleMapClick env latLngToLayerPoint latlng s
  else if s.routingMode = "hybrid" then addHybridPoint env latlng s
  else s

/-- The pair of consecutive waypoints number `i` of a route. -/
def pairAt (route : List LatLng) (i : Nat) : Option (LatLng × LatLng) :=
  match route.get? i, route.get? (i + 1) with
  | some a, some b => some (a, b)
  | _, _ => none

/-- A map collaborator showing one degree as one hundred pixels, north up. -/
def flatProjection (p : LatLng) : Point :=
  { x := p.lng * 100, y := -(p.lat * 100) }

/-! ## A worked scenario -/

/-- The waypoint (52.0, 13.0). -/
def wpA : LatLng := ⟨52, 13⟩

/-- The waypoint (52.1, 13.1). -/
def wpB : LatLng := ⟨mkRat 521 10, mkRat 131 10⟩

/-- The waypoint (52.2, 13.0). -/
def wpC : LatLng := ⟨mkRat 522 10, 13⟩

/-- A provider answering every request with the two-point straight geometry from start to
end, 12000 m and 1800 s. -/
def straightEnv : Env :=
  { calculateDistance := fun _ _ _ _ => 0,
    requestRouteFromAPI := fun _ a b =>
      Except.ok { geometry := ⟨[(a.lng, a.lat), (b.lng, b.lat)]⟩, distance := 12000, duration := 1800 } }

/-- A provider that answers like `straightEnv` except for gap 1, whose request is rejected
with the error of `requestRouteFromOSRM`. -/
def failSecondEnv : Env :=
  { calculateDistance := fun _ _ _ _ => 0,
    requestRouteFromAPI := fun i a b =>
      if i = 1 then Except.error "Route not found"
      else Except.ok
        { geometry := ⟨[(a.lng, a.lat), (b.lng, b.lat)]⟩, distance := 12000, duration := 1800 } }

/-- A fresh planner after two map clicks: the route is `wpA`, `wpB`. -/
def twoPoints : RoutePlanner :=
  addPoint straightEnv wpB (-1) (addPoint straightEnv wpA (-1) (init straightEnv))

/-- The state after one run of `calculateHybridRoute` on `twoPoints`. -/
def twoPointsRouted : RoutePlanner :=
  calculateHybridRoute straightEnv twoPoints

/-- A fresh planner after three map clicks: the route is `wpA`, `wpB`, `wpC`. -/
def threePoints : RoutePlanner :=
  addPoint straightEnv wpC (-1) twoPoints

/-- The states the planner reaches from its initial state through `addPoint`,
`removePoint`, `clearRoute`, `loadRoute`, `clearAutoSegments` and completed runs of
`calculateHybridRoute`, whatever the collaborators answer. -/
inductive Reachable : RoutePlanner → Prop where
  | init (env : Env) : Reachable (init env)
  | addPoint (env : Env) (latlng : LatLng) (insertIndex : Int) (s : RoutePlanner) :
      Reachable s → Reachable (addPoint env latlng insertIndex s)
  | removePoint (env : Env) (index : Int) (s : RoutePlanner) :
      Reachable s → Reachable (removePoint env index s)
  | clearRoute (env : Env) (s : RoutePlanner) : Reachable s → Reachable (clearRoute env s)
  | loadRoute (env : Env) (coordinates : List LatLng) (s : RoutePlanner) :
      Reachable s → Reachable (loadRoute env coordinates s)
  | clearAutoSegments (s : RoutePlanner) : Reachable s → Reachable (clearAutoSegments s)
  | calculateHybridRoute (env : Env) (s : RoutePlanner) :
      Reachable s → hybridCompleted env s → Reachable (calculateHybridRoute env s)

/-- The entry `autoSegments[i]` is stale: it is present and one of its stored end points is
not the waypoint that now brackets gap `i`. -/
def StaleSegment (s : RoutePlanner) (i : Nat) : Prop :=
  ∃ seg, s.autoSegments.get? i = some (some seg) ∧
    (s.route.get? i ≠ some seg.startPoint ∨ s.route.get? (i + 1) ≠ some seg.endPoint)

/-- The list `validProfiles` of `setRoutingProfile` (line 2583). -/
def validProfiles : List String :=
  ["driving", "walking", "cycling", "cycling-mountain", "cycling-gravel", "cycling-regular"]

/-- The planner `twoPoints` after the mode button `manual` was pressed. -/
def manualTwoPoints : RoutePlanner :=
  setRoutingMode "manual" twoPoints

/-- A waypoint one ten-millionth of a degree south of the equator, on the prime meridian. -/
def wpSouth : LatLng := ⟨mkRat (-1) 10000000, 0⟩

/-- A waypoint one ten-millionth of a degree north of the equator, on the prime meridian. -/
def wpNorth : LatLng := ⟨mkRat 1 10000000, 0⟩

/-- The waypoint (0, 0). -/
def wpOrigin : LatLng := ⟨0, 0⟩

/-- The distance that `findClosestSegment` computes between the click and the pair of
waypoints `a`, `b`. -/
def pairDistance (latLngToLayerPoint : LatLng → Point) (clickPoint a b : LatLng) : ℚ :=
  segmentDistance (latLngToLayerPoint clickPoint) (latLngToLayerPoint a)
    (latLngToLayerPoint b)

/-- A planner whose route is the waypoint (0, 0) twice: one map click, then the menu item
that inserts a point before the first marker, which puts the new point on that marker. -/
def coincidentPair : RoutePlanner :=
  addPoint straightEnv wpOrigin 0 (addPoint straightEnv wpOrigin (-1) (init straightEnv))

/-- A click one degree east of (0, 0): one hundred pixels from it under `flatProjection`. -/
def clickEast : LatLng := ⟨0, 1⟩

/-- A planner in manual mode whose route runs east along the equator: (0, 0), (0, 1),
(0, 2). -/
def equatorRoute : RoutePlanner :=
  addPoint straightEnv ⟨0, 2⟩ (-1)
    (addPoint straightEnv ⟨0, 1⟩ (-1)
      (addPoint straightEnv wpOrigin (-1) (setRoutingMode "manual" (init straightEnv))))

/-- A click ten pixels south of the middle waypoint of `equatorRoute`. -/
def clickBelowMiddle : LatLng := ⟨mkRat (-1) 10, 1⟩

/-- A click on the midpoint of the first segment of `equatorRoute`. -/
def clickMidFirst : LatLng := ⟨0, mkRat 1 2⟩

/-- A click five degrees north of the eastern end of `equatorRoute`. -/
def clickFarNorth : LatLng := ⟨5, 2⟩

/-- A route along the equator that turns back at its second waypoint: from (0, 0) to 49
degrees east and on to 47 degrees west. Both of its segments pass through (0, 1). -/
def doubledBackRoute : List LatLng :=
  [wpOrigin, ⟨0, 49⟩, ⟨0, -47⟩]

/-- A map collaborator showing one degree as one hundred pixels, north up, with layer
points rounded to whole pixels as `latLngToLayerPoint` of Leaflet rounds them. -/
def pixelProjection (p : LatLng) : Point :=
  { x := ⌊p.lng * 100 + 1 / 2⌋, y := ⌊-(p.lat * 100) + 1 / 2⌋ }

/-- A waypoint 1/256 of a degree east of (0, 0): on the same pixel under
`pixelProjection`. -/
def wpNearOrigin : LatLng := ⟨0, mkRat 1 256⟩

/-- A planner in manual mode with three distinct waypoints, (0, 0), (0, 1/256) and (0, 6),
of which the first two share a pixel under `pixelProjection`. -/
def closePairRoute : RoutePlanner :=
  addPoint straightEnv ⟨0, 6⟩ (-1)
    (addPoint straightEnv wpNearOrigin (-1)
      (addPoint straightEnv wpOrigin (-1) (setRoutingMode "manual" (init straightEnv))))

/-- A click on the midpoint of the first segment of `closePairRoute`. -/
def clickMidClose : LatLng := ⟨0, mkRat 1 512⟩

/-- A click four degrees south of the midpoint of the second segment of `closePairRoute`:
five hundred pixels from the first two waypoints and four hundred from the second
segment. -/
def clickFarSouth : LatLng := ⟨-4, 3⟩

/-! ## Route edits as operations -/

/-- A structural edit of the route: `addPoint(latlng)`, `addPoint(latlng, index)` or
`removePoint(index)`. -/
inductive RouteOp where
  | append (latlng : LatLng)
  | insert (latlng : LatLng) (index : Nat)
  | remove (index : Nat)
deriving DecidableEq

/-- The call of `addPoint` or `removePoint` that the operation stands for. -/
def applyOp (env : Env) (op : RouteOp) (s : RoutePlanner) : RoutePlanner :=
  match op with
  | RouteOp.append latlng => addPoint env latlng (-1) s
  | RouteOp.insert latlng index => addPoint env latlng index s
  | RouteOp.remove index => removePoint env index s

/-- The operation has an index in range: `0..n` for an insertion and `0..n-1` for a removal,
where `n` is the length of the route. -/
def RouteOp.inRange (s : RoutePlanner) : RouteOp → Prop
  | RouteOp.append _ => True
  | RouteOp.insert _ index => index ≤ s.route.length
  | RouteOp.remove index => index < s.route.length

/-- The state after a sequence of operations. -/
def applyOps (env : Env) (ops : List RouteOp) (s : RoutePlanner) : RoutePlanner :=
  ops.foldl (fun t op => applyOp env op t) s

/-- Every operation of the sequence has its index in range when it is applied. -/
def OpsInRange (env : Env) : RoutePlanner → List RouteOp → Prop
  | _, [] => True
  | s, op :: rest => op.inRange s ∧ OpsInRange env (applyOp env op s) rest

/-- Whether an operation is in range can be decided. -/
instance (s : RoutePlanner) (op : RouteOp) : Decidable (op.inRange s) := by
  cases op <;> unfold RouteOp.inRange <;> infer_instance

/-- Whether a sequence of operations is in range can be decided by applying it. -/
def decideOpsInRange (env : Env) :
    (s : RoutePlanner) → (ops : List RouteOp) → Decidable (OpsInRange env s ops)
  | _, [] => isTrue trivial
  | s, op :: rest =>
    match (inferInstance : Decidable (op.inRange s)),
      decideOpsInRange env (applyOp env op s) rest with
    | isTrue h1, isTrue h2 => isTrue ⟨h1, h2⟩
    | isFalse h1, _ => isFalse (fun h => h1 h.1)
    | _, isFalse h2 => isFalse (fun h => h2 h.2)

/-- The instance given by `decideOpsInRange`. -/
instance (env : Env) (s : RoutePlanner) (ops : List RouteOp) :
    Decidable (OpsInRange env s ops) :=
  decideOpsInRange env s ops

/-- The number of `addPoint` calls in a sequence of operations. -/
def countAdds (ops : List RouteOp) : Nat :=
  ops.countP (fun op => match op with
    | RouteOp.remove _ => false
    | _ => true)

/-- The number of `removePoint` calls in a sequence of operations. -/
def countRemoves (ops : List RouteOp) : Nat :=
  ops.countP (fun op => match op with
    | RouteOp.remove _ => true
    | _ => false)

/-- A stand-in for the haversine routine that tells apart equal and different latitudes:
0 km for equal latitudes, 1 km otherwise. -/
def latStepEnv : Env :=
  { calculateDistance := fun lat1 _ lat2 _ => if lat1 = lat2 then 0 else 1,
    requestRouteFromAPI := fun _ _ _ => Except.error "Route not found" }

/-- The waypoint (1, 0). -/
def wpNorthOne : LatLng := ⟨1, 0⟩

/-- A planner with the route (0, 0), (1, 0), built with `latStepEnv`. -/
def northLeg : RoutePlanner :=
  addPoint latStepEnv wpNorthOne (-1) (addPoint latStepEnv wpOrigin (-1) (init latStepEnv))

/-! ## The event registry -/

/-- The names of the properties that the plain object `eventListeners = {}` inherits from
`Object.prototype`; each of them is a function or an object, and none is an array. -/
def objectPrototypeNames : List String :=
  ["constructor", "__defineGetter__", "__defineSetter__", "hasOwnProperty",
    "__lookupGetter__", "__lookupSetter__", "isPrototypeOf", "propertyIsEnumerable", "toString",
    "valueOf", "__proto__", "toLocaleString"]

/-- The object `eventListeners` with the arrays of callbacks it has as own properties, and
the calls made to callbacks so far, each with the data passed. A callback is a collaborator:
it is known by a number, returns normally and does not touch the registry. -/
structure EventBus where
  eventListeners : JSMap (List Nat)
  calls : List (Nat × Option String)
deriving DecidableEq

/-- The value of `this.eventListeners[event]`. -/
inductive Property where
  | callbacks (cs : List Nat)
  | inherited
  | undefined
deriving DecidableEq

/-- The property read `this.eventListeners[event]`: an own array of callbacks, else a
property inherited from `Object.prototype`, else `undefined`. -/
def EventBus.property (bus : EventBus) (event : String) : Property :=
  match bus.eventListeners.get event with
  | some cs => Property.callbacks cs
  | none => if event ∈ objectPrototypeNames then Property.inherited else Property.undefined

/-- The registry of a new planner (line 44). -/
def EventBus.new : EventBus :=
  { eventListeners := ⟨[]⟩, calls := [] }

/-- The method `addEventListener(event, callback)` (lines 2600-2605). Only `undefined` is
falsy among the values of the property; `push` exists on an array only. -/
def EventBus.addEventListener (event : String) (callback : Nat) (bus : EventBus) :
    Except String EventBus :=
  let bus1 :=
    match bus.property event with
    | Property.undefined => { bus with eventListeners := bus.eventListeners.set event [] }
    | _ => bus
  match bus1.property event with
  | Property.callbacks cs =>
    Except.ok { bus1 with eventListeners := bus1.eventListeners.set event (cs ++ [callback]) }
  | _ => Except.error "TypeError: this.eventListeners[event].push is not a function"

/-- The method `emit(event, data)` (lines 2607-2611) with its subscribers: `forEach` calls
the callbacks of the array in order and exists on an array only. -/
def EventBus.emit (event : String) (data : Option String) (bus : EventBus) :
    Except String EventBus :=
  match bus.property event with
  | Property.undefined => Except.ok bus
  | Property.callbacks cs =>
    Except.ok { bus with calls := bus.calls ++ cs.map (fun callback => (callback, data)) }
  | Property.inherited =>
    Except.error "TypeError: this.eventListeners[event].forEach is not a function"

/-- The calls `addEventListener(event, callback)` for the pairs of the list, in order,
stopping at the first one that throws. -/
def EventBus.registerAll : List (String × Nat) → EventBus → Except String EventBus
  | [], bus => Except.ok bus
  | (event, callback) :: rest, bus =>
    match bus.addEventListener event callback with
    | Except.ok bus1 => EventBus.registerAll rest bus1
    | Except.error e => Except.error e

/-! ## Cycling settings and trail durations -/

/-- The JavaScript expression `x || d` for a checkbox state `x`, where `none` is the
`undefined` that `?.checked` gives for a missing element. -/
def jsOr (x : Option Bool) (d : Bool) : Bool :=
  match x with
  | some true => true
  | _ => d

/-- The state of the three cycling checkboxes of the page; `none` is a missing element. -/
structure CyclingControls where
  avoidHighways : Option Bool
  preferTrails : Option Bool
  allowUnpaved : Option Bool
deriving DecidableEq

/-- The object returned by `getCyclingSettings`. -/
structure CyclingSettings where
  avoidHighways : Bool
  preferTrails : Bool
  allowUnpaved : Bool
deriving DecidableEq

/-- The method `getCyclingSettings` (lines 3059-3065). -/
def getCyclingSettings (controls : CyclingControls) : CyclingSettings :=
  { avoidHighways := jsOr controls.avoidHighways true,
    preferTrails := jsOr controls.preferTrails true,
    allowUnpaved := jsOr controls.allowUnpaved false }

/-- The characters `sub` occur in `s` as a contiguous block. -/
def includesChars : List Char → List Char → Bool
  | [], sub => sub.isPrefixOf []
  | c :: s, sub => sub.isPrefixOf (c :: s) || includesChars s sub

/-- The method `String.prototype.includes`. -/
def jsIncludes (s sub : String) : Bool :=
  includesChars s.data sub.data

/-- The method `calculateRouteDistance(coordinates)` (lines 3004-3014) on `[lon, lat]`
pairs: metres. -/
def calculateRouteDistance (env : Env) (coordinates : List (ℚ × ℚ)) : ℚ :=
  (List.zip coordinates coordinates.tail).foldl
      (fun acc p => acc + env.calculateDistance p.1.2 p.1.1 p.2.2 p.2.1) 0 * 1000

/-- The variable `baseSpeedKmh` of `estimateTrailDuration` (lines 3024-3040). -/
def baseSpeedKmh (settings : CyclingSettings) (profile : String) : ℚ :=
  if profile = "cycling-mountain" then (if settings.allowUnpaved then 15 else 12)
  else if profile = "cycling-gravel" then (if settings.preferTrails then 16 else 18)
  else if profile = "cycling-regular" then 22
  else if profile = "walking" then 4
  else 15

/-- The variable `finalSpeed` of `estimateTrailDuration` (lines 3043-3051); the factors
0.9 and 0.85 are the exact decimal fractions. -/
def finalSpeed (settings : CyclingSettings) (profile : String) : ℚ :=
  let speed1 :=
    if settings.avoidHighways && jsIncludes profile "cycling" then
      baseSpeedKmh settings profile * (9 / 10)
    else baseSpeedKmh settings profile
  if settings.preferTrails && jsIncludes profile "cycling" then speed1 * (85 / 100) else speed1

/-- The method `estimateTrailDuration(coordinates, activityType)` (lines 3017-3056):
seconds. An `activityType` that is missing or empty gives way to `routingProfile`. -/
def estimateTrailDuration (env : Env) (controls : CyclingControls) (routingProfile : String)
    (coordinates : List (ℚ × ℚ)) (activityType : Option String) : ℚ :=
  let distance := calculateRouteDistance env coordinates / 1000
  let profile :=
    match activityType with
    | some t => if t = "" then routingProfile else t
    | none => routingProfile
  distance / finalSpeed (getCyclingSettings controls) profile * 3600

/-! ## A point at a distance along the route -/

/-- The loop of `getPointAtDistance` (lines 718-736): the first pair of consecutive
waypoints at which the accumulated distance reaches the target, with the distance
accumulated before it. The sum of line 724 and the one of line 735 are the same number. -/
def selectSegment (env : Env) (targetDistanceKm : ℚ) :
    ℚ → List LatLng → Option (LatLng × LatLng × ℚ)
  | accumulatedDistance, a :: b :: rest =>
    if fadd accumulatedDistance (env.calculateDistance a.lat a.lng b.lat b.lng) ≥
        targetDistanceKm
    then some (a, b, accumulatedDistance)
    else
      selectSegment env targetDistanceKm
        (fadd accumulatedDistance (env.calculateDistance a.lat a.lng b.lat b.lng)) (b :: rest)
  | _, _ => none

/-- The variable `ratio` of `getPointAtDistance` (lines 726-727) for the selected pair. -/
def segmentRatio (env : Env) (targetDistanceKm : ℚ) (a b : LatLng) (accumulatedDistance : ℚ) :
    ℚ :=
  fdiv (fsub targetDistanceKm accumulatedDistance)
    (env.calculateDistance a.lat a.lng b.lat b.lng)

/-- The point of lines 729-732 for the pair `a`, `b` and the ratio `ratio`. -/
def interpolate (a b : LatLng) (ratio : ℚ) : LatLng :=
  { lat := fadd a.lat (fmul (fsub b.lat a.lat) ratio),
    lng := fadd a.lng (fmul (fsub b.lng a.lng) ratio) }

/-- The method `getPointAtDistance(targetDistanceKm)` (lines 713-739); `none` is `null`. -/
def getPointAtDistance (env : Env) (route : List LatLng) (targetDistanceKm : ℚ) :
    Option LatLng :=
  if route.length < 2 then none
  else
    (selectSegment env targetDistanceKm 0 route).map (fun sel =>
      interpolate sel.1 sel.2.1 (segmentRatio env targetDistanceKm sel.1 sel.2.1 sel.2.2))

/-- A stand-in for the haversine routine: 2 km from a point at latitude -1, and
0.9999999999999999 km, the double below 1, from any other point. -/
def roundingEnv : Env :=
  { calculateDistance := fun lat1 _ _ _ => if lat1 = -1 then 2 else 1 - 1 / 2 ^ 53,
    requestRouteFromAPI := fun _ _ _ => Except.error "Route not found" }

/-- A route north along the prime meridian: latitudes -1, 0 and 1. -/
def meridianRoute : List LatLng :=
  [⟨-1, 0⟩, ⟨0, 0⟩, ⟨1, 0⟩]

/-! ## Durations and distance markers -/

/-- The JavaScript remainder `a % b` of numbers: `a - b * trunc(a / b)`, with the sign of
the dividend. -/
def jsRemainder (a b : ℚ) : ℚ :=
  a - b * (if a / b < 0 then ⌈a / b⌉ else ⌊a / b⌋)

/-- The function `Math.round`: the nearest integer, a half rounding up. -/
def mathRound (x : ℚ) : ℤ :=
  ⌊x + 1 / 2⌋

/-- The constant `days` of `formatDuration` (line 749). -/
def durationDays (totalMinutes : ℚ) : ℤ :=
  ⌊totalMinutes / (24 * 60)⌋

/-- The constant `hours` of `formatDuration` (line 750). -/
def durationHours (totalMinutes : ℚ) : ℤ :=
  ⌊jsRemainder totalMinutes (24 * 60) / 60⌋

/-- The constant `minutes` of `formatDuration` (line 751). -/
def durationMinutes (totalMinutes : ℚ) : ℤ :=
  mathRound (jsRemainder totalMinutes 60)

/-- The Russian plural forms chosen by `getDaysText`, `getHoursText` and `getMinutesText`
(lines 771-787), which differ in the three words only. -/
def pluralText (one few many : String) (n : ℤ) : String :=
  if n.tmod 10 = 1 ∧ n.tmod 100 ≠ 11 then one
  else if n.tmod 10 ≥ 2 ∧ n.tmod 10 ≤ 4 ∧ (n.tmod 100 < 10 ∨ n.tmod 100 ≥ 20) then few
  else many

/-- The method `getDaysText` (lines 771-775). -/
def getDaysText (days : ℤ) : String :=
  pluralText "день" "дня" "дней" days

/-- The method `getHoursText` (lines 777-781). -/
def getHoursText (hours : ℤ) : String :=
  pluralText "час" "часа" "часов" hours

/-- The method `getMinutesText` (lines 783-787). -/
def getMinutesText (minutes : ℤ) : String :=
  pluralText "минута" "минуты" "минут" minutes

/-- The method `formatDuration(totalMinutes)` (lines 748-768). -/
def formatDuration (totalMinutes : ℚ) : String :=
  let days := durationDays totalMinutes
  let hours := durationHours totalMinutes
  let minutes := durationMinutes totalMinutes
  let result1 := "≈ " ++ (if days > 0 then toString days ++ " " ++ getDaysText days ++ " " else "")
  let result2 := result1 ++ (if hours > 0 then toString hours ++ " " ++ getHoursText hours ++ " " else "")
  let result3 :=
    result2 ++
      (if minutes > 0 ∨ (days = 0 ∧ hours = 0) then
        toString minutes ++ " " ++ getMinutesText minutes
      else "")
  result3.trim

/-- An element of the list built by `getSmartDistanceMarkers`. -/
structure DistanceMarker where
  distance : ℚ
  label : String
deriving DecidableEq

/-- The variable `interval` of `getSmartDistanceMarkers` (lines 1376-1391). -/
def smartInterval (maxDistance : ℚ) : ℚ :=
  if maxDistance < 5 then 1 / 2
  else if maxDistance < 20 then 2
  else if maxDistance < 50 then 5
  else if maxDistance < 100 then 10
  else 20

/-- The `while` loop of `getSmartDistanceMarkers` (lines 1394-1412), run for at most `fuel`
rounds. -/
def markerLoop (maxDistance interval : ℚ) :
    Nat → ℚ → List DistanceMarker → List DistanceMarker
  | 0, _, markers => markers
  | fuel + 1, currentDistance, markers =>
    if currentDistance < maxDistance then
      let markerDistance :=
        if interval ≥ 5 then (mathRound (currentDistance / interval) : ℚ) * interval
        else currentDistance
      let markers1 :=
        if markerDistance < maxDistance ∧ markerDistance > 0 then
          markers ++ [{ distance := markerDistance,
                        label := toString (mathRound markerDistance) }]
        else markers
      markerLoop maxDistance interval fuel (currentDistance + interval) markers1
    else markers

/-- The filter of `getSmartDistanceMarkers` (lines 1423-1425): a marker stays when it is the
first one of the list with its distance. -/
def uniqueMarkers (markers : List DistanceMarker) : List DistanceMarker :=
  (markers.enum.filter (fun p =>
    decide (p.1 = markers.findIdx (fun m => decide (m.distance = p.2.distance))))).map
    (fun p => p.2)

/-- The method `getSmartDistanceMarkers(maxDistance)` (lines 1367-1430). The loop is run
with as many rounds as there are multiples of the interval up to `maxDistance`, which is
enough for it to end by its own test (`markerLoop_fuel`). The stable `sort` by distance is
an insertion sort. -/
def getSmartDistanceMarkers (maxDistance : ℚ) : List DistanceMarker :=
  let markers0 : List DistanceMarker := [{ distance := 0, label := "0" }]
  let interval := smartInterval maxDistance
  let markers1 :=
    markerLoop maxDistance interval ⌈maxDistance / interval⌉.toNat interval markers0
  let markers2 :=
    if maxDistance > 1 / 10 then
      markers1 ++ [{ distance := maxDistance, label := toString (mathRound maxDistance) }]
    else markers1
  (uniqueMarkers markers2).insertionSort (fun a b => a.distance ≤ b.distance)

/-! ## Routing providers -/

/-- The web services that `requestRouteFromAPI` can query. -/
inductive Service where
  | waymarkedTrails
  | thunderforest
  | openRouteService
  | osrm
deriving DecidableEq

/-- What `fetch` followed by `response.json()` comes to: the request is rejected, the
response is not `ok`, the body is not JSON, or the body is read. -/
inductive Fetched (β : Type) where
  | rejected (message : String)
  | notOk (status : Nat) (statusText : String)
  | invalidJson (message : String)
  | json (data : β)

/-- The body of an OSRM reply; `routes` is `none` when the field is missing. -/
structure OsrmBody where
  code : String
  routes : Option (List RouteData)

/-- An element of `routes` in a Thunderforest reply; `geometry` is `none` when missing. -/
structure ThunderforestRoute where
  geometry : Option Geometry
  distance : ℚ
  duration : ℚ

/-- The body of a Thunderforest reply. -/
structure ThunderforestBody where
  routes : Option (List ThunderforestRoute)

/-- An element of `properties.segments` of an OpenRouteService feature. -/
structure OrsSegment where
  distance : ℚ
  duration : ℚ

/-- An element of `features` in an OpenRouteService reply; `segments` is `none` when
`properties` or `properties.segments` is missing. -/
structure OrsFeature where
  geometry : Geometry
  segments : Option (List OrsSegment)

/-- The body of an OpenRouteService reply. -/
structure OrsBody where
  features : Option (List OrsFeature)

/-- What the provider functions read: the page, the configured keys, the local storage and
the replies of the services for a request from one point to another. `trailGeometry` is
the variable `geometry` of `tryWaymarkedTrails` at line 2866, `none` when the function left
before with `null` (lines 2805-2864, or the `catch` of line 2872). -/
structure Providers where
  routingEngine : Option String
  routingProfile : String
  controls : CyclingControls
  orsKey : Option String
  storedOrsKey : Option String
  thunderforestKey : Option String
  storedThunderforestKey : Option String
  trailGeometry : LatLng → LatLng → Option Geometry
  thunderforest : LatLng → LatLng → Fetched ThunderforestBody
  openRouteService : LatLng → LatLng → Fetched OrsBody
  osrm : LatLng → LatLng → Fetched OsrmBody

/-- The JavaScript expression `x || d` for a string `x`, where `none` is `undefined` or
`null`: an empty string gives way to `d`. -/
def jsOrString (x : Option String) (d : String) : String :=
  match x with
  | some k => if k = "" then d else k
  | none => d

/-- The constant `routingEngine` of `requestRouteFromAPI` (line 2686). -/
def selectedEngine (w : Providers) : String :=
  jsOrString w.routingEngine "osrm"

/-- The constant `apiKey` of `requestRouteFromORS` (line 3071). -/
def orsApiKey (w : Providers) : String :=
  jsOrString w.orsKey (jsOrString w.storedOrsKey "")

/-- The constant `apiKey` of `tryThunderforestOutdoors` (line 2882). -/
def thunderforestApiKey (w : Providers) : String :=
  jsOrString w.thunderforestKey (jsOrString w.storedThunderforestKey "")

/-- The method `requestRouteFromOSRM` (lines 2701-2768): the services queried, in order,
and the route data the promise resolves to or the message of the error it rejects with. -/
def requestRouteFromOSRM (w : Providers) (startPoint endPoint : LatLng) :
    List Service × Except String RouteData :=
  ([Service.osrm],
    match w.osrm startPoint endPoint with
    | Fetched.rejected message => Except.error message
    | Fetched.notOk status statusText =>
      Except.error ("HTTP " ++ toString status ++ ": " ++ statusText)
    | Fetched.invalidJson message => Except.error message
    | Fetched.json data =>
      if data.code ≠ "Ok" then Except.error "Route not found"
      else
        match data.routes with
        | some (route :: _) =>
          Except.ok
            { geometry := route.geometry, distance := route.distance, duration := route.duration }
        | _ => Except.error "Route not found")

/-- The method `tryWaymarkedTrails` (lines 2794-2876): the services queried and the route
data, `none` being `null`. -/
def tryWaymarkedTrails (env : Env) (w : Providers) (startPoint endPoint : LatLng) :
    List Service × Option RouteData :=
  ([Service.waymarkedTrails],
    match w.trailGeometry startPoint endPoint with
    | some geometry =>
      some
        { geometry := geometry,
          distance := calculateRouteDistance env geometry.coordinates,
          duration :=
            estimateTrailDuration env w.controls w.routingProfile geometry.coordinates
              (some w.routingProfile) }
    | none => none)

/-- The method `tryThunderforestOutdoors` (lines 2879-2924). A first route without
`geometry` raises a `TypeError` at line 2914, which the `catch` turns into `null`. -/
def tryThunderforestOutdoors (w : Providers) (startPoint endPoint : LatLng) :
    List Service × Option RouteData :=
  if thunderforestApiKey w = "" then ([], none)
  else
    ([Service.thunderforest],
      match w.thunderforest startPoint endPoint with
      | Fetched.json data =>
        match data.routes with
        | some (route :: _) =>
          match route.geometry with
          | some geometry =>
            some
              { geometry := { coordinates := geometry.coordinates },
                distance := route.distance, duration := route.duration }
          | none => none
        | _ => none
      | _ => none)

/-- The method `requestRouteFromOSRMTrails` (lines 2771-2791). -/
def requestRouteFromOSRMTrails (env : Env) (w : Providers) (startPoint endPoint : LatLng) :
    List Service × Except String RouteData :=
  match tryWaymarkedTrails env w startPoint endPoint with
  | (queried1, some trailRoute) => (queried1, Except.ok trailRoute)
  | (queried1, none) =>
    match tryThunderforestOutdoors w startPoint endPoint with
    | (queried2, some outdoorsRoute) => (queried1 ++ queried2, Except.ok outdoorsRoute)
    | (queried2, none) =>
      (queried1 ++ queried2 ++ (requestRouteFromOSRM w startPoint endPoint).1,
        (requestRouteFromOSRM w startPoint endPoint).2)

/-- The method `requestRouteFromORS` (lines 3068-3144). Without a key the promise of
`requestRouteFromOSRM` is returned (line 3076); a `return` of a promise inside `try` is not
awaited, so its rejection does not reach the `catch`. With a key the service is queried,
and every other way out (lines 3120, 3127 and the `catch` at 3139, reached by a rejected
`fetch`, a body that is not JSON or a first feature without segments) asks OSRM. -/
def requestRouteFromORS (w : Providers) (startPoint endPoint : LatLng) :
    List Service × Except String RouteData :=
  if orsApiKey w = "" then requestRouteFromOSRM w startPoint endPoint
  else
    let fallback : List Service × Except String RouteData :=
      (Service.openRouteService :: (requestRouteFromOSRM w startPoint endPoint).1,
        (requestRouteFromOSRM w startPoint endPoint).2)
    match w.openRouteService startPoint endPoint with
    | Fetched.json data =>
      match data.features with
      | some (feature :: _) =>
        match feature.segments with
        | some (segment :: _) =>
          ([Service.openRouteService],
            Except.ok
              { geometry := feature.geometry, distance := segment.distance,
                duration := segment.duration })
        | _ => fallback
      | _ => fallback
    | _ => fallback

/-- The method `requestRouteFromAPI` (lines 2685-2698). -/
def requestRouteFromAPI (env : Env) (w : Providers) (startPoint endPoint : LatLng) :
    List Service × Except String RouteData :=
  if selectedEngine w = "osrm" then requestRouteFromOSRM w startPoint endPoint
  else if selectedEngine w = "osrm-trails" then
    requestRouteFromOSRMTrails env w startPoint endPoint
  else if selectedEngine w = "ors" then requestRouteFromORS w startPoint endPoint
  else requestRouteFromOSRM w startPoint endPoint

/-- A chain of providers, as the specification words it: the alternates are tried in order,
the first one with a route supplies the result and nothing after it is queried; when none
has a route the last provider decides, by its route or its error. -/
def tryInOrder (alternates : List (List Service × Option RouteData))
    (last : List Service × Except String RouteData) : List Service × Except String RouteData :=
  match alternates with
  | [] => last
  | attempt :: rest =>
    match attempt.2 with
    | some routeData => (attempt.1, Except.ok routeData)
    | none => (attempt.1 ++ (tryInOrder rest last).1, (tryInOrder rest last).2)

/-- The credentialed service as one provider of a chain: without a key it is passed over
unqueried, with a key it is queried and has a route when its reply holds a first feature
with a first segment. -/
def openRouteServiceAttempt (w : Providers) (startPoint endPoint : LatLng) :
    List Service × Option RouteData :=
  if orsApiKey w = "" then ([], none)
  else
    ([Service.openRouteService],
      match w.openRouteService startPoint endPoint with
      | Fetched.json data =>
        match data.features with
        | some (feature :: _) =>
          match feature.segments with
          | some (segment :: _) =>
            some
              { geometry := feature.geometry, distance := segment.distance,
                duration := segment.duration }
          | _ => none
        | _ => none
      | _ => none)

/-- The providers that stand before the primary router in the chain of the selected
engine. -/
def providerChain (env : Env) (w : Providers) (startPoint endPoint : LatLng) :
    List (List Service × Option RouteData) :=
  if selectedEngine w = "osrm-trails" then
    [tryWaymarkedTrails env w startPoint endPoint, tryThunderforestOutdoors w startPoint endPoint]
  else if selectedEngine w = "ors" then [openRouteServiceAttempt w startPoint endPoint]
  else []

/-- The straight two-point geometry from `wpA` to `wpB`. -/
def straightAB : Geometry :=
  ⟨[(wpA.lng, wpA.lat), (wpB.lng, wpB.lat)]⟩

/-- A page with the ORS engine selected and no key anywhere; OSRM has a route. -/
def orsNoKey : Providers :=
  { routingEngine := some "ors",
    routingProfile := "cycling-regular",
    controls := ⟨none, none, none⟩,
    orsKey := some "",
    storedOrsKey := none,
    thunderforestKey := none,
    storedThunderforestKey := none,
    trailGeometry := fun _ _ => none,
    thunderforest := fun _ _ => Fetched.rejected "Failed to fetch",
    openRouteService := fun _ _ =>
      Fetched.json ⟨some [⟨straightAB, some [⟨7000, 900⟩]⟩]⟩,
    osrm := fun _ _ => Fetched.json ⟨"Ok", some [⟨straightAB, 12000, 1800⟩]⟩ }

/-- A page with the trail engine selected: no trail is found, the Thunderforest key is
stored and its service has a route; OSRM would fail. -/
def trailsSecondWins : Providers :=
  { routingEngine := some "osrm-trails",
    routingProfile := "cycling-mountain",
    controls := ⟨none, none, none⟩,
    orsKey := none,
    storedOrsKey := none,
    thunderforestKey := none,
    storedThunderforestKey := some "tf-key",
    trailGeometry := fun _ _ => none,
    thunderforest := fun _ _ => Fetched.json ⟨some [⟨some straightAB, 9000, 2400⟩]⟩,
    openRouteService := fun _ _ => Fetched.rejected "Failed to fetch",
    osrm := fun _ _ => Fetched.notOk 503 "Service Unavailable" }

/-! ## Overlapping runs of the hybrid router -/

/-- A run of `calculateHybridRoute` that is suspended at the `await` of line 2666: the
constants of the pending call of `calculateAutoSegment`. The loop variable `i` of the run
is `segmentIndex`. -/
structure Awaiting where
  startPoint : LatLng
  endPoint : LatLng
  segmentIndex : Nat
  cacheKey : String
deriving DecidableEq

/-- The `for` loop of `calculateHybridRoute` (lines 2636-2641) from gap `i`, with the
waypoints from index `i` on, up to the first provider request (line 2666): gaps found in
the cache are displayed at once (lines 2659-2663). The result is the suspended call, or
`none` when the loop has ended. -/
def loopUntilRequest : Nat → List LatLng → RoutePlanner → Option Awaiting × RoutePlanner
  | i, startPoint :: endPoint :: rest, s =>
    let cacheKey := getCacheKey s startPoint endPoint
    let s1 := { s with trace := s.trace ++ [Action.cacheLookup i cacheKey] }
    match s1.routingCache.get cacheKey with
    | some cached =>
      loopUntilRequest (i + 1) (endPoint :: rest) (displayAutoSegment cached.geometry i s1)
    | none =>
      (some ⟨startPoint, endPoint, i, cacheKey⟩,
        { s1 with trace := s1.trace ++ [Action.providerRequest i startPoint endPoint] })
  | _, _, s => (none, s)

/-- A run goes on from gap `i` in state `s`: the loop reads `this.route` as it is now, and
after the last gap the run ends with lines 2643-2644. -/
def continueRun (env : Env) (i : Nat) (s : RoutePlanner) : Option Awaiting × RoutePlanner :=
  match loopUntilRequest i (s.route.drop i) s with
  | (some awaiting, s1) => (some awaiting, s1)
  | (none, s1) => (none, emit "routeChanged" none (updateRouteInfo env s1))

/-- A call of `calculateHybridRoute` (lines 2618-2652) up to its first provider request. -/
def startHybridRoute (env : Env) (s : RoutePlanner) : Option Awaiting × RoutePlanner :=
  if s.route.length < 2 then
    (none, alert "Нужно минимум 2 точки для расчета маршрута" s)
  else continueRun env 0 (hybridStart s)

/-- The reply to the provider request of a suspended run arrives in state `s`: a rejection
ends the run in the `catch` of line 2646; a route is cached, displayed and stored (lines
2669-2681) and the run goes on with the next gap. -/
def deliverReply (env : Env) (awaiting : Awaiting) (reply : Except String RouteData)
    (s : RoutePlanner) : Option Awaiting × RoutePlanner :=
  match reply with
  | Except.error message => (none, alert ("Ошибка расчета маршрута: " ++ message) s)
  | Except.ok routeData =>
    let s3 := { s with routingCache := s.routingCache.set awaiting.cacheKey routeData }
    let s4 := displayAutoSegment routeData.geometry awaiting.segmentIndex s3
    continueRun env (awaiting.segmentIndex + 1)
      { s4 with
        autoSegments :=
          jsArraySet s4.autoSegments awaiting.segmentIndex
            { startPoint := awaiting.startPoint, endPoint := awaiting.endPoint,
              geometry := routeData.geometry, distance := routeData.distance,
              duration := routeData.duration } }

/-- A run is driven to its end with every reply arriving before anything else happens; the
replies are those of `env`. -/
def settle (env : Env) : Nat → Option Awaiting × RoutePlanner → RoutePlanner
  | _, (none, s) => s
  | 0, (some _, s) => s
  | fuel + 1, (some awaiting, s) =>
    settle env fuel
      (deliverReply env awaiting
        (env.requestRouteFromAPI awaiting.segmentIndex awaiting.startPoint awaiting.endPoint) s)

/-- The pending request of a run on `twoPoints`: gap 0 from `wpA` to `wpB`. -/
def awaitingAB : Awaiting :=
  ⟨wpA, wpB, 0, getCacheKey twoPoints wpA wpB⟩

/-- The reply that the provider gives to the request of the first run. -/
def replyToFirst : RouteData :=
  ⟨straightAB, 111, 11⟩

/-- The reply that the provider gives to the request of the second run. -/
def replyToSecond : RouteData :=
  ⟨straightAB, 222, 22⟩

/-- The state in which a first run on `twoPoints` awaits its reply. -/
def firstRunStarted : Option Awaiting × RoutePlanner :=
  startHybridRoute straightEnv twoPoints

/-- The state after a second run was started while the first one awaits its reply. -/
def secondRunStarted : Option Awaiting × RoutePlanner :=
  startHybridRoute straightEnv firstRunStarted.2

/-- The state after the reply to the first run arrived, the second run still waiting. -/
def firstReplyArrived : Option Awaiting × RoutePlanner :=
  deliverReply straightEnv awaitingAB (Except.ok replyToFirst) secondRunStarted.2

/-- The run of `calculateHybridRoute` can be decided by running it. -/
instance (env : Env) (s : RoutePlanner) : Decidable (hybridCompleted env s) := by
  unfold hybridCompleted
  infer_instance

/-! ## Number arithmetic -/

theorem bitLengthAux_zero (fuel : Nat) : bitLengthAux fuel 0 = 0 := by
  cases fuel <;> rfl

theorem bitLengthAux_spec (fuel : Nat) :
    ∀ n, n ≤ fuel → n < 2 ^ bitLengthAux fuel n ∧
      (n ≠ 0 → 1 ≤ bitLengthAux fuel n ∧ 2 ^ (bitLengthAux fuel n - 1) ≤ n) := by
  induction fuel with
  | zero =>
    intro n hn
    have : n = 0 := by omega
    subst this
    exact ⟨by simp [bitLengthAux], fun h => absurd rfl h⟩
  | succ fuel ih =>
    intro n hn
    by_cases h0 : n = 0
    · subst h0
      exact ⟨by simp [bitLengthAux], fun h => absurd rfl h⟩
    · rw [bitLengthAux, if_neg h0]
      obtain ⟨hlt, hge⟩ := ih (n / 2) (by omega)
      refine ⟨?_, fun _ => ⟨by omega, ?_⟩⟩
      · rw [pow_succ]
        omega
      · simp only [Nat.add_sub_cancel]
        by_cases h2 : n / 2 = 0
        · rw [h2, bitLengthAux_zero]
          simp only [pow_zero]
          omega
        · obtain ⟨h1, hpow⟩ := hge h2
          have hs : bitLengthAux fuel (n / 2) = (bitLengthAux fuel (n / 2) - 1) + 1 := by omega
          rw [hs, pow_succ]
          omega

theorem bitLength_spec (n : Nat) (h : n ≠ 0) :
    1 ≤ bitLength n ∧ 2 ^ (bitLength n - 1) ≤ n ∧ n < 2 ^ bitLength n := by
  obtain ⟨hlt, hge⟩ := bitLengthAux_spec n n (le_refl n)
  exact ⟨(hge h).1, (hge h).2, hlt⟩

theorem abs_eq_natAbs_div_den (x : ℚ) : |x| = (x.num.natAbs : ℚ) / (x.den : ℚ) := by
  have h := Rat.num_div_den x
  have hden : (0 : ℚ) < x.den := by exact_mod_cast x.den_pos
  conv_lhs => rw [← h]
  rw [abs_div, abs_of_pos hden, Nat.cast_natAbs, Int.cast_abs]

/-- The exponent found by `floorLog2` is the one of the binade of `x`. -/
theorem floorLog2_spec (x : ℚ) (hx : x ≠ 0) :
    (2 : ℚ) ^ floorLog2 x ≤ |x| ∧ |x| < (2 : ℚ) ^ (floorLog2 x + 1) := by
  have hp : x.num.natAbs ≠ 0 := by
    simpa using hx
  have hq : x.den ≠ 0 := x.den_nz
  obtain ⟨ha1, halo, hahi⟩ := bitLength_spec _ hp
  obtain ⟨hb1, hblo, hbhi⟩ := bitLength_spec _ hq
  have habs := abs_eq_natAbs_div_den x
  have hqpos : (0 : ℚ) < x.den := by exact_mod_cast x.den_pos
  have halo' : (2 : ℚ) ^ (bitLength x.num.natAbs - 1) ≤ (x.num.natAbs : ℚ) := by
    exact_mod_cast halo
  have hahi' : (x.num.natAbs : ℚ) < (2 : ℚ) ^ bitLength x.num.natAbs := by
    exact_mod_cast hahi
  have hblo' : (2 : ℚ) ^ (bitLength x.den - 1) ≤ (x.den : ℚ) := by
    exact_mod_cast hblo
  have hbhi' : (x.den : ℚ) < (2 : ℚ) ^ bitLength x.den := by
    exact_mod_cast hbhi
  have two_ne : (2 : ℚ) ≠ 0 := by norm_num
  -- the two outer bounds
  have hupper : |x| < (2 : ℚ) ^ ((bitLength x.num.natAbs : ℤ) - (bitLength x.den : ℤ) + 1) := by
    have he : (bitLength x.num.natAbs : ℤ) - (bitLength x.den : ℤ) + 1 =
        ((bitLength x.num.natAbs : ℕ) : ℤ) - ((bitLength x.den - 1 : ℕ) : ℤ) := by omega
    rw [he, zpow_sub₀ two_ne, zpow_natCast, zpow_natCast, habs]
    rw [div_lt_div_iff₀ hqpos (by positivity)]
    calc (x.num.natAbs : ℚ) * 2 ^ (bitLength x.den - 1)
        < 2 ^ bitLength x.num.natAbs * 2 ^ (bitLength x.den - 1) := by
          apply mul_lt_mul_of_pos_right hahi' (by positivity)
      _ ≤ 2 ^ bitLength x.num.natAbs * (x.den : ℚ) := by
          apply mul_le_mul_of_nonneg_left hblo' (by positivity)
  have hlower : (2 : ℚ) ^ ((bitLength x.num.natAbs : ℤ) - (bitLength x.den : ℤ) - 1) < |x| := by
    have he : (bitLength x.num.natAbs : ℤ) - (bitLength x.den : ℤ) - 1 =
        ((bitLength x.num.natAbs - 1 : ℕ) : ℤ) - ((bitLength x.den : ℕ) : ℤ) := by omega
    rw [he, zpow_sub₀ two_ne, zpow_natCast, zpow_natCast, habs]
    rw [div_lt_div_iff₀ (by positivity) hqpos]
    calc (2 : ℚ) ^ (bitLength x.num.natAbs - 1) * (x.den : ℚ)
        < 2 ^ (bitLength x.num.natAbs - 1) * 2 ^ bitLength x.den := by
          apply mul_lt_mul_of_pos_left hbhi' (by positivity)
      _ ≤ (x.num.natAbs : ℚ) * 2 ^ bitLength x.den := by
          apply mul_le_mul_of_nonneg_right halo' (by positivity)
  unfold floorLog2
  simp only
  split
  · rename_i h
    exact ⟨h, hupper⟩
  · rename_i h
    refine ⟨le_of_lt hlower, ?_⟩
    rw [sub_add_cancel]
    exact not_le.mp h

/-- The binade of `x` determines `floorLog2 x`. -/
theorem floorLog2_unique (x : ℚ) (e : ℤ) (hlo : (2 : ℚ) ^ e ≤ |x|)
    (hhi : |x| < (2 : ℚ) ^ (e + 1)) : floorLog2 x = e := by
  have hx : x ≠ 0 := by
    intro h
    rw [h, abs_zero] at hlo
    exact absurd hlo (not_le.mpr (zpow_pos (by norm_num) e))
  obtain ⟨h1, h2⟩ := floorLog2_spec x hx
  have one_lt : (1 : ℚ) < 2 := by norm_num
  have ha : e < floorLog2 x + 1 :=
    (zpow_lt_zpow_iff_right₀ one_lt).mp (lt_of_le_of_lt hlo h2)
  have hb : floorLog2 x < e + 1 :=
    (zpow_lt_zpow_iff_right₀ one_lt).mp (lt_of_le_of_lt h1 hhi)
  omega

theorem floorLog2_neg (x : ℚ) : floorLog2 (-x) = floorLog2 x := by
  unfold floorLog2
  simp only [Rat.num_neg_eq_neg_num, Int.natAbs_neg, Rat.den_neg_eq_den, abs_neg]

theorem floorLog2_mono (x y : ℚ) (hx : 0 < x) (hxy : x ≤ y) : floorLog2 x ≤ floorLog2 y := by
  have hy : 0 < y := lt_of_lt_of_le hx hxy
  obtain ⟨h1, _⟩ := floorLog2_spec x (ne_of_gt hx)
  obtain ⟨_, h2⟩ := floorLog2_spec y (ne_of_gt hy)
  rw [abs_of_pos hx] at h1
  rw [abs_of_pos hy] at h2
  have := (zpow_lt_zpow_iff_right₀ (by norm_num : (1 : ℚ) < 2)).mp
    (lt_of_le_of_lt (le_trans h1 hxy) h2)
  omega

/-! ### Rounding to an integer -/

theorem roundHalfEven_cases (r : ℚ) :
    roundHalfEven r = ⌊r⌋ ∨ roundHalfEven r = ⌊r⌋ + 1 := by
  unfold roundHalfEven
  split_ifs <;> simp

theorem roundHalfEven_intCast (n : ℤ) : roundHalfEven (n : ℚ) = n := by
  unfold roundHalfEven
  simp

theorem roundHalfEven_sub_le (r : ℚ) : (roundHalfEven r : ℚ) - r ≤ 1 / 2 := by
  have h1 := Int.floor_le r
  have h2 := Int.lt_floor_add_one r
  unfold roundHalfEven
  split_ifs with ha hb hc
  · linarith
  · push_cast; linarith
  · linarith
  · push_cast
    have : r - ⌊r⌋ = 1 / 2 := le_antisymm (not_lt.mp hb) (not_lt.mp ha)
    linarith

theorem sub_roundHalfEven_le (r : ℚ) : r - (roundHalfEven r : ℚ) ≤ 1 / 2 := by
  have h1 := Int.floor_le r
  have h2 := Int.lt_floor_add_one r
  unfold roundHalfEven
  split_ifs with ha hb hc
  · linarith
  · push_cast; linarith
  · have : r - ⌊r⌋ = 1 / 2 := le_antisymm (not_lt.mp hb) (not_lt.mp ha)
    linarith
  · push_cast
    linarith

theorem roundHalfEven_mono (r s : ℚ) (h : r ≤ s) : roundHalfEven r ≤ roundHalfEven s := by
  have hfl : ⌊r⌋ ≤ ⌊s⌋ := Int.floor_mono h
  rcases lt_or_eq_of_le hfl with hlt | heq
  · have h1 : roundHalfEven r ≤ ⌊r⌋ + 1 := by
      rcases roundHalfEven_cases r with h | h <;> omega
    have h2 : ⌊s⌋ ≤ roundHalfEven s := by
      rcases roundHalfEven_cases s with h | h <;> omega
    omega
  · unfold roundHalfEven
    rw [← heq]
    have hsub : r - ⌊r⌋ ≤ s - ⌊r⌋ := by linarith
    split_ifs <;> first | omega | (exfalso; linarith)

theorem roundHalfEven_neg (r : ℚ) : roundHalfEven (-r) = -roundHalfEven r := by
  by_cases hint : (⌊r⌋ : ℚ) = r
  · rw [← hint, ← Int.cast_neg, roundHalfEven_intCast, roundHalfEven_intCast]
  · have hfl : ⌊-r⌋ = -⌊r⌋ - 1 := by
      rw [Int.floor_eq_iff]
      have h1 := Int.floor_le r
      have h2 := Int.lt_floor_add_one r
      have h3 : (⌊r⌋ : ℚ) < r := lt_of_le_of_ne h1 hint
      push_cast
      constructor <;> linarith
    unfold roundHalfEven
    rw [hfl]
    push_cast
    have h1 := Int.floor_le r
    have h2 := Int.lt_floor_add_one r
    split_ifs <;> first | omega | (exfalso; linarith)

theorem le_roundHalfEven (r : ℚ) (n : ℤ) (h : (n : ℚ) ≤ r) : n ≤ roundHalfEven r := by
  have := roundHalfEven_mono _ _ h
  rwa [roundHalfEven_intCast] at this

theorem roundHalfEven_le (r : ℚ) (n : ℤ) (h : r ≤ (n : ℚ)) : roundHalfEven r ≤ n := by
  have := roundHalfEven_mono _ _ h
  rwa [roundHalfEven_intCast] at this

/-! ### Rounding to a double -/

theorem ulp_pos (x : ℚ) : 0 < ulp x :=
  zpow_pos (by norm_num) _

theorem binadeExponent_neg (x : ℚ) : binadeExponent (-x) = binadeExponent x := by
  unfold binadeExponent
  rw [floorLog2_neg]

theorem ulp_neg (x : ℚ) : ulp (-x) = ulp x := by
  unfold ulp
  rw [binadeExponent_neg]

theorem two_zpow_binadeExponent (x : ℚ) :
    (2 : ℚ) ^ binadeExponent x = 2 ^ 52 * ulp x := by
  unfold ulp
  have he : binadeExponent x = ((52 : ℕ) : ℤ) + (binadeExponent x - 52) := by
    push_cast
    ring
  conv_lhs => rw [he]
  rw [zpow_add₀ (by norm_num : (2 : ℚ) ≠ 0), zpow_natCast]

theorem two_zpow_binadeExponent_succ (x : ℚ) :
    (2 : ℚ) ^ (binadeExponent x + 1) = 2 ^ 53 * ulp x := by
  unfold ulp
  have he : binadeExponent x + 1 = ((53 : ℕ) : ℤ) + (binadeExponent x - 52) := by
    push_cast
    ring
  conv_lhs => rw [he]
  rw [zpow_add₀ (by norm_num : (2 : ℚ) ≠ 0), zpow_natCast]

theorem roundDouble_zero : roundDouble 0 = 0 := by
  unfold roundDouble
  rw [zero_div]
  have : roundHalfEven 0 = 0 := by
    have := roundHalfEven_intCast 0
    simpa using this
  rw [this]
  simp

theorem roundDouble_neg (x : ℚ) : roundDouble (-x) = -roundDouble x := by
  unfold roundDouble
  rw [ulp_neg, neg_div, roundHalfEven_neg]
  push_cast
  ring

theorem abs_lt_two_zpow (x : ℚ) : |x| < (2 : ℚ) ^ (binadeExponent x + 1) := by
  by_cases hx : x = 0
  · rw [hx, abs_zero]
    exact zpow_pos (by norm_num) _
  · obtain ⟨_, h2⟩ := floorLog2_spec x hx
    refine lt_of_lt_of_le h2 (zpow_le_zpow_right₀ (by norm_num) ?_)
    unfold binadeExponent
    have := le_max_left (floorLog2 x) (-1022)
    omega

theorem abs_div_ulp_lt (x : ℚ) : |x / ulp x| < 2 ^ 53 := by
  rw [abs_div, abs_of_pos (ulp_pos x), div_lt_iff₀ (ulp_pos x), ← two_zpow_binadeExponent_succ]
  exact abs_lt_two_zpow x

/-- The mantissa chosen by `roundDouble` has at most 53 binary digits. -/
theorem abs_mantissa_le (x : ℚ) : |roundHalfEven (x / ulp x)| ≤ 2 ^ 53 := by
  have h := abs_div_ulp_lt x
  rw [abs_lt] at h
  rw [abs_le]
  constructor
  · apply le_roundHalfEven
    push_cast
    linarith [h.1]
  · apply roundHalfEven_le
    push_cast
    linarith [h.2]

theorem roundDouble_nonneg (x : ℚ) (hx : 0 ≤ x) : 0 ≤ roundDouble x := by
  unfold roundDouble
  apply mul_nonneg _ (le_of_lt (ulp_pos x))
  have : (0 : ℤ) ≤ roundHalfEven (x / ulp x) :=
    le_roundHalfEven _ 0 (by simpa using div_nonneg hx (le_of_lt (ulp_pos x)))
  exact_mod_cast this

theorem roundDouble_nonpos (x : ℚ) (hx : x ≤ 0) : roundDouble x ≤ 0 := by
  have h := roundDouble_nonneg (-x) (by linarith)
  rw [roundDouble_neg] at h
  linarith

theorem roundDouble_le_two_zpow (x : ℚ) :
    roundDouble x ≤ (2 : ℚ) ^ (binadeExponent x + 1) := by
  rw [two_zpow_binadeExponent_succ]
  unfold roundDouble
  apply mul_le_mul_of_nonneg_right _ (le_of_lt (ulp_pos x))
  have h := (abs_le.mp (abs_mantissa_le x)).2
  exact_mod_cast h

/-- A number of a normal binade is rounded within its binade. -/
theorem two_zpow_le_roundDouble (x : ℚ) (hx : 0 < x) (hnormal : -1022 ≤ floorLog2 x) :
    (2 : ℚ) ^ binadeExponent x ≤ roundDouble x := by
  have hE : binadeExponent x = floorLog2 x := by
    unfold binadeExponent
    exact max_eq_left hnormal
  have hlo : (2 : ℚ) ^ binadeExponent x ≤ x := by
    have := (floorLog2_spec x (ne_of_gt hx)).1
    rwa [abs_of_pos hx, ← hE] at this
  rw [two_zpow_binadeExponent] at hlo ⊢
  unfold roundDouble
  apply mul_le_mul_of_nonneg_right _ (le_of_lt (ulp_pos x))
  have : ((2 ^ 52 : ℤ) : ℚ) ≤ x / ulp x := by
    rw [le_div_iff₀ (ulp_pos x)]
    push_cast
    exact hlo
  have := le_roundHalfEven _ _ this
  exact_mod_cast this

theorem binadeExponent_mono (x y : ℚ) (hx : 0 < x) (hxy : x ≤ y) :
    binadeExponent x ≤ binadeExponent y := by
  unfold binadeExponent
  exact max_le_max (floorLog2_mono x y hx hxy) (le_refl _)

theorem roundDouble_mono_pos (x y : ℚ) (hx : 0 < x) (hxy : x ≤ y) :
    roundDouble x ≤ roundDouble y := by
  have hy : 0 < y := lt_of_lt_of_le hx hxy
  rcases lt_or_eq_of_le (binadeExponent_mono x y hx hxy) with hlt | heq
  · have hnormal : -1022 ≤ floorLog2 y := by
      unfold binadeExponent at hlt
      have h1 := le_max_right (floorLog2 x) (-1022)
      by_contra hcon
      rw [max_eq_right (by omega : floorLog2 y ≤ -1022)] at hlt
      omega
    calc roundDouble x ≤ (2 : ℚ) ^ (binadeExponent x + 1) := roundDouble_le_two_zpow x
      _ ≤ (2 : ℚ) ^ binadeExponent y := zpow_le_zpow_right₀ (by norm_num) (by omega)
      _ ≤ roundDouble y := two_zpow_le_roundDouble y hy hnormal
  · have hu : ulp x = ulp y := by
      unfold ulp
      rw [heq]
    unfold roundDouble
    rw [hu]
    apply mul_le_mul_of_nonneg_right _ (le_of_lt (ulp_pos y))
    have : x / ulp y ≤ y / ulp y := div_le_div_of_nonneg_right hxy (le_of_lt (ulp_pos y))
    exact_mod_cast roundHalfEven_mono _ _ this

/-- Rounding to a double keeps the order. -/
theorem roundDouble_mono (x y : ℚ) (hxy : x ≤ y) : roundDouble x ≤ roundDouble y := by
  rcases lt_trichotomy 0 x with hx | hx | hx
  · exact roundDouble_mono_pos x y hx hxy
  · rw [← hx, roundDouble_zero]
    exact roundDouble_nonneg y (by linarith)
  · rcases le_or_lt 0 y with hy | hy
    · exact le_trans (roundDouble_nonpos x (le_of_lt hx)) (roundDouble_nonneg y hy)
    · have h := roundDouble_mono_pos (-y) (-x) (by linarith) (by linarith)
      rw [roundDouble_neg, roundDouble_neg] at h
      linarith

/-- An integer of at most 53 binary digits times a power of two that is not below the
smallest subnormal is a double. -/
theorem roundDouble_mantissa_pos (n : ℤ) (k : ℤ) (hk : -1074 ≤ k) (hn0 : 0 < n)
    (hn : n ≤ 2 ^ 53) : roundDouble (n * 2 ^ k) = n * 2 ^ k := by
  have two_ne : (2 : ℚ) ≠ 0 := by norm_num
  have one_lt : (1 : ℚ) < 2 := by norm_num
  have hkpos : (0 : ℚ) < 2 ^ k := zpow_pos (by norm_num) k
  have hnq : (0 : ℚ) < n := by exact_mod_cast hn0
  have hy : (0 : ℚ) < n * 2 ^ k := mul_pos hnq hkpos
  have hnle : (n : ℚ) ≤ 2 ^ 53 := by exact_mod_cast hn
  obtain ⟨hlo, hhi⟩ := floorLog2_spec _ (ne_of_gt hy)
  rw [abs_of_pos hy] at hlo hhi
  have hpow : (2 : ℚ) ^ (k + 53) = 2 ^ 53 * 2 ^ k := by
    have he : k + 53 = ((53 : ℕ) : ℤ) + k := by push_cast; ring
    rw [he, zpow_add₀ two_ne, zpow_natCast]
  have hfl : floorLog2 ((n : ℚ) * 2 ^ k) ≤ k + 53 := by
    have h1 : (n : ℚ) * 2 ^ k ≤ (2 : ℚ) ^ (k + 53) := by
      rw [hpow]
      exact mul_le_mul_of_nonneg_right hnle (le_of_lt hkpos)
    have h2 : (2 : ℚ) ^ floorLog2 ((n : ℚ) * 2 ^ k) ≤ (2 : ℚ) ^ (k + 53) := le_trans hlo h1
    exact (zpow_le_zpow_iff_right₀ one_lt).mp h2
  have hE : binadeExponent ((n : ℚ) * 2 ^ k) ≤ k + 53 := by
    unfold binadeExponent
    exact max_le hfl (by omega)
  rcases lt_or_eq_of_le hE with hlt | heq
  · -- the quotient by the unit is the integer `n * 2 ^ d`
    obtain ⟨d, hd⟩ : ∃ d : ℕ, (d : ℤ) = k - (binadeExponent ((n : ℚ) * 2 ^ k) - 52) :=
      ⟨(k - (binadeExponent ((n : ℚ) * 2 ^ k) - 52)).toNat, by
        rw [Int.toNat_of_nonneg]
        omega⟩
    have hquot : (n : ℚ) * 2 ^ k / ulp ((n : ℚ) * 2 ^ k) = ((n * 2 ^ d : ℤ) : ℚ) := by
      unfold ulp
      rw [mul_div_assoc, ← zpow_sub₀ two_ne, ← hd, zpow_natCast]
      push_cast
      ring
    have hk2 : (2 : ℚ) ^ k = 2 ^ d * ulp ((n : ℚ) * 2 ^ k) := by
      unfold ulp
      rw [← zpow_natCast, ← zpow_add₀ two_ne, hd]
      congr 1
      ring
    unfold roundDouble
    rw [hquot, roundHalfEven_intCast]
    push_cast
    conv_rhs => rw [hk2]
    ring
  · have hflE : floorLog2 ((n : ℚ) * 2 ^ k) = k + 53 := by
      unfold binadeExponent at heq
      rcases max_choice (floorLog2 ((n : ℚ) * 2 ^ k)) (-1022) with h | h
      · rw [h] at heq
        exact heq
      · rw [h] at heq
        omega
    have hn53 : (n : ℚ) = 2 ^ 53 := by
      apply le_antisymm hnle
      rw [hflE, hpow] at hlo
      exact le_of_mul_le_mul_right hlo hkpos
    have hu : ulp ((n : ℚ) * 2 ^ k) = 2 * 2 ^ k := by
      unfold ulp
      rw [heq]
      have he : k + 53 - 52 = ((1 : ℕ) : ℤ) + k := by push_cast; ring
      rw [he, zpow_add₀ two_ne, zpow_natCast, pow_one]
    have hquot : (n : ℚ) * 2 ^ k / ulp ((n : ℚ) * 2 ^ k) = ((2 ^ 52 : ℤ) : ℚ) := by
      rw [hu, hn53]
      push_cast
      field_simp
      ring
    unfold roundDouble
    rw [hquot, roundHalfEven_intCast, hu, hn53]
    push_cast
    ring

theorem roundDouble_mantissa (n : ℤ) (k : ℤ) (hk : -1074 ≤ k) (hn : |n| ≤ 2 ^ 53) :
    roundDouble (n * 2 ^ k) = n * 2 ^ k := by
  rcases lt_trichotomy 0 n with h | h | h
  · exact roundDouble_mantissa_pos n k hk h (le_trans (le_abs_self n) hn)
  · rw [← h]
    simp [roundDouble_zero]
  · have h1 := roundDouble_mantissa_pos (-n) k hk (by omega)
      (le_trans (neg_le_abs n) hn)
    have h2 : ((-n : ℤ) : ℚ) * 2 ^ k = -((n : ℚ) * 2 ^ k) := by
      push_cast
      ring
    rw [h2, roundDouble_neg] at h1
    linarith

/-- A double is rounded to itself. -/
theorem roundDouble_idem (x : ℚ) : roundDouble (roundDouble x) = roundDouble x := by
  have h : roundDouble x = (roundHalfEven (x / ulp x) : ℚ) * 2 ^ (binadeExponent x - 52) := rfl
  rw [h]
  apply roundDouble_mantissa _ _ _ (abs_mantissa_le x)
  have := le_max_right (floorLog2 x) (-1022)
  unfold binadeExponent
  omega

theorem representable_roundDouble (x : ℚ) : Representable (roundDouble x) :=
  roundDouble_idem x

theorem representable_zero : Representable 0 :=
  roundDouble_zero

/-- An integer of at most 53 binary digits is a double. -/
theorem representable_intCast (n : ℤ) (hn : |n| ≤ 2 ^ 53) : Representable (n : ℚ) := by
  have h := roundDouble_mantissa n 0 (by norm_num) hn
  simpa [Representable] using h

/-- Adding a number that is not negative to a double does not make it smaller. -/
theorem le_fadd (x y : ℚ) (hx : Representable x) (hy : 0 ≤ y) : x ≤ fadd x y := by
  unfold fadd
  calc x = roundDouble x := hx.symm
    _ ≤ roundDouble (x + y) := roundDouble_mono _ _ (by linarith)

theorem fadd_zero (x : ℚ) (hx : Representable x) : fadd x 0 = x := by
  unfold fadd
  rw [add_zero]
  exact hx

/-- Twice a double is a double. -/
theorem representable_two_mul (x : ℚ) (hx : Representable x) : Representable (2 * x) := by
  have two_ne : (2 : ℚ) ≠ 0 := by norm_num
  have h : roundDouble x = (roundHalfEven (x / ulp x) : ℚ) * 2 ^ (binadeExponent x - 52) := rfl
  have h2 : 2 * x = (roundHalfEven (x / ulp x) : ℚ) * 2 ^ (binadeExponent x - 52 + 1) := by
    rw [zpow_add_one₀ two_ne]
    have hx' : x = roundDouble x := hx.symm
    conv_lhs => rw [hx', h]
    ring
  unfold Representable
  rw [h2]
  apply roundDouble_mantissa _ _ _ (abs_mantissa_le x)
  have := le_max_right (floorLog2 x) (-1022)
  unfold binadeExponent
  omega

/-- Rounding a number at or above a double `a` that is not negative moves it away from `a`
by at most as much again: the nearest double is not farther than `a` is. -/
theorem roundDouble_sub_le (a y : ℚ) (ha : Representable a) (h0 : 0 ≤ a) (hay : a ≤ y) :
    roundDouble y - a ≤ 2 * (y - a) := by
  by_cases hT : roundDouble y ≤ y
  · linarith
  · have hT' : y < roundDouble y := not_le.mp hT
    have hy0 : 0 ≤ y := le_trans h0 hay
    have hu := ulp_pos y
    have hTdef : roundDouble y = (roundHalfEven (y / ulp y) : ℚ) * ulp y := rfl
    have hn_gt : y / ulp y < (roundHalfEven (y / ulp y) : ℚ) := by
      rw [div_lt_iff₀ hu, ← hTdef]
      exact hT'
    have hfl := Int.floor_le (y / ulp y)
    have hfl1 := Int.lt_floor_add_one (y / ulp y)
    have hn : roundHalfEven (y / ulp y) = ⌊y / ulp y⌋ + 1 := by
      rcases roundHalfEven_cases (y / ulp y) with h | h
      · exfalso
        rw [h] at hn_gt
        linarith
      · exact h
    have hhalf := roundHalfEven_sub_le (y / ulp y)
    rw [hn] at hhalf
    push_cast at hhalf
    have hfloor_nonneg : (0 : ℚ) ≤ ⌊y / ulp y⌋ := by
      exact_mod_cast Int.floor_nonneg.mpr (div_nonneg hy0 (le_of_lt hu))
    have hymul : y = y / ulp y * ulp y := by
      field_simp
    have hL : a ≤ (⌊y / ulp y⌋ : ℚ) * ulp y := by
      rcases eq_or_lt_of_le h0 with ha0 | hapos
      · rw [← ha0]
        exact mul_nonneg hfloor_nonneg (le_of_lt hu)
      · by_contra hcon
        have hcon' : (⌊y / ulp y⌋ : ℚ) * ulp y < a := not_le.mp hcon
        have hE : binadeExponent a = binadeExponent y := by
          apply le_antisymm (binadeExponent_mono a y hapos hay)
          by_cases hnormal : -1022 ≤ floorLog2 y
          · have hEy : binadeExponent y = floorLog2 y := by
              unfold binadeExponent
              exact max_eq_left hnormal
            have hypos : 0 < y := lt_of_lt_of_le hapos hay
            have hlo : (2 : ℚ) ^ binadeExponent y ≤ y := by
              have := (floorLog2_spec y (ne_of_gt hypos)).1
              rwa [abs_of_pos hypos, ← hEy] at this
            have hfl52 : ((2 ^ 52 : ℤ) : ℚ) ≤ y / ulp y := by
              have hc : ((2 ^ 52 : ℤ) : ℚ) = (2 : ℚ) ^ 52 := by norm_cast
              rw [le_div_iff₀ hu, hc, ← two_zpow_binadeExponent]
              exact hlo
            have hfl52' : (2 ^ 52 : ℤ) ≤ ⌊y / ulp y⌋ := Int.le_floor.mpr hfl52
            have hfl52q : (2 ^ 52 : ℚ) ≤ (⌊y / ulp y⌋ : ℚ) := by exact_mod_cast hfl52'
            have hlow : (2 : ℚ) ^ binadeExponent y < a := by
              rw [two_zpow_binadeExponent]
              exact lt_of_le_of_lt (mul_le_mul_of_nonneg_right hfl52q (le_of_lt hu)) hcon'
            have hahi := (floorLog2_spec a (ne_of_gt hapos)).2
            rw [abs_of_pos hapos] at hahi
            have := (zpow_lt_zpow_iff_right₀ (by norm_num : (1 : ℚ) < 2)).mp
              (lt_trans hlow hahi)
            have hmax := le_max_left (floorLog2 a) (-1022)
            unfold binadeExponent at this ⊢
            omega
          · have hEy : binadeExponent y = -1022 := by
              unfold binadeExponent
              exact max_eq_right (by omega)
            rw [hEy]
            unfold binadeExponent
            exact le_max_right _ _
        have hua : ulp a = ulp y := by
          unfold ulp
          rw [hE]
        have hrep : (roundHalfEven (a / ulp y) : ℚ) * ulp y = a := by
          have := ha
          unfold Representable roundDouble at this
          rwa [hua] at this
        have h1 : (⌊y / ulp y⌋ : ℚ) < (roundHalfEven (a / ulp y) : ℚ) := by
          rw [← hrep] at hcon'
          exact lt_of_mul_lt_mul_right hcon' (le_of_lt hu)
        have h2 : (roundHalfEven (a / ulp y) : ℚ) ≤ y / ulp y := by
          rw [le_div_iff₀ hu, hrep]
          exact hay
        have h4 : ⌊y / ulp y⌋ < roundHalfEven (a / ulp y) := by exact_mod_cast h1
        have h5 : (roundHalfEven (a / ulp y) : ℚ) < (⌊y / ulp y⌋ : ℚ) + 1 :=
          lt_of_le_of_lt h2 hfl1
        have h6 : roundHalfEven (a / ulp y) < ⌊y / ulp y⌋ + 1 := by exact_mod_cast h5
        omega
    have hyL : ulp y / 2 ≤ y - (⌊y / ulp y⌋ : ℚ) * ulp y := by
      have h1 : (1 : ℚ) / 2 ≤ y / ulp y - ⌊y / ulp y⌋ := by linarith
      have h2 := mul_le_mul_of_nonneg_right h1 (le_of_lt hu)
      have h3 : (y / ulp y - ⌊y / ulp y⌋) * ulp y = y - (⌊y / ulp y⌋ : ℚ) * ulp y := by
        rw [sub_mul, ← hymul]
      rw [h3] at h2
      linarith
    rw [hTdef, hn]
    push_cast
    nlinarith

/-! ### The square root -/

theorem sqrtBits_spec (n : Nat) :
    ∀ (k r : Nat), r * r ≤ n → n < (r + 2 ^ k) * (r + 2 ^ k) →
      sqrtBits n k r * sqrtBits n k r ≤ n ∧ n < (sqrtBits n k r + 1) * (sqrtBits n k r + 1) := by
  intro k
  induction k with
  | zero =>
    intro r hlo hhi
    simpa [sqrtBits] using ⟨hlo, hhi⟩
  | succ k ih =>
    intro r hlo hhi
    rw [sqrtBits]
    split
    · rename_i hle
      apply ih _ hle
      have : r + 2 ^ k + 2 ^ k = r + 2 ^ (k + 1) := by rw [pow_succ]; omega
      rw [this]
      exact hhi
    · rename_i hnle
      exact ih _ hlo (not_le.mp hnle)

/-- The integer square root is the largest integer whose square is not above `n`. -/
theorem natSqrt_spec (n : Nat) :
    natSqrt n * natSqrt n ≤ n ∧ n < (natSqrt n + 1) * (natSqrt n + 1) := by
  unfold natSqrt
  apply sqrtBits_spec n _ 0 (Nat.zero_le _)
  rw [Nat.zero_add, ← pow_two, ← pow_mul]
  by_cases h : n = 0
  · subst h
    exact Nat.pos_pow_of_pos _ (by norm_num)
  · obtain ⟨_, _, hlt⟩ := bitLength_spec n h
    refine lt_of_lt_of_le hlt (Nat.pow_le_pow_right (by norm_num) ?_)
    omega

theorem fsqrt_nonneg (x : ℚ) : 0 ≤ fsqrt x := by
  unfold fsqrt
  split
  · exact le_refl _
  · simp only
    exact mul_nonneg (Nat.cast_nonneg _) (le_of_lt (zpow_pos (by norm_num) _))

theorem fsqrt_zero : fsqrt 0 = 0 := by
  unfold fsqrt
  rw [if_pos (le_refl _)]

/-- The value of `fsqrt` is the double nearest to the square root: with the unit
`2 ^ (h - 52)` of the binade of the root, `fsqrt x` is `m` units where
`(m - 1/2)² ≤ x / unit² < (m + 1/2)²`. -/
theorem fsqrt_spec (x : ℚ) (hx : 0 < x) :
    ∃ m : ℕ, fsqrt x = (m : ℚ) * 2 ^ (floorLog2 x / 2 - 52) ∧
      ((m : ℚ) - 1 / 2) * ((m : ℚ) - 1 / 2) ≤ x / 2 ^ (2 * (floorLog2 x / 2 - 52)) ∧
      x / 2 ^ (2 * (floorLog2 x / 2 - 52)) < ((m : ℚ) + 1 / 2) * ((m : ℚ) + 1 / 2) := by
  have two_ne : (2 : ℚ) ≠ 0 := by norm_num
  have hscale_pos : (0 : ℚ) < 2 ^ (2 * (floorLog2 x / 2 - 52)) := zpow_pos (by norm_num) _
  have hone : (1 : ℚ) ≤ x / 2 ^ (2 * (floorLog2 x / 2 - 52)) := by
    rw [le_div_iff₀ hscale_pos, one_mul]
    have h1 := (floorLog2_spec x (ne_of_gt hx)).1
    rw [abs_of_pos hx] at h1
    refine le_trans (zpow_le_zpow_right₀ (by norm_num) ?_) h1
    omega
  have hfloor_nonneg : 0 ≤ ⌊x / 2 ^ (2 * (floorLog2 x / 2 - 52))⌋ :=
    Int.floor_nonneg.mpr (le_trans (by norm_num) hone)
  obtain ⟨hlo, hhi⟩ := natSqrt_spec ⌊x / 2 ^ (2 * (floorLog2 x / 2 - 52))⌋.toNat
  have hcast : ((⌊x / 2 ^ (2 * (floorLog2 x / 2 - 52))⌋.toNat : ℕ) : ℚ) =
      (⌊x / 2 ^ (2 * (floorLog2 x / 2 - 52))⌋ : ℚ) := by
    have := Int.toNat_of_nonneg hfloor_nonneg
    exact_mod_cast this
  have hlo' : ((natSqrt ⌊x / 2 ^ (2 * (floorLog2 x / 2 - 52))⌋.toNat : ℕ) : ℚ) *
      (natSqrt ⌊x / 2 ^ (2 * (floorLog2 x / 2 - 52))⌋.toNat : ℕ) ≤
      x / 2 ^ (2 * (floorLog2 x / 2 - 52)) := by
    have h : ((natSqrt ⌊x / 2 ^ (2 * (floorLog2 x / 2 - 52))⌋.toNat *
        natSqrt ⌊x / 2 ^ (2 * (floorLog2 x / 2 - 52))⌋.toNat : ℕ) : ℚ) ≤
        ((⌊x / 2 ^ (2 * (floorLog2 x / 2 - 52))⌋.toNat : ℕ) : ℚ) := by exact_mod_cast hlo
    rw [hcast] at h
    push_cast at h
    exact le_trans h (Int.floor_le _)
  have hhi' : x / 2 ^ (2 * (floorLog2 x / 2 - 52)) <
      ((natSqrt ⌊x / 2 ^ (2 * (floorLog2 x / 2 - 52))⌋.toNat : ℕ) + 1 : ℚ) *
      ((natSqrt ⌊x / 2 ^ (2 * (floorLog2 x / 2 - 52))⌋.toNat : ℕ) + 1 : ℚ) := by
    have h : ((⌊x / 2 ^ (2 * (floorLog2 x / 2 - 52))⌋.toNat + 1 : ℕ) : ℚ) ≤
        (((natSqrt ⌊x / 2 ^ (2 * (floorLog2 x / 2 - 52))⌋.toNat + 1) *
          (natSqrt ⌊x / 2 ^ (2 * (floorLog2 x / 2 - 52))⌋.toNat + 1) : ℕ) : ℚ) := by
      exact_mod_cast hhi
    push_cast at h
    rw [hcast] at h
    exact lt_of_lt_of_le (Int.lt_floor_add_one _) h
  have hm1 : (1 : ℚ) ≤ (natSqrt ⌊x / 2 ^ (2 * (floorLog2 x / 2 - 52))⌋.toNat : ℕ) := by
    by_contra hcon
    have h0 : natSqrt ⌊x / 2 ^ (2 * (floorLog2 x / 2 - 52))⌋.toNat = 0 := by
      have : ¬ 1 ≤ natSqrt ⌊x / 2 ^ (2 * (floorLog2 x / 2 - 52))⌋.toNat := by
        intro h
        exact hcon (by exact_mod_cast h)
      omega
    rw [h0] at hhi'
    norm_num at hhi'
    linarith
  unfold fsqrt
  rw [if_neg (not_le.mpr hx)]
  simp only
  generalize natSqrt ⌊x / 2 ^ (2 * (floorLog2 x / 2 - 52))⌋.toNat = m at hlo' hhi' hm1 ⊢
  generalize x / 2 ^ (2 * (floorLog2 x / 2 - 52)) = y at hlo' hhi' ⊢
  by_cases hup : ((m : ℚ) + 1 / 2) * ((m : ℚ) + 1 / 2) ≤ y
  · refine ⟨m + 1, ?_, ?_, ?_⟩
    · simp only [decide_eq_true hup, if_true]
    · push_cast
      have : (m : ℚ) + 1 - 1 / 2 = m + 1 / 2 := by ring
      rw [this]
      exact hup
    · push_cast
      nlinarith
  · refine ⟨m, ?_, ?_, not_le.mp hup⟩
    · simp only [decide_eq_false hup, Bool.false_eq_true, if_false]
    · nlinarith

/-! ## The cache -/

theorem JSMap.has_eq_isSome_get {β : Type} (m : JSMap β) (key : String) :
    m.has key = (m.get key).isSome := by
  cases m with
  | mk entries =>
    induction entries with
    | nil => rfl
    | cons p rest ih =>
      simp only [JSMap.has, JSMap.get, List.any_cons, List.find?_cons] at ih ⊢
      by_cases h : (p.1 == key) = true
      · simp [h]
      · simp only [Bool.not_eq_true] at h
        simp [h, ih]

theorem JSMap.get_set_self {β : Type} (m : JSMap β) (key : String) (value : β) :
    (m.set key value).get key = some value := by
  cases m with
  | mk entries =>
    unfold JSMap.set
    split
    · rename_i h
      simp only [JSMap.has] at h
      simp only [JSMap.get]
      induction entries with
      | nil => simp at h
      | cons p rest ih =>
        simp only [List.map_cons, List.find?_cons]
        by_cases hp : (p.1 == key) = true
        · simp only [hp, if_true, beq_self_eq_true, Option.map_some']
        · simp only [Bool.not_eq_true] at hp
          simp only [List.any_cons, hp, Bool.false_or] at h
          simp only [hp, Bool.false_eq_true, if_false]
          exact ih h
    · rename_i h
      simp only [JSMap.has, Bool.not_eq_true] at h
      simp only [JSMap.get]
      rw [List.find?_append]
      have hnone : List.find? (fun p => p.1 == key) entries = none := by
        rw [List.find?_eq_none]
        intro x hx
        have := List.any_eq_false.mp h x hx
        simpa using this
      simp [hnone]

theorem JSMap.has_set_self {β : Type} (m : JSMap β) (key : String) (value : β) :
    (m.set key value).has key = true := by
  rw [JSMap.has_eq_isSome_get, JSMap.get_set_self]
  rfl

theorem JSMap.has_set_of_has {β : Type} (m : JSMap β) (key other : String) (value : β)
    (h : m.has other = true) : (m.set key value).has other = true := by
  cases m with
  | mk entries =>
    unfold JSMap.set
    split
    · simp only [JSMap.has, List.any_map, List.any_eq_true] at h ⊢
      obtain ⟨x, hx, hxo⟩ := h
      refine ⟨x, hx, ?_⟩
      simp only [Function.comp]
      by_cases hk : (x.1 == key) = true
      · simp only [hk, if_true]
        have h1 : x.1 = key := by simpa using hk
        have h2 : x.1 = other := by simpa using hxo
        simp [← h1, h2]
      · simp only [hk]
        simpa using hxo
    · simp only [JSMap.has, List.any_append, Bool.or_eq_true]
      exact Or.inl h

theorem JSMap.has_clear {β : Type} (m : JSMap β) (key : String) :
    m.clear.has key = false := rfl

theorem JSMap.get_clear {β : Type} (m : JSMap β) (key : String) :
    m.clear.get key = none := rfl

/-! ## JavaScript array writes -/

theorem length_jsArraySet {α : Type} (xs : List (Option α)) (i : Nat) (v : α) :
    (jsArraySet xs i v).length = max xs.length (i + 1) := by
  unfold jsArraySet
  split
  · simp only [List.length_set]
    omega
  · simp only [List.length_append, List.length_replicate, List.length_singleton]
    omega

theorem get?_jsArraySet_self {α : Type} (xs : List (Option α)) (i : Nat) (v : α) :
    (jsArraySet xs i v).get? i = some (some v) := by
  unfold jsArraySet
  split
  · rename_i h
    simp [List.getElem?_set, h]
  · rename_i h
    have hlen : (xs ++ List.replicate (i - xs.length) none).length = i := by
      simp only [List.length_append, List.length_replicate]
      omega
    simp only [List.get?_eq_getElem?]
    rw [List.getElem?_append_right (by omega)]
    simp [hlen]

theorem get?_jsArraySet_of_lt {α : Type} (xs : List (Option α)) (i j : Nat) (v : α)
    (hj : j < xs.length) (hij : j ≠ i) : (jsArraySet xs i v).get? j = xs.get? j := by
  unfold jsArraySet
  split
  · simp only [List.get?_eq_getElem?]
    rw [List.getElem?_set_ne (Ne.symm hij)]
  · simp only [List.get?_eq_getElem?, List.append_assoc]
    rw [List.getElem?_append_left hj]

/-! ## One gap -/

theorem getCacheKey_congr (s t : RoutePlanner) (a b : LatLng)
    (h : t.routingProfile = s.routingProfile) : getCacheKey t a b = getCacheKey s a b := by
  unfold getCacheKey
  rw [h]

/-- The three ways `calculateAutoSegment` can go: a cache hit, a rejected provider request,
an answered provider request. -/
theorem calculateAutoSegment_cases (env : Env) (a b : LatLng) (i : Nat) (s : RoutePlanner) :
    (∃ cached, s.routingCache.get (getCacheKey s a b) = some cached ∧
      calculateAutoSegment env a b i s =
        (none, { s with
          trace := s.trace ++ [Action.cacheLookup i (getCacheKey s a b)],
          autoPolylines := jsArraySet s.autoPolylines i
            { latlngs := cached.geometry.coordinates.map (fun coord => (coord.2, coord.1)) } })) ∨
    (s.routingCache.get (getCacheKey s a b) = none ∧
      ∃ e, env.requestRouteFromAPI i a b = Except.error e ∧
        calculateAutoSegment env a b i s =
          (some e, { s with
            trace := s.trace ++ [Action.cacheLookup i (getCacheKey s a b)] ++
              [Action.providerRequest i a b] })) ∨
    (s.routingCache.get (getCacheKey s a b) = none ∧
      ∃ d, env.requestRouteFromAPI i a b = Except.ok d ∧
        calculateAutoSegment env a b i s =
          (none, { s with
            trace := s.trace ++ [Action.cacheLookup i (getCacheKey s a b)] ++
              [Action.providerRequest i a b],
            routingCache := s.routingCache.set (getCacheKey s a b) d,
            autoPolylines := jsArraySet s.autoPolylines i
              { latlngs := d.geometry.coordinates.map (fun coord => (coord.2, coord.1)) },
            autoSegments := jsArraySet s.autoSegments i (segmentOf a b d) })) := by
  cases hget : s.routingCache.get (getCacheKey s a b) with
  | some cached =>
    left
    refine ⟨cached, rfl, ?_⟩
    simp only [calculateAutoSegment, getCacheKey, displayAutoSegment] at hget ⊢
    rw [hget]
  | none =>
    right
    cases hreq : env.requestRouteFromAPI i a b with
    | error e =>
      left
      refine ⟨rfl, e, rfl, ?_⟩
      simp only [calculateAutoSegment, getCacheKey, displayAutoSegment] at hget ⊢
      rw [hget]
      simp only [hreq]
    | ok d =>
      right
      refine ⟨rfl, d, rfl, ?_⟩
      simp only [calculateAutoSegment, getCacheKey, displayAutoSegment, segmentOf] at hget ⊢
      rw [hget]
      simp only [hreq]

/-! ## The trace projections -/

@[simp] theorem lookupsOf_nil : lookupsOf [] = [] := rfl

@[simp] theorem requestsOf_nil : requestsOf [] = [] := rfl

@[simp] theorem emitsOf_nil : emitsOf [] = [] := rfl

@[simp] theorem lookupsOf_append (xs ys : List Action) :
    lookupsOf (xs ++ ys) = lookupsOf xs ++ lookupsOf ys := by
  simp [lookupsOf, List.filterMap_append]

@[simp] theorem requestsOf_append (xs ys : List Action) :
    requestsOf (xs ++ ys) = requestsOf xs ++ requestsOf ys := by
  simp [requestsOf, List.filterMap_append]

@[simp] theorem emitsOf_append (xs ys : List Action) :
    emitsOf (xs ++ ys) = emitsOf xs ++ emitsOf ys := by
  simp [emitsOf, List.filterMap_append]

@[simp] theorem lookupsOf_cons_lookup (i : Nat) (key : String) (xs : List Action) :
    lookupsOf (Action.cacheLookup i key :: xs) = i :: lookupsOf xs := rfl

@[simp] theorem lookupsOf_cons_request (i : Nat) (a b : LatLng) (xs : List Action) :
    lookupsOf (Action.providerRequest i a b :: xs) = lookupsOf xs := rfl

@[simp] theorem lookupsOf_cons_emit (e : String) (d : Option String) (xs : List Action) :
    lookupsOf (Action.emit e d :: xs) = lookupsOf xs := rfl

@[simp] theorem lookupsOf_cons_alert (m : String) (xs : List Action) :
    lookupsOf (Action.alert m :: xs) = lookupsOf xs := rfl

@[simp] theorem lookupsOf_cons_abort (xs : List Action) :
    lookupsOf (Action.abort :: xs) = lookupsOf xs := rfl

@[simp] theorem requestsOf_cons_lookup (i : Nat) (key : String) (xs : List Action) :
    requestsOf (Action.cacheLookup i key :: xs) = requestsOf xs := rfl

@[simp] theorem requestsOf_cons_request (i : Nat) (a b : LatLng) (xs : List Action) :
    requestsOf (Action.providerRequest i a b :: xs) = i :: requestsOf xs := rfl

@[simp] theorem requestsOf_cons_emit (e : String) (d : Option String) (xs : List Action) :
    requestsOf (Action.emit e d :: xs) = requestsOf xs := rfl

@[simp] theorem requestsOf_cons_alert (m : String) (xs : List Action) :
    requestsOf (Action.alert m :: xs) = requestsOf xs := rfl

@[simp] theorem requestsOf_cons_abort (xs : List Action) :
    requestsOf (Action.abort :: xs) = requestsOf xs := rfl

@[simp] theorem emitsOf_cons_lookup (i : Nat) (key : String) (xs : List Action) :
    emitsOf (Action.cacheLookup i key :: xs) = emitsOf xs := rfl

@[simp] theorem emitsOf_cons_request (i : Nat) (a b : LatLng) (xs : List Action) :
    emitsOf (Action.providerRequest i a b :: xs) = emitsOf xs := rfl

@[simp] theorem emitsOf_cons_emit (e : String) (d : Option String) (xs : List Action) :
    emitsOf (Action.emit e d :: xs) = e :: emitsOf xs := rfl

@[simp] theorem emitsOf_cons_alert (m : String) (xs : List Action) :
    emitsOf (Action.alert m :: xs) = emitsOf xs := rfl

@[simp] theorem emitsOf_cons_abort (xs : List Action) :
    emitsOf (Action.abort :: xs) = emitsOf xs := rfl

/-- Actions that are look-ups or requests contain no emitted event. -/
theorem emitsOf_eq_nil_of_gapActions (new : List Action)
    (h : ∀ x ∈ new, (∃ j key, x = Action.cacheLookup j key) ∨
      (∃ j a b, x = Action.providerRequest j a b)) : emitsOf new = [] := by
  induction new with
  | nil => rfl
  | cons x rest ih =>
    have hrest := ih (fun y hy => h y (List.mem_cons_of_mem _ hy))
    rcases h x (List.mem_cons_self _ _) with ⟨j, key, rfl⟩ | ⟨j, a, b, rfl⟩
    · simpa using hrest
    · simpa using hrest

theorem actionsSince_of_trace_eq (s t : RoutePlanner) (new : List Action)
    (h : t.trace = s.trace ++ new) : actionsSince s t = new := by
  simp [actionsSince, h]

theorem AllCached_congr (s t : RoutePlanner) (hc : t.routingCache = s.routingCache)
    (hp : t.routingProfile = s.routingProfile) :
    ∀ rt : List LatLng, AllCached s rt → AllCached t rt := by
  intro rt
  induction rt with
  | nil => intro _; trivial
  | cons a tl ih =>
    cases tl with
    | nil => intro _; trivial
    | cons b rest =>
      intro h
      exact ⟨by rw [getCacheKey_congr s t a b hp, hc]; exact h.1, ih h.2⟩

/-! ## The loop over the gaps -/

theorem LoopSpec.base (env : Env) (i : Nat) (rt : List LatLng) (s : RoutePlanner)
    (hrt : rt.length ≤ 1) : LoopSpec env i rt s (none, s) [] 0 where
  trace_eq := by simp
  route_eq := rfl
  markers_eq := rfl
  totalDistance_eq := rfl
  mode_eq := rfl
  profile_eq := rfl
  pending_eq := rfl
  k_le := Nat.zero_le _
  lookups := rfl
  requests := by simp
  gapActions := by simp
  lookup_args := by simp
  request_args := by simp
  completed := fun _ => ⟨by omega, by simp⟩
  failed := by simp
  cache_mono := fun _ h => h
  cached := by
    intro _
    match rt, hrt with
    | [], _ => trivial
    | [_], _ => trivial
  hits := fun _ => ⟨rfl, rfl, by omega⟩
  segs_below := fun _ _ _ => rfl
  segs_len_ge := Nat.le_refl _
  segs_len_le := Nat.le_max_left _ _
  segs_len_failed := by simp
  segs_stored := by simp
  segs_all := by simp

theorem has_eq_false_of_get_eq_none {β : Type} (m : JSMap β) (key : String)
    (h : m.get key = none) : m.has key = false := by
  rw [JSMap.has_eq_isSome_get, h]
  rfl

theorem has_eq_true_of_get_eq_some {β : Type} (m : JSMap β) (key : String) (v : β)
    (h : m.get key = some v) : m.has key = true := by
  rw [JSMap.has_eq_isSome_get, h]
  rfl

theorem LoopSpec.fail (env : Env) (i : Nat) (a b : LatLng) (rest : List LatLng)
    (s : RoutePlanner) (e : String)
    (hget : s.routingCache.get (getCacheKey s a b) = none)
    (hreq : env.requestRouteFromAPI i a b = Except.error e) :
    LoopSpec env i (a :: b :: rest) s
      (some e, { s with
        trace := s.trace ++ [Action.cacheLookup i (getCacheKey s a b)] ++
          [Action.providerRequest i a b] })
      [Action.cacheLookup i (getCacheKey s a b), Action.providerRequest i a b] 1 where
  trace_eq := by simp
  route_eq := rfl
  markers_eq := rfl
  totalDistance_eq := rfl
  mode_eq := rfl
  profile_eq := rfl
  pending_eq := rfl
  k_le := by simp
  lookups := by simp
  requests := by simp
  gapActions := by
    intro x hx
    simp only [List.mem_cons, List.mem_singleton, List.not_mem_nil, or_false] at hx
    rcases hx with rfl | rfl
    · exact Or.inl ⟨_, _, rfl⟩
    · exact Or.inr ⟨_, _, _, rfl⟩
  lookup_args := by
    intro j key hmem
    simp only [List.mem_cons, List.mem_singleton, List.not_mem_nil, or_false, reduceCtorEq,
      Action.cacheLookup.injEq] at hmem
    obtain ⟨rfl, rfl⟩ := hmem
    exact ⟨Nat.le_refl _, a, b, by simp, by simp, rfl⟩
  request_args := by
    intro j a' b' hmem
    simp only [List.mem_cons, List.mem_singleton, List.not_mem_nil, or_false, reduceCtorEq,
      false_or, Action.providerRequest.injEq] at hmem
    obtain ⟨rfl, rfl, rfl⟩ := hmem
    exact ⟨Nat.le_refl _, by simp, by simp⟩
  completed := by simp
  failed := by
    intro e' he'
    simp only [Option.some.injEq] at he'
    subst he'
    refine ⟨Nat.le_refl _, ⟨a, b, by simp, by simpa using hreq⟩, ?_⟩
    intro j a' b' hmem hj
    simp only [List.mem_cons, List.mem_singleton, List.not_mem_nil, or_false, reduceCtorEq,
      false_or, Action.providerRequest.injEq] at hmem
    omega
  cache_mono := fun _ h => h
  cached := by simp
  hits := by
    intro h
    have h1 := h.1
    rw [has_eq_false_of_get_eq_none _ _ hget] at h1
    exact absurd h1 (by simp)
  segs_below := fun _ _ _ => rfl
  segs_len_ge := Nat.le_refl _
  segs_len_le := Nat.le_max_left _ _
  segs_len_failed := fun _ _ => Nat.le_max_left _ _
  segs_stored := by
    intro j a' b' d hmem hok
    simp only [List.mem_cons, List.mem_singleton, List.not_mem_nil, or_false, reduceCtorEq,
      false_or, Action.providerRequest.injEq] at hmem
    obtain ⟨rfl, rfl, rfl⟩ := hmem
    rw [hreq] at hok
    exact absurd hok (by simp)
  segs_all := by simp

theorem length_requestsOf_le (new : List Action) (i k : Nat)
    (h : (requestsOf new).Sublist (List.range' i k)) : (requestsOf new).length ≤ k := by
  simpa using h.length_le

theorem LoopSpec.cons_hit (env : Env) (i : Nat) (a b : LatLng) (rest : List LatLng)
    (s : RoutePlanner) (polylines : List (Option Polyline)) (cached : RouteData)
    (r : Option String × RoutePlanner) (new : List Action) (k : Nat)
    (hget : s.routingCache.get (getCacheKey s a b) = some cached)
    (h : LoopSpec env (i + 1) (b :: rest)
      { s with
        trace := s.trace ++ [Action.cacheLookup i (getCacheKey s a b)],
        autoPolylines := polylines } r new k) :
    LoopSpec env i (a :: b :: rest) s r
      (Action.cacheLookup i (getCacheKey s a b) :: new) (k + 1) where
  trace_eq := by simpa using h.trace_eq
  route_eq := h.route_eq
  markers_eq := h.markers_eq
  totalDistance_eq := h.totalDistance_eq
  mode_eq := h.mode_eq
  profile_eq := h.profile_eq
  pending_eq := h.pending_eq
  k_le := by
    have := h.k_le
    simp only [List.length_cons] at this ⊢
    omega
  lookups := by
    rw [lookupsOf_cons_lookup, h.lookups]
    rfl
  requests := by
    rw [requestsOf_cons_lookup]
    exact List.Sublist.cons _ h.requests
  gapActions := by
    intro x hx
    rcases List.mem_cons.mp hx with rfl | hx
    · exact Or.inl ⟨_, _, rfl⟩
    · exact h.gapActions x hx
  lookup_args := by
    intro j key hmem
    rcases List.mem_cons.mp hmem with heq | hmem
    · simp only [Action.cacheLookup.injEq] at heq
      obtain ⟨rfl, rfl⟩ := heq
      exact ⟨Nat.le_refl _, a, b, by simp, by simp, rfl⟩
    · obtain ⟨hle, a', b', ha, hb, hkey⟩ := h.lookup_args j key hmem
      have hidx : j - i = (j - (i + 1)) + 1 := by omega
      refine ⟨by omega, a', b', ?_, ?_, hkey⟩
      · rw [hidx]
        simpa using ha
      · rw [hidx]
        simpa using hb
  request_args := by
    intro j a' b' hmem
    rcases List.mem_cons.mp hmem with heq | hmem
    · exact absurd heq (by simp)
    · obtain ⟨hle, ha, hb⟩ := h.request_args j a' b' hmem
      have hidx : j - i = (j - (i + 1)) + 1 := by omega
      refine ⟨by omega, ?_, ?_⟩
      · rw [hidx]
        simpa using ha
      · rw [hidx]
        simpa using hb
  completed := by
    intro hr
    obtain ⟨hk, hall⟩ := h.completed hr
    refine ⟨by simp only [List.length_cons] at hk ⊢; omega, ?_⟩
    intro j a' b' hmem
    rcases List.mem_cons.mp hmem with heq | hmem
    · exact absurd heq (by simp)
    · exact hall j a' b' hmem
  failed := by
    intro e he
    obtain ⟨hk, ⟨a', b', hmem, herr⟩, hall⟩ := h.failed e he
    have hidx : i + 1 + k - 1 = i + (k + 1) - 1 := by omega
    refine ⟨by omega, ⟨a', b', ?_, ?_⟩, ?_⟩
    · rw [← hidx]
      exact List.mem_cons_of_mem _ hmem
    · rw [← hidx]
      exact herr
    · intro j a'' b'' hmem' hj
      rcases List.mem_cons.mp hmem' with heq | hmem'
      · exact absurd heq (by simp)
      · exact hall j a'' b'' hmem' (by omega)
  cache_mono := h.cache_mono
  cached := by
    intro hr
    refine ⟨?_, h.cached hr⟩
    rw [getCacheKey_congr s r.2 a b h.profile_eq]
    exact h.cache_mono _ (has_eq_true_of_get_eq_some _ _ _ hget)
  hits := by
    intro hall
    have h2 := AllCached_congr s
      { s with
        trace := s.trace ++ [Action.cacheLookup i (getCacheKey s a b)],
        autoPolylines := polylines } rfl rfl (b :: rest) hall.2
    obtain ⟨hr, hreq, hk⟩ := h.hits h2
    refine ⟨hr, by simpa using hreq, ?_⟩
    simp only [List.length_cons] at hk ⊢
    omega
  segs_below := fun j hj hlen => h.segs_below j (by omega) hlen
  segs_len_ge := h.segs_len_ge
  segs_len_le := by
    have := h.segs_len_le
    simp only at this
    omega
  segs_len_failed := by
    intro e he
    have := h.segs_len_failed e he
    simp only at this
    omega
  segs_stored := by
    intro j a' b' d hmem hok
    rcases List.mem_cons.mp hmem with heq | hmem
    · exact absurd heq (by simp)
    · exact h.segs_stored j a' b' d hmem hok
  segs_all := by
    intro _ hreq _
    rw [requestsOf_cons_lookup] at hreq
    have hlen := length_requestsOf_le new (i + 1) k h.requests
    rw [hreq] at hlen
    simp at hlen

theorem LoopSpec.cons_ok (env : Env) (i : Nat) (a b : LatLng) (rest : List LatLng)
    (s : RoutePlanner) (polylines : List (Option Polyline)) (d : RouteData)
    (r : Option String × RoutePlanner) (new : List Action) (k : Nat)
    (hget : s.routingCache.get (getCacheKey s a b) = none)
    (hreq : env.requestRouteFromAPI i a b = Except.ok d)
    (h : LoopSpec env (i + 1) (b :: rest)
      { s with
        trace := s.trace ++ [Action.cacheLookup i (getCacheKey s a b)] ++
          [Action.providerRequest i a b],
        routingCache := s.routingCache.set (getCacheKey s a b) d,
        autoPolylines := polylines,
        autoSegments := jsArraySet s.autoSegments i (segmentOf a b d) } r new k) :
    LoopSpec env i (a :: b :: rest) s r
      (Action.cacheLookup i (getCacheKey s a b) :: Action.providerRequest i a b :: new)
      (k + 1) where
  trace_eq := by simpa using h.trace_eq
  route_eq := h.route_eq
  markers_eq := h.markers_eq
  totalDistance_eq := h.totalDistance_eq
  mode_eq := h.mode_eq
  profile_eq := h.profile_eq
  pending_eq := h.pending_eq
  k_le := by
    have := h.k_le
    simp only [List.length_cons] at this ⊢
    omega
  lookups := by
    rw [lookupsOf_cons_lookup, lookupsOf_cons_request, h.lookups]
    rfl
  requests := by
    rw [requestsOf_cons_lookup, requestsOf_cons_request]
    exact List.Sublist.cons₂ _ h.requests
  gapActions := by
    intro x hx
    rcases List.mem_cons.mp hx with rfl | hx
    · exact Or.inl ⟨_, _, rfl⟩
    · rcases List.mem_cons.mp hx with rfl | hx
      · exact Or.inr ⟨_, _, _, rfl⟩
      · exact h.gapActions x hx
  lookup_args := by
    intro j key hmem
    rcases List.mem_cons.mp hmem with heq | hmem
    · simp only [Action.cacheLookup.injEq] at heq
      obtain ⟨rfl, rfl⟩ := heq
      exact ⟨Nat.le_refl _, a, b, by simp, by simp, rfl⟩
    · rcases List.mem_cons.mp hmem with heq | hmem
      · exact absurd heq (by simp)
      · obtain ⟨hle, a', b', ha, hb, hkey⟩ := h.lookup_args j key hmem
        have hidx : j - i = (j - (i + 1)) + 1 := by omega
        refine ⟨by omega, a', b', ?_, ?_, hkey⟩
        · rw [hidx]
          simpa using ha
        · rw [hidx]
          simpa using hb
  request_args := by
    intro j a' b' hmem
    rcases List.mem_cons.mp hmem with heq | hmem
    · exact absurd heq (by simp)
    · rcases List.mem_cons.mp hmem with heq | hmem
      · simp only [Action.providerRequest.injEq] at heq
        obtain ⟨rfl, rfl, rfl⟩ := heq
        exact ⟨Nat.le_refl _, by simp, by simp⟩
      · obtain ⟨hle, ha, hb⟩ := h.request_args j a' b' hmem
        have hidx : j - i = (j - (i + 1)) + 1 := by omega
        refine ⟨by omega, ?_, ?_⟩
        · rw [hidx]
          simpa using ha
        · rw [hidx]
          simpa using hb
  completed := by
    intro hr
    obtain ⟨hk, hall⟩ := h.completed hr
    refine ⟨by simp only [List.length_cons] at hk ⊢; omega, ?_⟩
    intro j a' b' hmem
    rcases List.mem_cons.mp hmem with heq | hmem
    · exact absurd heq (by simp)
    · rcases List.mem_cons.mp hmem with heq | hmem
      · simp only [Action.providerRequest.injEq] at heq
        obtain ⟨rfl, rfl, rfl⟩ := heq
        exact ⟨d, hreq⟩
      · exact hall j a' b' hmem
  failed := by
    intro e he
    obtain ⟨hk, ⟨a', b', hmem, herr⟩, hall⟩ := h.failed e he
    have hidx : i + 1 + k - 1 = i + (k + 1) - 1 := by omega
    refine ⟨by omega, ⟨a', b', ?_, ?_⟩, ?_⟩
    · rw [← hidx]
      exact List.mem_cons_of_mem _ (List.mem_cons_of_mem _ hmem)
    · rw [← hidx]
      exact herr
    · intro j a'' b'' hmem' hj
      rcases List.mem_cons.mp hmem' with heq | hmem'
      · exact absurd heq (by simp)
      · rcases List.mem_cons.mp hmem' with heq | hmem'
        · simp only [Action.providerRequest.injEq] at heq
          obtain ⟨rfl, rfl, rfl⟩ := heq
          exact ⟨d, hreq⟩
        · exact hall j a'' b'' hmem' (by omega)
  cache_mono := fun key hkey => h.cache_mono key (JSMap.has_set_of_has _ _ _ _ hkey)
  cached := by
    intro hr
    refine ⟨?_, h.cached hr⟩
    rw [getCacheKey_congr s r.2 a b h.profile_eq]
    exact h.cache_mono _ (JSMap.has_set_self _ _ _)
  hits := by
    intro hall
    have h1 := hall.1
    rw [has_eq_false_of_get_eq_none _ _ hget] at h1
    exact absurd h1 (by simp)
  segs_below := by
    intro j hj hlen
    have hlen' : j < (jsArraySet s.autoSegments i (segmentOf a b d)).length := by
      rw [length_jsArraySet]
      omega
    rw [h.segs_below j (by omega) hlen']
    exact get?_jsArraySet_of_lt _ _ _ _ hlen (by omega)
  segs_len_ge := by
    have := h.segs_len_ge
    simp only [length_jsArraySet] at this
    omega
  segs_len_le := by
    have := h.segs_len_le
    simp only [length_jsArraySet] at this
    omega
  segs_len_failed := by
    intro e he
    have := h.segs_len_failed e he
    have hk := (h.failed e he).1
    simp only [length_jsArraySet] at this
    omega
  segs_stored := by
    intro j a' b' d' hmem hok
    rcases List.mem_cons.mp hmem with heq | hmem
    · exact absurd heq (by simp)
    · rcases List.mem_cons.mp hmem with heq | hmem
      · simp only [Action.providerRequest.injEq] at heq
        obtain ⟨rfl, rfl, rfl⟩ := heq
        rw [hreq] at hok
        simp only [Except.ok.injEq] at hok
        subst hok
        have hlen' : j < (jsArraySet s.autoSegments j (segmentOf a' b' d)).length := by
          rw [length_jsArraySet]
          omega
        rw [h.segs_below j (by omega) hlen']
        exact get?_jsArraySet_self _ _ _
      · exact h.segs_stored j a' b' d' hmem hok
  segs_all := by
    intro hr hreqs _
    rw [requestsOf_cons_lookup, requestsOf_cons_request] at hreqs
    have hreqs' : requestsOf new = List.range' (i + 1) k := by
      have : List.range' i (k + 1) = i :: List.range' (i + 1) k := rfl
      rw [this] at hreqs
      exact (List.cons.inj hreqs).2
    have hge := h.segs_len_ge
    have hle := h.segs_len_le
    simp only [length_jsArraySet] at hge hle
    rcases Nat.eq_zero_or_pos k with hk | hk
    · subst hk
      omega
    · have := h.segs_all hr hreqs' hk
      simp only [length_jsArraySet] at this
      omega

/-- The loop of `calculateHybridRoute` meets its specification from every gap and state. -/
theorem hybridLoop_spec (env : Env) (rt : List LatLng) :
    ∀ (i : Nat) (s : RoutePlanner),
      ∃ new k, LoopSpec env i rt s (hybridLoop env i rt s) new k := by
  induction rt with
  | nil =>
    intro i s
    exact ⟨[], 0, by simpa [hybridLoop] using LoopSpec.base env i [] s (by simp)⟩
  | cons a tl ih =>
    intro i s
    cases tl with
    | nil => exact ⟨[], 0, by simpa [hybridLoop] using LoopSpec.base env i [a] s (by simp)⟩
    | cons b rest =>
      rcases calculateAutoSegment_cases env a b i s with
        ⟨cached, hget, hstep⟩ | ⟨hget, e, hreq, hstep⟩ | ⟨hget, d, hreq, hstep⟩
      · obtain ⟨new, k, hspec⟩ := ih (i + 1)
          { s with
            trace := s.trace ++ [Action.cacheLookup i (getCacheKey s a b)],
            autoPolylines := jsArraySet s.autoPolylines i
              { latlngs := cached.geometry.coordinates.map (fun coord => (coord.2, coord.1)) } }
        refine ⟨Action.cacheLookup i (getCacheKey s a b) :: new, k + 1, ?_⟩
        rw [hybridLoop, hstep]
        exact LoopSpec.cons_hit env i a b rest s _ cached _ new k hget hspec
      · refine ⟨[Action.cacheLookup i (getCacheKey s a b), Action.providerRequest i a b], 1, ?_⟩
        rw [hybridLoop, hstep]
        exact LoopSpec.fail env i a b rest s e hget hreq
      · obtain ⟨new, k, hspec⟩ := ih (i + 1)
          { s with
            trace := s.trace ++ [Action.cacheLookup i (getCacheKey s a b)] ++
              [Action.providerRequest i a b],
            routingCache := s.routingCache.set (getCacheKey s a b) d,
            autoPolylines := jsArraySet s.autoPolylines i
              { latlngs := d.geometry.coordinates.map (fun coord => (coord.2, coord.1)) },
            autoSegments := jsArraySet s.autoSegments i (segmentOf a b d) }
        refine ⟨Action.cacheLookup i (getCacheKey s a b) :: Action.providerRequest i a b :: new,
          k + 1, ?_⟩
        rw [hybridLoop, hstep]
        exact LoopSpec.cons_ok env i a b rest s _ d _ new k hget hreq hspec

/-! ## A whole run -/

/-- The state in which the loop is entered: nothing but an optional abort and the event
`autoSegmentsCleared` has happened, and both collections of automatic segments are empty. -/
theorem hybridStart_spec (s : RoutePlanner) :
    ∃ pre, (hybridStart s).trace = s.trace ++ pre ∧
      lookupsOf pre = [] ∧ requestsOf pre = [] ∧ emitsOf pre = ["autoSegmentsCleared"] ∧
      (∀ j a b, Action.providerRequest j a b ∉ pre) ∧
      (hybridStart s).route = s.route ∧
      (hybridStart s).routingCache = s.routingCache ∧
      (hybridStart s).routingProfile = s.routingProfile ∧
      (hybridStart s).routingMode = s.routingMode ∧
      (hybridStart s).autoSegments = [] ∧
      (hybridStart s).autoPolylines = [] := by
  unfold hybridStart clearAutoSegments emit
  by_cases hp : s.pendingRouteRequest = true
  · refine ⟨[Action.abort, Action.emit "autoSegmentsCleared" none], ?_⟩
    simp [hp]
  · refine ⟨[Action.emit "autoSegmentsCleared" none], ?_⟩
    simp [hp]

theorem hybridStart_autoSegments (s : RoutePlanner) : (hybridStart s).autoSegments = [] := by
  unfold hybridStart clearAutoSegments emit
  split <;> rfl

/-- The shape of a run of `calculateHybridRoute` on two waypoints or more: the entry
actions `pre`, the loop actions `new`, and the exit actions `post`. -/
theorem calculateHybridRoute_run (env : Env) (s : RoutePlanner) (h : 2 ≤ s.route.length) :
    ∃ pre new post k,
      LoopSpec env 0 s.route (hybridStart s)
        (hybridLoop env 0 (hybridStart s).route (hybridStart s)) new k ∧
      actionsSince s (calculateHybridRoute env s) = pre ++ new ++ post ∧
      lookupsOf pre = [] ∧ requestsOf pre = [] ∧ emitsOf pre = ["autoSegmentsCleared"] ∧
      (∀ j a b, Action.providerRequest j a b ∉ pre) ∧
      (((hybridLoop env 0 (hybridStart s).route (hybridStart s)).1 = none ∧
          post = [Action.emit "routeChanged" none, Action.emit "routeUpdated" none,
            Action.emit "routeChanged" none]) ∨
        (∃ e, (hybridLoop env 0 (hybridStart s).route (hybridStart s)).1 = some e ∧
          post = [Action.alert ("Ошибка расчета маршрута: " ++ e)])) ∧
      (calculateHybridRoute env s).route = s.route ∧
      (calculateHybridRoute env s).routingProfile = s.routingProfile ∧
      (calculateHybridRoute env s).routingMode = s.routingMode ∧
      (calculateHybridRoute env s).pendingRouteRequest = s.pendingRouteRequest ∧
      (calculateHybridRoute env s).routingCache =
        (hybridLoop env 0 (hybridStart s).route (hybridStart s)).2.routingCache ∧
      (calculateHybridRoute env s).autoSegments =
        (hybridLoop env 0 (hybridStart s).route (hybridStart s)).2.autoSegments := by
  obtain ⟨pre, hpre, hl, hr, he, hn, hroute, hcache, hprof, hmode, hsegs, hpoly⟩ :=
    hybridStart_spec s
  obtain ⟨new, k, hspec⟩ := hybridLoop_spec env (hybridStart s).route 0 (hybridStart s)
  have hlt : ¬ s.route.length < 2 := by omega
  have hpend : (hybridStart s).pendingRouteRequest = s.pendingRouteRequest := by
    unfold hybridStart clearAutoSegments emit
    split <;> rfl
  cases hres : hybridLoop env 0 (hybridStart s).route (hybridStart s) with
  | mk out s1 =>
    rw [hres] at hspec
    have htrace : s1.trace = s.trace ++ (pre ++ new) := by
      have := hspec.trace_eq
      simp only at this
      rw [this, hpre, List.append_assoc]
    cases out with
    | none =>
      refine ⟨pre, new, [Action.emit "routeChanged" none, Action.emit "routeUpdated" none,
        Action.emit "routeChanged" none], k, ?_, ?_, hl, hr, he, hn, Or.inl ⟨rfl, rfl⟩, ?_⟩
      · rw [← hroute]
        exact hspec
      · apply actionsSince_of_trace_eq
        simp only [calculateHybridRoute, hlt, if_false, hres, emit, updateRouteInfo, htrace]
        simp
      · have hc : calculateHybridRoute env s = emit "routeChanged" none (updateRouteInfo env s1) := by
          simp only [calculateHybridRoute, hlt, if_false, hres]
        rw [hc]
        refine ⟨?_, ?_, ?_, ?_, rfl, rfl⟩
        · exact hspec.route_eq.trans hroute
        · exact hspec.profile_eq.trans hprof
        · exact hspec.mode_eq.trans hmode
        · exact hspec.pending_eq.trans hpend
    | some e =>
      refine ⟨pre, new, [Action.alert ("Ошибка расчета маршрута: " ++ e)], k, ?_, ?_, hl, hr, he,
        hn, Or.inr ⟨e, rfl, rfl⟩, ?_⟩
      · rw [← hroute]
        exact hspec
      · apply actionsSince_of_trace_eq
        simp only [calculateHybridRoute, hlt, if_false, hres, alert, htrace]
        simp
      · have hc : calculateHybridRoute env s =
            alert ("Ошибка расчета маршрута: " ++ e) s1 := by
          simp only [calculateHybridRoute, hlt, if_false, hres]
        rw [hc]
        refine ⟨?_, ?_, ?_, ?_, rfl, rfl⟩
        · exact hspec.route_eq.trans hroute
        · exact hspec.profile_eq.trans hprof
        · exact hspec.mode_eq.trans hmode
        · exact hspec.pending_eq.trans hpend

theorem mem_requestsOf_of_mem (new : List Action) (j : Nat) (a b : LatLng)
    (h : Action.providerRequest j a b ∈ new) : j ∈ requestsOf new := by
  unfold requestsOf
  rw [List.mem_filterMap]
  exact ⟨_, h, rfl⟩

/-- The provider requests of a run are those of its loop. -/
theorem mem_run_iff (pre new post : List Action) (j : Nat) (a b : LatLng)
    (hpre : ∀ j a b, Action.providerRequest j a b ∉ pre)
    (hpost : ∀ j a b, Action.providerRequest j a b ∉ post) :
    Action.providerRequest j a b ∈ pre ++ new ++ post ↔ Action.providerRequest j a b ∈ new := by
  simp only [List.mem_append]
  constructor
  · rintro ((h | h) | h)
    · exact absurd h (hpre j a b)
    · exact h
    · exact absurd h (hpost j a b)
  · intro h
    exact Or.inl (Or.inr h)

/-- In a failed loop the rejected request is the last gap looked up. -/
theorem LoopSpec.failed_index {env : Env} {rt : List LatLng} {s : RoutePlanner}
    {r : Option String × RoutePlanner} {new : List Action} {k : Nat}
    (h : LoopSpec env 0 rt s r new k) (j : Nat) (a b : LatLng) (e : String)
    (hmem : Action.providerRequest j a b ∈ new)
    (herr : env.requestRouteFromAPI j a b = Except.error e) :
    k = j + 1 ∧ r.1 = some e := by
  have hj : j < k := by
    have := h.requests.subset (mem_requestsOf_of_mem new j a b hmem)
    simp only [List.mem_range'_1] at this
    omega
  cases hr : r.1 with
  | none =>
    obtain ⟨d, hd⟩ := (h.completed hr).2 j a b hmem
    rw [hd] at herr
    exact absurd herr (by simp)
  | some e' =>
    obtain ⟨_, ⟨a', b', hmem', herr'⟩, hall⟩ := h.failed e' hr
    have hk : ¬ j + 1 < 0 + k := by
      intro hlt
      obtain ⟨d, hd⟩ := hall j a b hmem hlt
      rw [hd] at herr
      exact absurd herr (by simp)
    have hkj : k = j + 1 := by omega
    refine ⟨hkj, ?_⟩
    subst hkj
    have hidx : 0 + (j + 1) - 1 = j := by omega
    rw [hidx] at hmem' herr'
    obtain ⟨_, ha, hb⟩ := h.request_args j a b hmem
    obtain ⟨_, ha', hb'⟩ := h.request_args j a' b' hmem'
    rw [ha] at ha'
    rw [hb] at hb'
    simp only [Option.some.injEq] at ha' hb'
    subst ha' hb'
    rw [herr] at herr'
    simp only [Except.error.injEq] at herr'
    rw [herr']

/-! ## Frame facts of the route operations -/

theorem addPoint_autoSegments (env : Env) (latlng : LatLng) (insertIndex : Int)
    (s : RoutePlanner) : (addPoint env latlng insertIndex s).autoSegments = s.autoSegments := rfl

theorem removePoint_autoSegments (env : Env) (index : Int) (s : RoutePlanner) :
    (removePoint env index s).autoSegments = s.autoSegments := rfl

theorem drag_autoSegments (k : Nat) (newPos : LatLng) (s : RoutePlanner) :
    (drag k newPos s).autoSegments = s.autoSegments := by
  unfold drag
  split <;> rfl

theorem dragend_autoSegments (env : Env) (s : RoutePlanner) :
    (dragend env s).autoSegments = s.autoSegments := rfl

/-! ## The claims -/

/-- C1, evaluated where the code departs from it: after a first run on the route `wpA`,
`wpB` the key of the gap is in `routingCache`; at the start of the next run
`calculateAutoSegment` finds it, draws the polyline and resolves, and `autoSegments` is
still empty: the cached entry is not installed in `autoSegments[0]`. -/
theorem calculateAutoSegment_cache_hit_skips_autoSegments :
    (hybridStart twoPointsRouted).routingCache.get
        (getCacheKey (hybridStart twoPointsRouted) wpA wpB) =
      some { geometry := ⟨[(13, 52), (mkRat 131 10, mkRat 521 10)]⟩, distance := 12000,
             duration := 1800 } ∧
    (calculateAutoSegment straightEnv wpA wpB 0 (hybridStart twoPointsRouted)).1 = none ∧
    (calculateAutoSegment straightEnv wpA wpB 0 (hybridStart twoPointsRouted)).2.autoPolylines =
      [some ⟨[(52, 13), (mkRat 521 10, mkRat 131 10)]⟩] ∧
    (calculateAutoSegment straightEnv wpA wpB 0 (hybridStart twoPointsRouted)).2.autoSegments = [] ∧
    (calculateHybridRoute straightEnv twoPointsRouted).autoSegments = [] := by
  decide

/-- C2, evaluated where the code departs from it: in hybrid mode, with the route `wpA`,
`wpB` and the single automatic segment holding the straight two-point geometry from `wpA`
to `wpB`, `getFullRoute` returns three points: the end point `wpB` comes once from the
geometry and once more as the next waypoint. -/
theorem getFullRoute_repeats_segment_end :
    twoPointsRouted.routingMode = "hybrid" ∧
    twoPointsRouted.route = [wpA, wpB] ∧
    twoPointsRouted.autoSegments =
      [some { startPoint := wpA, endPoint := wpB,
              geometry := ⟨[(wpA.lng, wpA.lat), (wpB.lng, wpB.lat)]⟩,
              distance := 12000, duration := 1800 }] ∧
    getFullRoute twoPointsRouted = [some wpA, some wpB, some wpB] := by
  decide

/-- C3 as stated fails: `twoPoints` is reached from the initial state by two calls of
`addPoint`, and there `autoSegments` is empty although the route has two waypoints. -/
theorem autoSegments_length_invariant_fails :
    ¬ ∀ s : RoutePlanner, Reachable s →
      s.autoSegments.length = max 0 (s.route.length - 1) := by
  intro h
  have h2 := h twoPoints
    (Reachable.addPoint straightEnv wpB (-1) _
      (Reachable.addPoint straightEnv wpA (-1) _ (Reachable.init straightEnv)))
  revert h2
  decide

/-- C3, amended: `autoSegments.length = max 0 (route.length - 1)` holds in the initial
state, after `clearRoute`, and after a completed run of `calculateHybridRoute` in which
every gap was computed by a provider request; `addPoint` and `removePoint` leave
`autoSegments` as it is, and `clearAutoSegments` and `loadRoute` leave it empty whatever
the length of the route. -/
theorem autoSegments_length_by_operation (env : Env) (s : RoutePlanner) :
    (init env).autoSegments.length = max 0 ((init env).route.length - 1) ∧
    (clearRoute env s).autoSegments.length = max 0 ((clearRoute env s).route.length - 1) ∧
    (hybridCompleted env s →
      requestsOf (actionsSince s (calculateHybridRoute env s)) =
        List.range (s.route.length - 1) →
      (calculateHybridRoute env s).autoSegments.length =
        max 0 ((calculateHybridRoute env s).route.length - 1)) ∧
    (∀ latlng insertIndex, (addPoint env latlng insertIndex s).autoSegments = s.autoSegments) ∧
    (∀ index, (removePoint env index s).autoSegments = s.autoSegments) ∧
    (clearAutoSegments s).autoSegments = [] ∧
    (∀ coordinates, (loadRoute env coordinates s).autoSegments = []) := by
  refine ⟨rfl, rfl, ?_, fun _ _ => rfl, fun _ => rfl, rfl, fun _ => rfl⟩
  intro hdone hreqs
  obtain ⟨hlen, hout⟩ := hdone
  obtain ⟨pre, new, post, k, hspec, hacts, _, hpr, _, _, hpost, hroute, _, _, _, _, hsegs⟩ :=
    calculateHybridRoute_run env s hlen
  rcases hpost with ⟨_, hpost⟩ | ⟨e, he, _⟩
  · have hstart := hybridStart_autoSegments s
    have hk := (hspec.completed hout).1
    rw [hacts, hpost] at hreqs
    simp only [requestsOf_append, hpr, List.nil_append, requestsOf_cons_emit, requestsOf_nil,
      List.append_nil] at hreqs
    rw [List.range_eq_range', ← hk] at hreqs
    have hall := hspec.segs_all hout hreqs (by omega)
    rw [hsegs, hroute, hall, hstart]
    simp only [List.length_nil]
    omega
  · rw [hout] at he
    exact absurd he (by simp)

/-- The run of `calculateHybridRoute` on `twoPoints` with the provider `straightEnv`
completes with its single gap computed by a provider request. -/
theorem autoSegments_length_by_operation_witness :
    hybridCompleted straightEnv twoPoints ∧
    requestsOf (actionsSince twoPoints (calculateHybridRoute straightEnv twoPoints)) =
      List.range (twoPoints.route.length - 1) ∧
    (calculateHybridRoute straightEnv twoPoints).autoSegments.length =
      max 0 ((calculateHybridRoute straightEnv twoPoints).route.length - 1) :=
  ⟨by decide, by decide,
    (autoSegments_length_by_operation straightEnv twoPoints).2.2.1 (by decide) (by decide)⟩

/-- C4 as stated fails: after the run on `wpA`, `wpB` the entry of gap 0 is not stale;
inserting `wpC` at index 1 with `addPoint` makes the route `wpA`, `wpC`, `wpB` and leaves
that entry, whose stored end point `wpB` is no longer the waypoint after `wpA`. -/
theorem addPoint_keeps_stale_segment :
    ¬ StaleSegment twoPointsRouted 0 ∧
    (addPoint straightEnv wpC 1 twoPointsRouted).route = [wpA, wpC, wpB] ∧
    StaleSegment (addPoint straightEnv wpC 1 twoPointsRouted) 0 := by
  refine ⟨?_, by decide, ?_⟩
  · rintro ⟨seg, hseg, hne⟩
    have h0 : twoPointsRouted.autoSegments.get? 0 =
        some (some { startPoint := wpA, endPoint := wpB,
                     geometry := ⟨[(wpA.lng, wpA.lat), (wpB.lng, wpB.lat)]⟩,
                     distance := 12000, duration := 1800 }) := by decide
    rw [h0] at hseg
    simp only [Option.some.injEq] at hseg
    subst hseg
    revert hne
    decide
  · exact ⟨{ startPoint := wpA, endPoint := wpB,
             geometry := ⟨[(wpA.lng, wpA.lat), (wpB.lng, wpB.lat)]⟩,
             distance := 12000, duration := 1800 }, by decide, by decide⟩

/-- C4, amended: `addPoint`, `removePoint` and the `drag` and `dragend` handlers never
write `autoSegments`, so every entry stays as it was, also when one of its bracketing
waypoints was added, moved or removed; the entries are dropped, all at once, only by
`clearRoute`, `loadRoute`, `clearAutoSegments` and at the start of a run of
`calculateHybridRoute`. -/
theorem route_edits_keep_autoSegments (env : Env) (s : RoutePlanner) :
    (∀ latlng insertIndex, (addPoint env latlng insertIndex s).autoSegments = s.autoSegments) ∧
    (∀ index, (removePoint env index s).autoSegments = s.autoSegments) ∧
    (∀ k newPos, (drag k newPos s).autoSegments = s.autoSegments) ∧
    (dragend env s).autoSegments = s.autoSegments ∧
    (clearRoute env s).autoSegments = [] ∧
    (∀ coordinates, (loadRoute env coordinates s).autoSegments = []) ∧
    (clearAutoSegments s).autoSegments = [] ∧
    (hybridStart s).autoSegments = [] :=
  ⟨fun _ _ => rfl, fun _ => rfl, fun k newPos => drag_autoSegments k newPos s, rfl, rfl,
    fun _ => rfl, rfl, hybridStart_autoSegments s⟩

/-- C5: a run of `calculateHybridRoute` on `n ≥ 2` waypoints looks up the gaps
`0, 1, …, k-1` in this order for some `k ≤ n-1`, once each, and issues at most one provider
request per looked-up gap, in the same order, each for the two waypoints bracketing its
gap; if the request for gap `j` is rejected then the look-ups are exactly those of the gaps
`0..j` and no gap after `j` is looked up or requested; if no request is rejected then all
`n-1` gaps are looked up. -/
theorem calculateHybridRoute_gap_order (env : Env) (s : RoutePlanner)
    (h : 2 ≤ s.route.length) :
    (∃ k, k ≤ s.route.length - 1 ∧
      lookupsOf (actionsSince s (calculateHybridRoute env s)) = List.range k ∧
      (requestsOf (actionsSince s (calculateHybridRoute env s))).Sublist (List.range k)) ∧
    (∀ j a b, Action.providerRequest j a b ∈ actionsSince s (calculateHybridRoute env s) →
      s.route.get? j = some a ∧ s.route.get? (j + 1) = some b) ∧
    (∀ j a b e, Action.providerRequest j a b ∈ actionsSince s (calculateHybridRoute env s) →
      env.requestRouteFromAPI j a b = Except.error e →
      lookupsOf (actionsSince s (calculateHybridRoute env s)) = List.range (j + 1) ∧
      ∀ j', j < j' →
        j' ∉ lookupsOf (actionsSince s (calculateHybridRoute env s)) ∧
        j' ∉ requestsOf (actionsSince s (calculateHybridRoute env s))) ∧
    ((∀ j a b, Action.providerRequest j a b ∈ actionsSince s (calculateHybridRoute env s) →
        ∃ d, env.requestRouteFromAPI j a b = Except.ok d) →
      lookupsOf (actionsSince s (calculateHybridRoute env s)) =
        List.range (s.route.length - 1)) := by
  obtain ⟨pre, new, post, k, hspec, hacts, hpl, hpr, _, hpn, hpost, _⟩ :=
    calculateHybridRoute_run env s h
  have hpostl : lookupsOf post = [] := by
    rcases hpost with ⟨_, hp⟩ | ⟨e, _, hp⟩ <;> rw [hp] <;> rfl
  have hpostr : requestsOf post = [] := by
    rcases hpost with ⟨_, hp⟩ | ⟨e, _, hp⟩ <;> rw [hp] <;> rfl
  have hpostn : ∀ j a b, Action.providerRequest j a b ∉ post := by
    intro j a b
    rcases hpost with ⟨_, hp⟩ | ⟨e, _, hp⟩ <;> rw [hp] <;> simp
  have hl : lookupsOf (actionsSince s (calculateHybridRoute env s)) = List.range k := by
    rw [hacts, lookupsOf_append, lookupsOf_append, hpl, hpostl, hspec.lookups,
      List.range_eq_range']
    simp
  have hr : requestsOf (actionsSince s (calculateHybridRoute env s)) = requestsOf new := by
    rw [hacts, requestsOf_append, requestsOf_append, hpr, hpostr]
    simp
  have hmem : ∀ j a b, Action.providerRequest j a b ∈ actionsSince s (calculateHybridRoute env s) ↔
      Action.providerRequest j a b ∈ new := by
    intro j a b
    rw [hacts]
    exact mem_run_iff pre new post j a b hpn hpostn
  have hsub : (requestsOf new).Sublist (List.range k) := by
    rw [List.range_eq_range']
    exact hspec.requests
  refine ⟨⟨k, hspec.k_le, hl, by rw [hr]; exact hsub⟩, ?_, ?_, ?_⟩
  · intro j a b hj
    obtain ⟨_, ha, hb⟩ := hspec.request_args j a b ((hmem j a b).mp hj)
    exact ⟨by simpa using ha, by simpa using hb⟩
  · intro j a b e hj herr
    obtain ⟨hk, _⟩ := hspec.failed_index j a b e ((hmem j a b).mp hj) herr
    subst hk
    refine ⟨hl, ?_⟩
    intro j' hj'
    constructor
    · rw [hl, List.mem_range]
      omega
    · rw [hr]
      intro hin
      have := hsub.subset hin
      rw [List.mem_range] at this
      omega
  · intro hall
    rw [hl]
    cases hout : (hybridLoop env 0 (hybridStart s).route (hybridStart s)).1 with
    | none => rw [(hspec.completed hout).1]
    | some e =>
      obtain ⟨_, ⟨a, b, hin, herr⟩, _⟩ := hspec.failed e hout
      obtain ⟨d, hd⟩ := hall _ a b ((hmem _ a b).mpr hin)
      rw [hd] at herr
      exact absurd herr (by simp)

/-- The run of `calculateHybridRoute` on the three waypoints of `threePoints` with a provider
that rejects the request of gap 1: gap 0 and gap 1 are looked up and requested, in this
order. -/
theorem calculateHybridRoute_gap_order_witness :
    2 ≤ threePoints.route.length ∧
    Action.providerRequest 1 wpB wpC ∈
      actionsSince threePoints (calculateHybridRoute failSecondEnv threePoints) ∧
    lookupsOf (actionsSince threePoints (calculateHybridRoute failSecondEnv threePoints)) =
      List.range (1 + 1) :=
  ⟨by decide, by decide,
    ((calculateHybridRoute_gap_order failSecondEnv threePoints (by decide)).2.2.1 1 wpB wpC
      "Route not found" (by decide) rfl).1⟩

/-- C6 as stated fails: on the route `wpA`, `wpB`, `wpC`, with `autoSegments` empty before
the run, the provider answers gap 0 and rejects gap 1; when the run ends `autoSegments`
still holds the entry computed for gap 0 in that run. -/
theorem failed_run_keeps_first_segment :
    threePoints.autoSegments = [] ∧
    failSecondEnv.requestRouteFromAPI 1 wpB wpC = Except.error "Route not found" ∧
    Action.providerRequest 1 wpB wpC ∈
      actionsSince threePoints (calculateHybridRoute failSecondEnv threePoints) ∧
    (calculateHybridRoute failSecondEnv threePoints).autoSegments =
      [some (segmentOf wpA wpB
        { geometry := ⟨[(wpA.lng, wpA.lat), (wpB.lng, wpB.lat)]⟩, distance := 12000,
          duration := 1800 })] :=
  ⟨by decide, rfl, by decide, by decide⟩

/-- C6, amended: if the provider request for gap `k` is rejected, the run stops there
without a rollback: every entry stored earlier in the run, for a gap whose request the
provider answered, is still in `autoSegments` when the run ends, no slot with index `k` or
more has been written, and the run emits `autoSegmentsCleared` and nothing else, so no
`routeChanged`. -/
theorem failed_run_keeps_computed_segments (env : Env) (s : RoutePlanner)
    (h : 2 ≤ s.route.length) (k : Nat) (a b : LatLng) (e : String)
    (hmem : Action.providerRequest k a b ∈ actionsSince s (calculateHybridRoute env s))
    (herr : env.requestRouteFromAPI k a b = Except.error e) :
    (calculateHybridRoute env s).autoSegments.length ≤ k ∧
    (∀ j a' b' d,
      Action.providerRequest j a' b' ∈ actionsSince s (calculateHybridRoute env s) →
      env.requestRouteFromAPI j a' b' = Except.ok d →
      (calculateHybridRoute env s).autoSegments.get? j = some (some (segmentOf a' b' d))) ∧
    emitsOf (actionsSince s (calculateHybridRoute env s)) = ["autoSegmentsCleared"] := by
  obtain ⟨pre, new, post, k', hspec, hacts, _, _, hpe, hpn, hpost, _, _, _, _, _, hsegs⟩ :=
    calculateHybridRoute_run env s h
  have hpostn : ∀ j a b, Action.providerRequest j a b ∉ post := by
    intro j a b
    rcases hpost with ⟨_, hp⟩ | ⟨e, _, hp⟩ <;> rw [hp] <;> simp
  have hiff : ∀ j a b, Action.providerRequest j a b ∈ actionsSince s (calculateHybridRoute env s) ↔
      Action.providerRequest j a b ∈ new := by
    intro j a b
    rw [hacts]
    exact mem_run_iff pre new post j a b hpn hpostn
  obtain ⟨hk, hout⟩ := hspec.failed_index k a b e ((hiff k a b).mp hmem) herr
  subst hk
  refine ⟨?_, ?_, ?_⟩
  · have := hspec.segs_len_failed e hout
    rw [hybridStart_autoSegments] at this
    rw [hsegs]
    simp only [List.length_nil] at this
    omega
  · intro j a' b' d hj hok
    rw [hsegs]
    exact hspec.segs_stored j a' b' d ((hiff j a' b').mp hj) hok
  · rcases hpost with ⟨hnone, _⟩ | ⟨e', _, hp⟩
    · rw [hout] at hnone
      exact absurd hnone (by simp)
    · rw [hacts, hp, emitsOf_append, emitsOf_append, hpe,
        emitsOf_eq_nil_of_gapActions new hspec.gapActions]
      rfl

/-- The run of `calculateHybridRoute` on `threePoints` whose request for gap 1 is
rejected. -/
theorem failed_run_keeps_computed_segments_witness :
    2 ≤ threePoints.route.length ∧
    Action.providerRequest 1 wpB wpC ∈
      actionsSince threePoints (calculateHybridRoute failSecondEnv threePoints) ∧
    (calculateHybridRoute failSecondEnv threePoints).autoSegments.length ≤ 1 ∧
    emitsOf (actionsSince threePoints (calculateHybridRoute failSecondEnv threePoints)) =
      ["autoSegmentsCleared"] :=
  ⟨by decide, by decide,
    (failed_run_keeps_computed_segments failSecondEnv threePoints (by decide) 1 wpB wpC
      "Route not found" (by decide) rfl).1,
    (failed_run_keeps_computed_segments failSecondEnv threePoints (by decide) 1 wpB wpC
      "Route not found" (by decide) rfl).2.2⟩

/-- C7: when a run of `calculateHybridRoute` has completed and the method is called again
on the state it left, with the same waypoints, the same profile and the cache untouched,
the second run looks up every gap, issues no provider request whatever the provider would
answer, and completes. -/
theorem second_run_served_from_cache (env1 env2 : Env) (s : RoutePlanner)
    (h : hybridCompleted env1 s) :
    requestsOf (actionsSince (calculateHybridRoute env1 s)
      (calculateHybridRoute env2 (calculateHybridRoute env1 s))) = [] ∧
    lookupsOf (actionsSince (calculateHybridRoute env1 s)
      (calculateHybridRoute env2 (calculateHybridRoute env1 s))) =
      List.range (s.route.length - 1) ∧
    hybridCompleted env2 (calculateHybridRoute env1 s) := by
  obtain ⟨hlen, hout⟩ := h
  obtain ⟨_, _, _, _, hspec1, _, _, _, _, _, _, hroute1, hprof1, _, _, hcache1, _⟩ :=
    calculateHybridRoute_run env1 s hlen
  obtain ⟨_, _, _, _, _, _, hsroute, hscache, hsprof, _⟩ := hybridStart_spec s
  obtain ⟨_, _, _, _, _, _, hsroute1, hscache1, hsprof1, _⟩ :=
    hybridStart_spec (calculateHybridRoute env1 s)
  have hlen1 : 2 ≤ (calculateHybridRoute env1 s).route.length := by
    rw [hroute1]
    exact hlen
  have hcached : AllCached (hybridStart (calculateHybridRoute env1 s))
      (calculateHybridRoute env1 s).route := by
    rw [hroute1]
    refine AllCached_congr _ _ ?_ ?_ s.route (hspec1.cached hout)
    · rw [hscache1, hcache1]
    · rw [hsprof1, hprof1, hspec1.profile_eq, hsprof]
  obtain ⟨pre, new, post, k, hspec2, hacts, hpl, hpr, _, _, hpost, _⟩ :=
    calculateHybridRoute_run env2 (calculateHybridRoute env1 s) hlen1
  obtain ⟨hout2, hreq2, hk2⟩ := hspec2.hits hcached
  have hp : post = [Action.emit "routeChanged" none, Action.emit "routeUpdated" none,
      Action.emit "routeChanged" none] := by
    rcases hpost with ⟨_, hp⟩ | ⟨e, he, _⟩
    · exact hp
    · rw [hout2] at he
      exact absurd he (by simp)
  refine ⟨?_, ?_, hlen1, hout2⟩
  · rw [hacts, hp, requestsOf_append, requestsOf_append, hpr, hreq2]
    rfl
  · rw [hacts, hp, lookupsOf_append, lookupsOf_append, hpl, hspec2.lookups, hk2, hroute1,
      List.range_eq_range']
    simp

/-- Two runs on `twoPoints`: the first has its single gap answered by the provider, the
second meets a provider that would reject gap 1 and never asks it. -/
theorem second_run_served_from_cache_witness :
    hybridCompleted straightEnv twoPoints ∧
    requestsOf (actionsSince (calculateHybridRoute straightEnv twoPoints)
      (calculateHybridRoute failSecondEnv (calculateHybridRoute straightEnv twoPoints))) = [] ∧
    lookupsOf (actionsSince (calculateHybridRoute straightEnv twoPoints)
      (calculateHybridRoute failSecondEnv (calculateHybridRoute straightEnv twoPoints))) =
      List.range (twoPoints.route.length - 1) ∧
    hybridCompleted failSecondEnv (calculateHybridRoute straightEnv twoPoints) :=
  ⟨by decide, second_run_served_from_cache straightEnv failSecondEnv twoPoints (by decide)⟩

/-- C8 as stated fails: the completed run on `twoPoints` emits `routeChanged` twice, once
from `updateRouteInfo` and once from `calculateHybridRoute` itself. -/
theorem completed_run_routeChanged_not_once :
    hybridCompleted straightEnv twoPoints ∧
    (emitsOf (actionsSince twoPoints (calculateHybridRoute straightEnv twoPoints))).count
      "routeChanged" = 2 ∧
    (emitsOf (actionsSince twoPoints (calculateHybridRoute straightEnv twoPoints))).count
      "routeChanged" ≠ 1 := by
  decide

/-- C8, amended: a run of `calculateHybridRoute` that completes emits exactly the events
`autoSegmentsCleared`, `routeChanged`, `routeUpdated`, `routeChanged`, in this order, so
`routeChanged` exactly twice. -/
theorem completed_run_emits (env : Env) (s : RoutePlanner) (h : hybridCompleted env s) :
    emitsOf (actionsSince s (calculateHybridRoute env s)) =
      ["autoSegmentsCleared", "routeChanged", "routeUpdated", "routeChanged"] ∧
    (emitsOf (actionsSince s (calculateHybridRoute env s))).count "routeChanged" = 2 := by
  obtain ⟨hlen, hout⟩ := h
  obtain ⟨pre, new, post, k, hspec, hacts, _, _, hpe, _, hpost, _⟩ :=
    calculateHybridRoute_run env s hlen
  have hp : post = [Action.emit "routeChanged" none, Action.emit "routeUpdated" none,
      Action.emit "routeChanged" none] := by
    rcases hpost with ⟨_, hp⟩ | ⟨e, he, _⟩
    · exact hp
    · rw [hout] at he
      exact absurd he (by simp)
  have hemits : emitsOf (actionsSince s (calculateHybridRoute env s)) =
      ["autoSegmentsCleared", "routeChanged", "routeUpdated", "routeChanged"] := by
    rw [hacts, hp, emitsOf_append, emitsOf_append, hpe,
      emitsOf_eq_nil_of_gapActions new hspec.gapActions]
    rfl
  refine ⟨hemits, ?_⟩
  rw [hemits]
  decide

/-- The completed run on `twoPoints`. -/
theorem completed_run_emits_witness :
    hybridCompleted straightEnv twoPoints ∧
    emitsOf (actionsSince twoPoints (calculateHybridRoute straightEnv twoPoints)) =
      ["autoSegmentsCleared", "routeChanged", "routeUpdated", "routeChanged"] ∧
    (emitsOf (actionsSince twoPoints (calculateHybridRoute straightEnv twoPoints))).count
      "routeChanged" = 2 :=
  ⟨by decide, completed_run_emits straightEnv twoPoints (by decide)⟩

/-- C9: on a route of fewer than two waypoints `calculateHybridRoute` only reports the
error with an alert: the route, `autoSegments`, `autoPolylines`, `routingCache` and every
other field are unchanged, no gap is looked up, no provider request is made and no event is
emitted. -/
theorem calculateHybridRoute_insufficient_points (env : Env) (s : RoutePlanner)
    (h : s.route.length < 2) :
    calculateHybridRoute env s = alert "Нужно минимум 2 точки для расчета маршрута" s ∧
    (calculateHybridRoute env s).route = s.route ∧
    (calculateHybridRoute env s).autoSegments = s.autoSegments ∧
    (calculateHybridRoute env s).autoPolylines = s.autoPolylines ∧
    (calculateHybridRoute env s).routingCache = s.routingCache ∧
    (calculateHybridRoute env s).markers = s.markers ∧
    (calculateHybridRoute env s).totalDistance = s.totalDistance ∧
    (calculateHybridRoute env s).routingMode = s.routingMode ∧
    (calculateHybridRoute env s).routingProfile = s.routingProfile ∧
    (calculateHybridRoute env s).pendingRouteRequest = s.pendingRouteRequest ∧
    actionsSince s (calculateHybridRoute env s) =
      [Action.alert "Нужно минимум 2 точки для расчета маршрута"] ∧
    requestsOf (actionsSince s (calculateHybridRoute env s)) = [] ∧
    lookupsOf (actionsSince s (calculateHybridRoute env s)) = [] ∧
    emitsOf (actionsSince s (calculateHybridRoute env s)) = [] := by
  have hc : calculateHybridRoute env s =
      alert "Нужно минимум 2 точки для расчета маршрута" s := by
    simp only [calculateHybridRoute, h, if_true]
  have hacts : actionsSince s (calculateHybridRoute env s) =
      [Action.alert "Нужно минимум 2 точки для расчета маршрута"] := by
    apply actionsSince_of_trace_eq
    rw [hc]
    rfl
  refine ⟨hc, ?_, ?_, ?_, ?_, ?_, ?_, ?_, ?_, ?_, hacts, ?_, ?_, ?_⟩
  any_goals (rw [hc]; rfl)
  all_goals (rw [hacts]; rfl)

/-- The call of `calculateHybridRoute` on a route of one waypoint. -/
theorem calculateHybridRoute_insufficient_points_witness :
    (addPoint straightEnv wpA (-1) (init straightEnv)).route.length < 2 ∧
    calculateHybridRoute straightEnv (addPoint straightEnv wpA (-1) (init straightEnv)) =
      alert "Нужно минимум 2 точки для расчета маршрута"
        (addPoint straightEnv wpA (-1) (init straightEnv)) :=
  ⟨by decide,
    (calculateHybridRoute_insufficient_points straightEnv
      (addPoint straightEnv wpA (-1) (init straightEnv)) (by decide)).1⟩

/-- C10: in the cache keyed by `getCacheKey`, a look-up with the key of the same profile,
start and end as a stored entry finds the key and returns that entry, and after
`routingCache.clear()` the same look-up is a miss. -/
theorem routingCache_get_after_set_and_clear (s : RoutePlanner) (a b : LatLng)
    (entry : RouteData) :
    (s.routingCache.set (getCacheKey s a b) entry).has (getCacheKey s a b) = true ∧
    (s.routingCache.set (getCacheKey s a b) entry).get (getCacheKey s a b) = some entry ∧
    (s.routingCache.set (getCacheKey s a b) entry).clear.has (getCacheKey s a b) = false ∧
    (s.routingCache.set (getCacheKey s a b) entry).clear.get (getCacheKey s a b) = none :=
  ⟨JSMap.has_set_self _ _ _, JSMap.get_set_self _ _ _, rfl, rfl⟩

/-! ## Cache keys and profiles -/

theorem getCacheKey_ne_of_profile_ne (s t : RoutePlanner) (a b : LatLng)
    (h : t.routingProfile ≠ s.routingProfile) : getCacheKey t a b ≠ getCacheKey s a b := by
  intro heq
  apply h
  have hdata := congrArg String.data heq
  simp only [getCacheKey, String.data_append, List.append_assoc] at hdata
  exact String.ext (List.append_cancel_right hdata)

theorem setRoutingProfile_of_valid (profile : String) (s : RoutePlanner)
    (h : profile ∈ validProfiles) :
    setRoutingProfile profile s =
      emit "routingProfileChanged" (some profile)
        { s with routingProfile := profile, routingCache := s.routingCache.clear } := by
  unfold setRoutingProfile
  exact if_pos h

theorem setRoutingProfile_of_invalid (profile : String) (s : RoutePlanner)
    (h : profile ∉ validProfiles) : setRoutingProfile profile s = s := by
  unfold setRoutingProfile
  exact if_neg h

/-! ## The routing mode is not read by a run -/

theorem calculateAutoSegment_routingMode (env : Env) (a b : LatLng) (i : Nat)
    (s : RoutePlanner) (m : String) :
    calculateAutoSegment env a b i { s with routingMode := m } =
      ((calculateAutoSegment env a b i s).1,
        { (calculateAutoSegment env a b i s).2 with routingMode := m }) := by
  simp only [calculateAutoSegment, getCacheKey, displayAutoSegment]
  split
  · rfl
  · split <;> rfl

theorem hybridLoop_routingMode (env : Env) (m : String) (rt : List LatLng) :
    ∀ (i : Nat) (s : RoutePlanner),
      hybridLoop env i rt { s with routingMode := m } =
        ((hybridLoop env i rt s).1, { (hybridLoop env i rt s).2 with routingMode := m }) := by
  induction rt with
  | nil => intro i s; simp [hybridLoop]
  | cons a tl ih =>
    intro i s
    cases tl with
    | nil => simp [hybridLoop]
    | cons b rest =>
      rw [hybridLoop, hybridLoop, calculateAutoSegment_routingMode]
      cases hstep : calculateAutoSegment env a b i s with
      | mk out s1 =>
        cases out with
        | some e => rfl
        | none => exact ih (i + 1) s1

theorem hybridStart_routingMode (s : RoutePlanner) (m : String) :
    hybridStart { s with routingMode := m } = { hybridStart s with routingMode := m } := by
  unfold hybridStart clearAutoSegments emit
  split <;> rfl

theorem calculateHybridRoute_routingMode (env : Env) (s : RoutePlanner) (m : String) :
    calculateHybridRoute env { s with routingMode := m } =
      { calculateHybridRoute env s with routingMode := m } := by
  unfold calculateHybridRoute
  by_cases h : s.route.length < 2
  · simp only [h, if_true]
    rfl
  · simp only [h, if_false]
    rw [hybridStart_routingMode]
    have hroute : ({ hybridStart s with routingMode := m } : RoutePlanner).route =
        (hybridStart s).route := rfl
    rw [hroute, hybridLoop_routingMode]
    cases hres : hybridLoop env 0 (hybridStart s).route (hybridStart s) with
    | mk out s1 =>
      cases out <;> rfl

/-! ## The claims on cache keys, profiles and modes -/

/-- C11, evaluated where the code departs from it: the latitudes of `wpSouth` and
`wpNorth` lie within half a millionth of a degree of zero, so both round to zero at six
decimals, and all other coordinates are equal; yet `toFixed(6)` prints the negative one as
`-0.000000` and the positive one as `0.000000`, and the two cache keys differ. -/
theorem getCacheKey_splits_rounded_zero :
    |wpSouth.lat| * 1000000 < 1 / 2 ∧ |wpNorth.lat| * 1000000 < 1 / 2 ∧
    wpSouth.lng = wpNorth.lng ∧
    toFixed6 wpSouth.lat = "-0.000000" ∧ toFixed6 wpNorth.lat = "0.000000" ∧
    getCacheKey (init straightEnv) wpSouth wpOrigin =
      "driving_-0.000000_0.000000_0.000000_0.000000" ∧
    getCacheKey (init straightEnv) wpNorth wpOrigin =
      "driving_0.000000_0.000000_0.000000_0.000000" ∧
    getCacheKey (init straightEnv) wpSouth wpOrigin ≠
      getCacheKey (init straightEnv) wpNorth wpOrigin := by
  refine ⟨?_, ?_, rfl, by decide, by decide, by decide, by decide, by decide⟩
  · norm_num [wpSouth, Rat.mkRat_eq_div, abs_of_pos]
  · norm_num [wpNorth, Rat.mkRat_eq_div, abs_of_pos]

/-- C12: after `setRoutingProfile` with a valid profile other than the current one the
cache is empty, the key of any start and end under the new profile differs from their key
under the old profile, a look-up of that key is a miss, and `calculateAutoSegment` for
that start and end goes to the provider. -/
theorem setRoutingProfile_invalidates_cache (env : Env) (s : RoutePlanner) (profile : String)
    (a b : LatLng) (i : Nat) (hvalid : profile ∈ validProfiles)
    (hne : profile ≠ s.routingProfile) :
    (setRoutingProfile profile s).routingCache.entries = [] ∧
    getCacheKey (setRoutingProfile profile s) a b ≠ getCacheKey s a b ∧
    (setRoutingProfile profile s).routingCache.has
      (getCacheKey (setRoutingProfile profile s) a b) = false ∧
    (setRoutingProfile profile s).routingCache.get
      (getCacheKey (setRoutingProfile profile s) a b) = none ∧
    (setRoutingProfile profile s).routingCache.has (getCacheKey s a b) = false ∧
    requestsOf (actionsSince (setRoutingProfile profile s)
      (calculateAutoSegment env a b i (setRoutingProfile profile s)).2) = [i] := by
  have hset := setRoutingProfile_of_valid profile s hvalid
  have hcache : (setRoutingProfile profile s).routingCache = s.routingCache.clear := by
    rw [hset]
    rfl
  have hprof : (setRoutingProfile profile s).routingProfile = profile := by
    rw [hset]
    rfl
  have hget : (setRoutingProfile profile s).routingCache.get
      (getCacheKey (setRoutingProfile profile s) a b) = none := by
    rw [hcache]
    rfl
  refine ⟨by rw [hcache]; rfl, ?_, by rw [hcache]; rfl, hget, by rw [hcache]; rfl, ?_⟩
  · exact getCacheKey_ne_of_profile_ne s _ a b (by rw [hprof]; exact hne)
  · rcases calculateAutoSegment_cases env a b i (setRoutingProfile profile s) with
      ⟨cached, hhit, _⟩ | ⟨_, e, _, hstep⟩ | ⟨_, d, _, hstep⟩
    · rw [hget] at hhit
      exact absurd hhit (by simp)
    · rw [hstep]
      simp [actionsSince]
    · rw [hstep]
      simp [actionsSince]

/-- The planner `twoPointsRouted` holds the entry of its gap under the profile `driving`;
the profile is then set to `walking`. -/
theorem setRoutingProfile_invalidates_cache_witness :
    twoPointsRouted.routingCache.has (getCacheKey twoPointsRouted wpA wpB) = true ∧
    "walking" ∈ validProfiles ∧ "walking" ≠ twoPointsRouted.routingProfile ∧
    (setRoutingProfile "walking" twoPointsRouted).routingCache.entries = [] ∧
    getCacheKey (setRoutingProfile "walking" twoPointsRouted) wpA wpB ≠
      getCacheKey twoPointsRouted wpA wpB ∧
    (setRoutingProfile "walking" twoPointsRouted).routingCache.has
      (getCacheKey (setRoutingProfile "walking" twoPointsRouted) wpA wpB) = false ∧
    (setRoutingProfile "walking" twoPointsRouted).routingCache.get
      (getCacheKey (setRoutingProfile "walking" twoPointsRouted) wpA wpB) = none ∧
    (setRoutingProfile "walking" twoPointsRouted).routingCache.has
      (getCacheKey twoPointsRouted wpA wpB) = false ∧
    requestsOf (actionsSince (setRoutingProfile "walking" twoPointsRouted)
      (calculateAutoSegment straightEnv wpA wpB 0
        (setRoutingProfile "walking" twoPointsRouted)).2) = [0] :=
  ⟨by decide, by decide, by decide,
    setRoutingProfile_invalidates_cache straightEnv twoPointsRouted "walking" wpA wpB 0
      (by decide) (by decide)⟩

/-- C13 as stated fails: `cycling` is none of the five profiles, and `setRoutingProfile`
accepts it: the profile becomes `cycling`, the cache is emptied and
`routingProfileChanged` is emitted. -/
theorem setRoutingProfile_accepts_cycling :
    "cycling" ∉ ["driving", "walking", "cycling-regular", "cycling-gravel", "cycling-mountain"] ∧
    twoPointsRouted.routingProfile = "driving" ∧
    twoPointsRouted.routingCache.entries ≠ [] ∧
    (setRoutingProfile "cycling" twoPointsRouted).routingProfile = "cycling" ∧
    (setRoutingProfile "cycling" twoPointsRouted).routingCache.entries = [] ∧
    emitsOf (actionsSince twoPointsRouted (setRoutingProfile "cycling" twoPointsRouted)) =
      ["routingProfileChanged"] := by
  decide

/-- C13, amended: `setRoutingProfile` accepts exactly the six profiles `driving`,
`walking`, `cycling`, `cycling-mountain`, `cycling-gravel` and `cycling-regular`: for each
of them it sets `routingProfile` to that value, empties the cache and emits
`routingProfileChanged` once; for every other value it leaves the whole state, and so
`routingProfile` and `routingCache`, unchanged and emits no event. -/
theorem setRoutingProfile_accepts_six (s : RoutePlanner) (profile : String) :
    (profile ∈ validProfiles →
      (setRoutingProfile profile s).routingProfile = profile ∧
      (setRoutingProfile profile s).routingCache.entries = [] ∧
      actionsSince s (setRoutingProfile profile s) =
        [Action.emit "routingProfileChanged" (some profile)]) ∧
    (profile ∉ validProfiles →
      setRoutingProfile profile s = s ∧
      actionsSince s (setRoutingProfile profile s) = []) := by
  constructor
  · intro h
    rw [setRoutingProfile_of_valid profile s h]
    exact ⟨rfl, rfl, by simp [actionsSince, emit]⟩
  · intro h
    rw [setRoutingProfile_of_invalid profile s h]
    exact ⟨rfl, by simp [actionsSince]⟩

/-- The profile of `twoPointsRouted` is set to `cycling-gravel`, and to the unknown value
`flying`. -/
theorem setRoutingProfile_accepts_six_witness :
    "cycling-gravel" ∈ validProfiles ∧ "flying" ∉ validProfiles ∧
    (setRoutingProfile "cycling-gravel" twoPointsRouted).routingProfile = "cycling-gravel" ∧
    setRoutingProfile "flying" twoPointsRouted = twoPointsRouted :=
  ⟨by decide, by decide,
    ((setRoutingProfile_accepts_six twoPointsRouted "cycling-gravel").1 (by decide)).1,
    ((setRoutingProfile_accepts_six twoPointsRouted "flying").2 (by decide)).1⟩

/-- C14: `clearAutoSegments` leaves `autoSegments` and `autoPolylines` empty, emits
`autoSegmentsCleared` once and nothing else, and leaves `routingCache`, `route`,
`routingMode`, `routingProfile` and the other fields as they were. -/
theorem clearAutoSegments_effect (s : RoutePlanner) :
    (clearAutoSegments s).autoSegments = [] ∧
    (clearAutoSegments s).autoPolylines = [] ∧
    actionsSince s (clearAutoSegments s) = [Action.emit "autoSegmentsCleared" none] ∧
    (emitsOf (actionsSince s (clearAutoSegments s))).count "autoSegmentsCleared" = 1 ∧
    (clearAutoSegments s).routingCache = s.routingCache ∧
    (clearAutoSegments s).route = s.route ∧
    (clearAutoSegments s).routingMode = s.routingMode ∧
    (clearAutoSegments s).routingProfile = s.routingProfile ∧
    (clearAutoSegments s).markers = s.markers ∧
    (clearAutoSegments s).totalDistance = s.totalDistance ∧
    (clearAutoSegments s).pendingRouteRequest = s.pendingRouteRequest := by
  have hacts : actionsSince s (clearAutoSegments s) =
      [Action.emit "autoSegmentsCleared" none] := by
    simp [actionsSince, clearAutoSegments, emit]
  refine ⟨rfl, rfl, hacts, ?_, rfl, rfl, rfl, rfl, rfl, rfl, rfl⟩
  rw [hacts]
  decide

theorem handleMapClick_frame (env : Env) (proj : LatLng → Point) (latlng : LatLng)
    (s : RoutePlanner) :
    requestsOf (actionsSince s (handleMapClick env proj latlng s)) = [] ∧
    (handleMapClick env proj latlng s).autoSegments = s.autoSegments := by
  unfold handleMapClick
  split
  · exact ⟨by simp [actionsSince, addMeasurementPoint], rfl⟩
  · simp only
    split <;>
      exact ⟨by simp [actionsSince, addPoint, updateRouteInfo, updatePolyline, emit], rfl⟩

theorem handleMapClickEnhanced_frame (env : Env) (proj : LatLng → Point) (latlng : LatLng)
    (s : RoutePlanner) :
    requestsOf (actionsSince s (handleMapClickEnhanced env proj latlng s)) = [] ∧
    (handleMapClickEnhanced env proj latlng s).autoSegments = s.autoSegments := by
  unfold handleMapClickEnhanced
  split
  · exact ⟨by simp [actionsSince, addMeasurementPoint], rfl⟩
  · split
    · exact handleMapClick_frame env proj latlng s
    · split
      · exact ⟨by simp [actionsSince, addHybridPoint, addPoint, updateRouteInfo,
          updatePolyline, emit], rfl⟩
      · exact ⟨by simp [actionsSince], rfl⟩

/-- C15 as stated fails: in manual mode `calculateHybridRoute` on the route `wpA`, `wpB`
issues the provider request of gap 0 and writes `autoSegments[0]`, and the mode is still
`manual` afterwards. -/
theorem calculateHybridRoute_runs_in_manual_mode :
    manualTwoPoints.routingMode = "manual" ∧
    manualTwoPoints.autoSegments = [] ∧
    requestsOf (actionsSince manualTwoPoints
      (calculateHybridRoute straightEnv manualTwoPoints)) = [0] ∧
    (calculateHybridRoute straightEnv manualTwoPoints).autoSegments =
      [some (segmentOf wpA wpB
        { geometry := ⟨[(wpA.lng, wpA.lat), (wpB.lng, wpB.lat)]⟩, distance := 12000,
          duration := 1800 })] ∧
    (calculateHybridRoute straightEnv manualTwoPoints).routingMode = "manual" := by
  decide

/-- C15, amended: manual mode does not stop `calculateHybridRoute`, which never reads
`routingMode`: called in manual mode it does exactly what it does in hybrid mode, provider
requests and writes to `autoSegments` included. What the mode decides in the planner is the
result of `getFullRoute`, which in manual mode is the waypoints alone whatever
`autoSegments` holds, and the handling of a map click by `handleMapClickEnhanced`, which in
manual mode is that of `handleMapClick` and in hybrid mode appends the point. The
operations `addPoint`, `removePoint`, `drag`, `dragend`, `setRoutingMode`, `handleMapClick`
and `handleMapClickEnhanced` issue no provider request and leave `autoSegments` as it is,
in either mode. -/
theorem routingMode_effects (env : Env) (proj : LatLng → Point) (s : RoutePlanner) :
    (∀ m, calculateHybridRoute env { s with routingMode := m } =
      { calculateHybridRoute env s with routingMode := m }) ∧
    getFullRoute { s with routingMode := "manual" } = s.route.map some ∧
    (∀ latlng, s.isMeasuring = false →
      handleMapClickEnhanced env proj latlng { s with routingMode := "manual" } =
        handleMapClick env proj latlng { s with routingMode := "manual" } ∧
      handleMapClickEnhanced env proj latlng { s with routingMode := "hybrid" } =
        addPoint env latlng (-1) { s with routingMode := "hybrid" }) ∧
    (∀ latlng insertIndex,
      requestsOf (actionsSince s (addPoint env latlng insertIndex s)) = [] ∧
      (addPoint env latlng insertIndex s).autoSegments = s.autoSegments) ∧
    (∀ index,
      requestsOf (actionsSince s (removePoint env index s)) = [] ∧
      (removePoint env index s).autoSegments = s.autoSegments) ∧
    (∀ k newPos,
      requestsOf (actionsSince s (drag k newPos s)) = [] ∧
      (drag k newPos s).autoSegments = s.autoSegments) ∧
    (requestsOf (actionsSince s (dragend env s)) = [] ∧
      (dragend env s).autoSegments = s.autoSegments) ∧
    (∀ mode,
      requestsOf (actionsSince s (setRoutingMode mode s)) = [] ∧
      (setRoutingMode mode s).autoSegments = s.autoSegments) ∧
    (∀ latlng,
      requestsOf (actionsSince s (handleMapClick env proj latlng s)) = [] ∧
      (handleMapClick env proj latlng s).autoSegments = s.autoSegments) ∧
    (∀ latlng,
      requestsOf (actionsSince s (handleMapClickEnhanced env proj latlng s)) = [] ∧
      (handleMapClickEnhanced env proj latlng s).autoSegments = s.autoSegments) := by
  refine ⟨fun m => calculateHybridRoute_routingMode env s m, ?_, ?_, ?_, ?_, ?_, ?_, ?_,
    fun latlng => handleMapClick_frame env proj latlng s,
    fun latlng => handleMapClickEnhanced_frame env proj latlng s⟩
  · simp [getFullRoute]
  · intro latlng hm
    constructor
    · simp [handleMapClickEnhanced, hm]
    · simp [handleMapClickEnhanced, addHybridPoint, hm]
  · intro latlng insertIndex
    exact ⟨by simp [actionsSince, addPoint, updateRouteInfo, updatePolyline, emit], rfl⟩
  · intro index
    exact ⟨by simp [actionsSince, removePoint, updateRouteInfo, updatePolyline, emit], rfl⟩
  · intro k newPos
    refine ⟨?_, drag_autoSegments k newPos s⟩
    unfold drag
    split <;> simp [actionsSince]
  · exact ⟨by simp [actionsSince, dragend, updateRouteInfo, updateMarkerIndices, emit], rfl⟩
  · intro mode
    unfold setRoutingMode
    split
    · exact ⟨by simp [actionsSince, emit], rfl⟩
    · exact ⟨by simp [actionsSince], rfl⟩

/-! ## Geometry of the nearest segment -/

theorem exactLenSq_nonneg (s e : Point) : 0 ≤ exactLenSq s e := by
  unfold exactLenSq
  exact add_nonneg (mul_self_nonneg _) (mul_self_nonneg _)

theorem exactLenSq_eq_zero_iff (s e : Point) : exactLenSq s e = 0 ↔ s = e := by
  unfold exactLenSq
  constructor
  · intro h
    have hx : e.x - s.x = 0 := by nlinarith [mul_self_nonneg (e.x - s.x), mul_self_nonneg (e.y - s.y)]
    have hy : e.y - s.y = 0 := by nlinarith [mul_self_nonneg (e.x - s.x), mul_self_nonneg (e.y - s.y)]
    cases s
    cases e
    simp only [Point.mk.injEq]
    simp only at hx hy
    constructor <;> linarith
  · rintro rfl
    simp

/-- In exact arithmetic no point of a segment that is not a point is nearer to `p` than the
clamped projection. -/
theorem exactDistanceSq_le (p s e : Point) (h : exactLenSq s e ≠ 0) (u : ℚ) (hu0 : 0 ≤ u)
    (hu1 : u ≤ 1) :
    exactDistanceSq p (exactClosestPoint p s e) ≤
      exactDistanceSq p { x := s.x + u * (e.x - s.x), y := s.y + u * (e.y - s.y) } := by
  have hpos : 0 < exactLenSq s e := lt_of_le_of_ne (exactLenSq_nonneg s e) (Ne.symm h)
  have ht : exactParam p s e * exactLenSq s e =
      (p.x - s.x) * (e.x - s.x) + (p.y - s.y) * (e.y - s.y) := by
    unfold exactParam
    field_simp
  unfold exactDistanceSq exactClosestPoint
  simp only
  have hL : exactLenSq s e = (e.x - s.x) * (e.x - s.x) + (e.y - s.y) * (e.y - s.y) := rfl
  set t := exactParam p s e with htdef
  set c := max 0 (min t 1) with hcdef
  have hkey : (p.x - (s.x + u * (e.x - s.x))) ^ 2 + (p.y - (s.y + u * (e.y - s.y))) ^ 2 -
      ((p.x - (s.x + c * (e.x - s.x))) ^ 2 + (p.y - (s.y + c * (e.y - s.y))) ^ 2) =
      exactLenSq s e * ((u - c) * (u + c - 2 * t)) := by
    have : exactLenSq s e * ((u - c) * (u + c - 2 * t)) =
        (u - c) * ((u + c) * exactLenSq s e - 2 * (t * exactLenSq s e)) := by ring
    rw [this, ht, hL]
    ring
  have hprod : 0 ≤ (u - c) * (u + c - 2 * t) := by
    by_cases h0 : t < 0
    · have hc : c = 0 := by
        rw [hcdef, max_eq_left]
        exact le_trans (min_le_left _ _) (le_of_lt h0)
      rw [hc]
      apply mul_nonneg <;> linarith
    · by_cases h1 : t > 1
      · have hc : c = 1 := by
          rw [hcdef, min_eq_right (le_of_lt h1), max_eq_right (by norm_num)]
        rw [hc]
        apply mul_nonneg_of_nonpos_of_nonpos <;> linarith
      · have hc : c = t := by
          rw [hcdef, min_eq_left (not_lt.mp h1), max_eq_right (not_lt.mp h0)]
        rw [hc]
        have : (u - t) * (u + t - 2 * t) = (u - t) ^ 2 := by ring
        rw [this]
        positivity
  have := mul_nonneg (le_of_lt hpos) hprod
  linarith

/-- A pair of equal screen points has the computed squared length zero. -/
theorem lenSq_self (s : Point) : lenSq s s = 0 := by
  simp [lenSq, fadd, fmul, fsub, roundDouble_zero]

theorem pointDistance_nonneg (a b : Point) : 0 ≤ pointDistance a b :=
  fsqrt_nonneg _

theorem segmentDistance_nonneg (p s e : Point) : 0 ≤ segmentDistance p s e := by
  unfold segmentDistance
  split <;> exact pointDistance_nonneg _ _

theorem lenSq_eq_exact (p s e : Point) (h : ExactComputation p s e) :
    lenSq s e = exactLenSq s e := by
  obtain ⟨_, _, h3, h4, _, _, _, h8, h9, h10, _⟩ := h
  unfold Representable at h3 h4 h8 h9 h10
  unfold lenSq fadd fmul fsub
  rw [h3, h4, h8, h9]
  exact h10

theorem segmentParam_eq_exact (p s e : Point) (h : ExactComputation p s e) :
    segmentParam p s e = exactParam p s e := by
  have hlen := lenSq_eq_exact p s e h
  obtain ⟨h1, h2, h3, h4, h5, h6, h7, _, _, _, h11, _⟩ := h
  unfold Representable at h1 h2 h3 h4 h5 h6 h7 h11
  unfold segmentParam
  rw [hlen]
  unfold segmentDot fdiv fadd fmul fsub
  rw [h1, h2, h3, h4, h5, h6, h7]
  exact h11

/-- When no operation rounds, the computed closest point is the clamped projection of
exact arithmetic. -/
theorem closestPoint_eq_exact (p s e : Point) (h : ExactComputation p s e) :
    closestPoint p s e = exactClosestPoint p s e := by
  have hparam := segmentParam_eq_exact p s e h
  obtain ⟨_, _, h3, h4, _, _, _, _, _, _, _, h12, h13, h14, h15⟩ := h
  unfold Representable at h3 h4 h12 h13 h14 h15
  unfold closestPoint exactClosestPoint
  simp only
  rw [hparam]
  by_cases h0 : exactParam p s e < 0
  · have hc : max 0 (min (exactParam p s e) 1) = 0 := by
      rw [max_eq_left]
      exact le_trans (min_le_left _ _) (le_of_lt h0)
    rw [if_pos h0, hc]
    simp
  · by_cases h1 : exactParam p s e > 1
    · have hc : max 0 (min (exactParam p s e) 1) = 1 := by
        rw [min_eq_right (le_of_lt h1), max_eq_right (by norm_num)]
      rw [if_neg h0, if_pos h1, hc]
      cases e
      simp
    · have hc : max 0 (min (exactParam p s e) 1) = exactParam p s e := by
        rw [min_eq_left (not_lt.mp h1), max_eq_right (not_lt.mp h0)]
      rw [if_neg h0, if_neg h1, hc]
      unfold fadd fmul fsub
      rw [h3, h4, h12, h13, h14, h15]

/-! ## The scan over the pairs of waypoints -/

theorem ltInfinity_eq_true_iff (d : ℚ) (m : Option ℚ) :
    ltInfinity d m = true ↔ ∀ v, m = some v → d < v := by
  cases m <;> simp [ltInfinity]

theorem pairAt_cons_succ (a : LatLng) (tl : List LatLng) (k : Nat) :
    pairAt (a :: tl) (k + 1) = pairAt tl k := by
  simp [pairAt]

theorem pairAt_zero (a b : LatLng) (rest : List LatLng) :
    pairAt (a :: b :: rest) 0 = some (a, b) := rfl

/-- A pair that is not nearer than the current minimum changes nothing. -/
theorem closestStep_of_le (p : Point) (st : ClosestState) (i : Nat) (s e : Point) (m : ℚ)
    (hm : st.minDistance = some m) (hle : m ≤ segmentDistance p s e) :
    closestStep p st i s e = st := by
  have hlt : ltInfinity (segmentDistance p s e) st.minDistance = false := by
    rw [hm]
    simp [ltInfinity, hle]
  unfold closestStep
  simp [hlt]

/-- A segment that is not a point and is not below the threshold changes nothing. -/
theorem closestStep_no_match (p : Point) (st : ClosestState) (i : Nat) (s e : Point)
    (hlen : lenSq s e ≠ 0) (hfar : 30 ≤ segmentDistance p s e) :
    closestStep p st i s e = st := by
  unfold closestStep
  simp [hlen, not_lt.mpr hfar]

/-- A pair nearer than the current minimum and below the threshold becomes the match. -/
theorem closestStep_accept (p : Point) (st : ClosestState) (i : Nat) (s e : Point)
    (hmin : ∀ v, st.minDistance = some v → segmentDistance p s e < v)
    (hsame : st.closestDistance = st.minDistance) (hnear : segmentDistance p s e < 30) :
    closestStep p st i s e =
      { minDistance := some (segmentDistance p s e),
        closestSegment := if lenSq s e = 0 then (i : Int) else (i : Int) + 1,
        closestDistance := some (segmentDistance p s e) } := by
  have hlt : ltInfinity (segmentDistance p s e) st.minDistance = true :=
    (ltInfinity_eq_true_iff _ _).mpr hmin
  unfold closestStep
  by_cases hlen : lenSq s e = 0
  · simp [hlen, hlt]
  · simp [hlen, hlt, hsame, hnear]

/-- The two distances of the loop state stay equal, and the minimum is the old one or the
distance of the pair just seen. -/
theorem closestStep_inv (p : Point) (st : ClosestState) (i : Nat) (s e : Point)
    (hsame : st.closestDistance = st.minDistance) :
    (closestStep p st i s e).closestDistance = (closestStep p st i s e).minDistance ∧
    ((closestStep p st i s e).minDistance = st.minDistance ∨
      (closestStep p st i s e).minDistance = some (segmentDistance p s e)) := by
  unfold closestStep
  simp only
  split
  · split
    · exact ⟨rfl, Or.inr rfl⟩
    · exact ⟨hsame, Or.inl rfl⟩
  · split
    · exact ⟨rfl, Or.inr rfl⟩
    · exact ⟨hsame, Or.inl rfl⟩

/-- Once the minimum is not above any remaining distance the loop changes nothing. -/
theorem closestLoop_fixed (proj : LatLng → Point) (click : LatLng) (rt : List LatLng) :
    ∀ (i : Nat) (st : ClosestState) (m : ℚ), st.minDistance = some m →
      (∀ k a b, pairAt rt k = some (a, b) → m ≤ pairDistance proj click a b) →
      closestLoop proj click i rt st = st := by
  induction rt with
  | nil => intro i st m _ _; rfl
  | cons a tl ih =>
    intro i st m hm hall
    cases tl with
    | nil => rfl
    | cons b rest =>
      rw [closestLoop]
      have hstep : closestStep (proj click) st i (proj a) (proj b) = st :=
        closestStep_of_le _ st i _ _ m hm (hall 0 a b (pairAt_zero a b rest))
      rw [hstep]
      exact ih (i + 1) st m hm
        (fun k a' b' hk => hall (k + 1) a' b' (by rw [pairAt_cons_succ]; exact hk))

/-- The loop returns the first pair at the minimal distance, when that distance is below
the threshold. -/
theorem closestLoop_first_min (proj : LatLng → Point) (click : LatLng) (rt : List LatLng) :
    ∀ (i : Nat) (st : ClosestState) (j : Nat) (a b : LatLng),
      pairAt rt j = some (a, b) →
      pairDistance proj click a b < 30 →
      (∀ k a' b', pairAt rt k = some (a', b') →
        pairDistance proj click a b ≤ pairDistance proj click a' b') →
      (∀ k a' b', k < j → pairAt rt k = some (a', b') →
        pairDistance proj click a b ≠ pairDistance proj click a' b') →
      st.closestDistance = st.minDistance →
      (∀ v, st.minDistance = some v → pairDistance proj click a b < v) →
      (closestLoop proj click i rt st).closestSegment =
        if lenSq (proj a) (proj b) = 0 then ((i + j : Nat) : Int) else ((i + j : Nat) : Int) + 1 := by
  induction rt with
  | nil =>
    intro i st j a b hpair
    simp [pairAt] at hpair
  | cons x tl ih =>
    intro i st j a b hpair hnear hmin hfirst hsame hst
    cases tl with
    | nil => simp [pairAt] at hpair
    | cons y rest =>
      rw [closestLoop]
      cases j with
      | zero =>
        rw [pairAt_zero] at hpair
        simp only [Option.some.injEq, Prod.mk.injEq] at hpair
        obtain ⟨rfl, rfl⟩ := hpair
        have hstep := closestStep_accept (proj click) st i (proj x) (proj y) hst hsame hnear
        rw [hstep]
        rw [closestLoop_fixed proj click (y :: rest) (i + 1) _
          (pairDistance proj click x y) rfl
          (fun k a' b' hk => hmin (k + 1) a' b' (by rw [pairAt_cons_succ]; exact hk))]
        simp
      | succ j' =>
        rw [pairAt_cons_succ] at hpair
        have hhead : pairDistance proj click a b < pairDistance proj click x y :=
          lt_of_le_of_ne (hmin 0 x y (pairAt_zero x y rest))
            (hfirst 0 x y (Nat.succ_pos _) (pairAt_zero x y rest))
        obtain ⟨hsame', hmin'⟩ := closestStep_inv (proj click) st i (proj x) (proj y) hsame
        have hres := ih (i + 1) (closestStep (proj click) st i (proj x) (proj y)) j' a b hpair
          hnear
          (fun k a' b' hk => hmin (k + 1) a' b' (by rw [pairAt_cons_succ]; exact hk))
          (fun k a' b' hlt hk =>
            hfirst (k + 1) a' b' (by omega) (by rw [pairAt_cons_succ]; exact hk))
          hsame'
          (by
            intro v hv
            rcases hmin' with h | h
            · exact hst v (h ▸ hv)
            · rw [h] at hv
              simp only [Option.some.injEq] at hv
              rw [← hv]
              exact hhead)
        rw [hres]
        have hidx : i + 1 + j' = i + (j' + 1) := by omega
        rw [hidx]

theorem addPoint_route_insert (env : Env) (p : LatLng) (s : RoutePlanner) (k : Nat) :
    (addPoint env p (k + 1 : Nat) s).route =
      s.route.take (min (k + 1) s.route.length) ++ [p] ++
        s.route.drop (min (k + 1) s.route.length) := by
  have hne : ((k + 1 : Nat) : Int) ≠ -1 := by omega
  have hnn : ¬ ((k + 1 : Nat) : Int) < 0 := by omega
  simp only [addPoint, updateRouteInfo, updatePolyline, emit, spliceStart, hne, hnn, if_false,
    Int.toNat_ofNat]

/-! ## The claims on the nearest segment -/

/-- C16, evaluated where the code departs from it: the route is the waypoint (0, 0) twice,
so its only pair is a point on the screen, and the click is one hundred pixels away, not
below the threshold of thirty. `findClosestSegment` returns 0 instead of -1, and
`handleMapClick` inserts the click in front of the route instead of appending it. -/
theorem findClosestSegment_matches_distant_point :
    coincidentPair.route = [wpOrigin, wpOrigin] ∧
    coincidentPair.isMeasuring = false ∧
    pairDistance flatProjection clickEast wpOrigin wpOrigin = 100 ∧
    ¬ pairDistance flatProjection clickEast wpOrigin wpOrigin < 30 ∧
    findClosestSegment flatProjection coincidentPair.route clickEast = 0 ∧
    (handleMapClick straightEnv flatProjection clickEast coincidentPair).route =
      [clickEast, wpOrigin, wpOrigin] := by
  refine ⟨by decide, by decide, by decide!, by decide!, by decide!, by decide!⟩

/-- The result of `findClosestSegment` when the first pair at the minimal computed distance
is the pair `i` and that distance is below the threshold. -/
theorem findClosestSegment_of_first_min (proj : LatLng → Point) (route : List LatLng)
    (click : LatLng) (i : Nat) (a b : LatLng)
    (hpair : pairAt route i = some (a, b))
    (hnear : pairDistance proj click a b < 30)
    (hmin : ∀ k a' b', pairAt route k = some (a', b') →
      pairDistance proj click a b ≤ pairDistance proj click a' b')
    (hfirst : ∀ k a' b', k < i → pairAt route k = some (a', b') →
      pairDistance proj click a b ≠ pairDistance proj click a' b') :
    findClosestSegment proj route click =
      if lenSq (proj a) (proj b) = 0 then (i : Int) else (i : Int) + 1 := by
  have hlen : ¬ route.length < 2 := by
    intro hlt
    match route, hlt with
    | [], _ => simp [pairAt] at hpair
    | [_], _ => simp [pairAt] at hpair
  unfold findClosestSegment
  rw [if_neg hlen]
  have h := closestLoop_first_min proj click route 0
    { minDistance := none, closestSegment := -1, closestDistance := none } i a b hpair
    hnear hmin hfirst rfl (by simp)
  rw [h]
  simp

/-- C17 as stated fails by rounding: on `doubledBackRoute` the click at (0, 1) lies on both
segments, so in exact arithmetic both are at the distance zero from it. The computation for
the first segment rounds (`param` is the double nearest to 1/49, and `param * C` falls
short of the 100 pixels of the click) and gives a distance above zero; the one for the
second segment is exact and gives zero. The second segment is selected: the result is 2,
not 1. -/
theorem findClosestSegment_rounding_breaks_tie :
    pairAt doubledBackRoute 0 = some (wpOrigin, ⟨0, 49⟩) ∧
    pairAt doubledBackRoute 1 = some (⟨0, 49⟩, ⟨0, -47⟩) ∧
    exactDistanceSq (flatProjection clickEast)
      (exactClosestPoint (flatProjection clickEast) (flatProjection wpOrigin)
        (flatProjection ⟨0, 49⟩)) = 0 ∧
    exactDistanceSq (flatProjection clickEast)
      (exactClosestPoint (flatProjection clickEast) (flatProjection ⟨0, 49⟩)
        (flatProjection ⟨0, -47⟩)) = 0 ∧
    pairDistance flatProjection clickEast wpOrigin ⟨0, 49⟩ = 1 / 2 ^ 46 ∧
    pairDistance flatProjection clickEast ⟨0, 49⟩ ⟨0, -47⟩ = 0 ∧
    findClosestSegment flatProjection doubledBackRoute clickEast = 2 := by
  refine ⟨by decide, by decide, by decide!, by decide!, by decide!, by decide!, by decide!⟩

/-- C17, amended: the distances compared by `findClosestSegment` are the computed ones.
When the pair `i` is a segment on the screen and is the first pair of the route whose
computed distance from the click is minimal among all pairs, and that distance is below
the threshold of thirty pixels, the result is `i + 1`, the index at which `handleMapClick`
inserts, however many later pairs have the same computed distance. -/
theorem findClosestSegment_first_minimum_wins (proj : LatLng → Point) (route : List LatLng)
    (click : LatLng) (i : Nat) (a b : LatLng)
    (hpair : pairAt route i = some (a, b))
    (hseg : lenSq (proj a) (proj b) ≠ 0)
    (hnear : pairDistance proj click a b < 30)
    (hmin : ∀ k a' b', pairAt route k = some (a', b') →
      pairDistance proj click a b ≤ pairDistance proj click a' b')
    (hfirst : ∀ k a' b', k < i → pairAt route k = some (a', b') →
      pairDistance proj click a b ≠ pairDistance proj click a' b') :
    findClosestSegment proj route click = (i : Int) + 1 := by
  rw [findClosestSegment_of_first_min proj route click i a b hpair hnear hmin hfirst,
    if_neg hseg]

/-- On `equatorRoute` the click ten pixels below the middle waypoint has the computed
distance 10 from both segments; the first one wins and the result is 1. -/
theorem findClosestSegment_first_minimum_wins_witness :
    pairAt equatorRoute.route 0 = some (wpOrigin, ⟨0, 1⟩) ∧
    pairAt equatorRoute.route 1 = some (⟨0, 1⟩, ⟨0, 2⟩) ∧
    lenSq (flatProjection wpOrigin) (flatProjection ⟨0, 1⟩) ≠ 0 ∧
    pairDistance flatProjection clickBelowMiddle wpOrigin ⟨0, 1⟩ = 10 ∧
    pairDistance flatProjection clickBelowMiddle ⟨0, 1⟩ ⟨0, 2⟩ = 10 ∧
    findClosestSegment flatProjection equatorRoute.route clickBelowMiddle =
      ((0 : Nat) : Int) + 1 := by
  have hroute : equatorRoute.route = [wpOrigin, ⟨0, 1⟩, ⟨0, 2⟩] := by decide
  have hd0 : pairDistance flatProjection clickBelowMiddle wpOrigin ⟨0, 1⟩ = 10 := by decide!
  have hd1 : pairDistance flatProjection clickBelowMiddle ⟨0, 1⟩ ⟨0, 2⟩ = 10 := by decide!
  refine ⟨by decide, by decide, by decide!, hd0, hd1,
    findClosestSegment_first_minimum_wins flatProjection equatorRoute.route clickBelowMiddle 0
      wpOrigin ⟨0, 1⟩ (by decide) (by decide!) (by rw [hd0]; norm_num) ?_
      (by intro k _ _ hk; omega)⟩
  intro k a' b' hk
  rw [hroute] at hk
  match k, hk with
  | 0, hk =>
    rw [pairAt_zero] at hk
    simp only [Option.some.injEq, Prod.mk.injEq] at hk
    obtain ⟨rfl, rfl⟩ := hk
    exact le_refl _
  | 1, hk =>
    rw [pairAt_cons_succ, pairAt_zero] at hk
    simp only [Option.some.injEq, Prod.mk.injEq] at hk
    obtain ⟨rfl, rfl⟩ := hk
    rw [hd0, hd1]
  | k + 2, hk =>
    rw [pairAt_cons_succ, pairAt_cons_succ] at hk
    simp [pairAt] at hk

/-- A click that is not below the threshold for either segment of a route of three
waypoints, both pairs being segments on the screen, is appended. -/
theorem handleMapClick_far_click_appends (env : Env) (proj : LatLng → Point)
    (s : RoutePlanner) (w0 w1 w2 p : LatLng) (hroute : s.route = [w0, w1, w2])
    (hm : s.isMeasuring = false)
    (h01 : lenSq (proj w0) (proj w1) ≠ 0) (h12 : lenSq (proj w1) (proj w2) ≠ 0)
    (hf0 : 30 ≤ pairDistance proj p w0 w1) (hf1 : 30 ≤ pairDistance proj p w1 w2) :
    findClosestSegment proj s.route p = -1 ∧
    (handleMapClick env proj p s).route = [w0, w1, w2, p] := by
  have hfind : findClosestSegment proj s.route p = -1 := by
    rw [hroute]
    simp only [findClosestSegment, closestLoop]
    rw [closestStep_no_match _ _ _ _ _ h01 hf0, closestStep_no_match _ _ _ _ _ h12 hf1]
    simp
  refine ⟨hfind, ?_⟩
  simp only [handleMapClick, hm, hfind]
  simp [addPoint, updateRouteInfo, updatePolyline, emit, hroute]

/-- Where consecutive waypoints have different pixels the handler does what is expected:
on `equatorRoute` a click on the midpoint of the first segment is inserted after the first
waypoint, and a click five hundred pixels north of the route is appended. -/
theorem handleMapClick_distinct_pixels :
    equatorRoute.route = [wpOrigin, ⟨0, 1⟩, ⟨0, 2⟩] ∧
    findClosestSegment flatProjection equatorRoute.route clickMidFirst = 1 ∧
    (handleMapClick straightEnv flatProjection clickMidFirst equatorRoute).route =
      [wpOrigin, clickMidFirst, ⟨0, 1⟩, ⟨0, 2⟩] ∧
    findClosestSegment flatProjection equatorRoute.route clickFarNorth = -1 ∧
    (handleMapClick straightEnv flatProjection clickFarNorth equatorRoute).route =
      [wpOrigin, ⟨0, 1⟩, ⟨0, 2⟩, clickFarNorth] := by
  refine ⟨by decide, by decide!, by decide!, by decide!, by decide!⟩

/-- C18 (code bug): `closePairRoute` has three distinct waypoints of which the first two
share a pixel, so its first pair is a point on the screen and takes the branch of lines
1640-1649. A click on the midpoint of segment 0 gets the result 0, not 1, and is inserted
in front of the first waypoint instead of after it. A click five hundred pixels from the
first pair and four hundred from the second segment, beyond the threshold of thirty for
both, gets the result 0 as well and is inserted in front instead of appended. -/
theorem handleMapClick_shared_pixel :
    closePairRoute.route = [wpOrigin, wpNearOrigin, ⟨0, 6⟩] ∧
    wpOrigin ≠ wpNearOrigin ∧ wpNearOrigin ≠ ⟨0, 6⟩ ∧ wpOrigin ≠ ⟨0, 6⟩ ∧
    closePairRoute.isMeasuring = false ∧
    pixelProjection wpOrigin = pixelProjection wpNearOrigin ∧
    clickMidClose.lat = (wpOrigin.lat + wpNearOrigin.lat) / 2 ∧
    clickMidClose.lng = (wpOrigin.lng + wpNearOrigin.lng) / 2 ∧
    findClosestSegment pixelProjection closePairRoute.route clickMidClose = 0 ∧
    (handleMapClick straightEnv pixelProjection clickMidClose closePairRoute).route =
      [clickMidClose, wpOrigin, wpNearOrigin, ⟨0, 6⟩] ∧
    pairDistance pixelProjection clickFarSouth wpOrigin wpNearOrigin = 500 ∧
    pairDistance pixelProjection clickFarSouth wpNearOrigin ⟨0, 6⟩ = 400 ∧
    findClosestSegment pixelProjection closePairRoute.route clickFarSouth = 0 ∧
    (handleMapClick straightEnv pixelProjection clickFarSouth closePairRoute).route =
      [clickFarSouth, wpOrigin, wpNearOrigin, ⟨0, 6⟩] := by
  refine ⟨by decide, by decide!, by decide!, by decide!, by decide, by decide!, by decide!,
    by decide!, by decide!, by decide!, by decide!, by decide!, by decide!, by decide!⟩

/-- C19 as stated fails by rounding: for the click (1, 0) and the segment from (0, 0) to
(49, 0), `param` is the double nearest to 1/49 and the closest point computed is
(1 - 2^-53, 0), not the projection (1, 0). The click lies on the segment, at the parameter
1/49, so a point of the segment is nearer to the click than the closest point computed,
and the distance used is 2^-53 where the distance to the segment is 0. -/
theorem closestPoint_rounds_off_projection :
    closestPoint ⟨1, 0⟩ ⟨0, 0⟩ ⟨49, 0⟩ = ⟨1 - 1 / 2 ^ 53, 0⟩ ∧
    exactClosestPoint ⟨1, 0⟩ ⟨0, 0⟩ ⟨49, 0⟩ = ⟨1, 0⟩ ∧
    (⟨1, 0⟩ : Point) = ⟨0 + 1 / 49 * (49 - 0), 0 + 1 / 49 * (0 - 0)⟩ ∧
    exactDistanceSq ⟨1, 0⟩ ⟨0 + 1 / 49 * (49 - 0), 0 + 1 / 49 * (0 - 0)⟩ <
      exactDistanceSq ⟨1, 0⟩ (closestPoint ⟨1, 0⟩ ⟨0, 0⟩ ⟨49, 0⟩) ∧
    segmentDistance ⟨1, 0⟩ ⟨0, 0⟩ ⟨49, 0⟩ = 1 / 2 ^ 53 := by
  refine ⟨by decide!, by decide!, by decide!, by decide!, by decide!⟩

/-- C19, amended: the point-to-segment computation of `findClosestSegment` is the standard
projection clamped to the segment, carried out in double arithmetic. `param` is the rounded
quotient of the rounded dot product by the rounded squared length; the closest point is
`start` for `param < 0`, `end` for `param > 1` and otherwise `start + param·(end - start)`
with every operation rounded; the distance used is the computed distance from `p` to that
point, and for a segment whose computed squared length is zero, as it is for
`start = end`, the computed distance from `p` to `start`. When no operation rounds, the
segment is a point exactly when its squared length is zero, `param` is
`t = ((p - start)·(end - start)) / |end - start|²`, the closest point is
`start + clamp(t, 0, 1)·(end - start)`, which lies on the segment, and no point of the
segment is nearer to `p`. -/
theorem closestPoint_is_clamped_projection (p s e : Point) :
    (segmentParam p s e < 0 → closestPoint p s e = s) ∧
    (1 < segmentParam p s e → closestPoint p s e = e) ∧
    (0 ≤ segmentParam p s e → segmentParam p s e ≤ 1 →
      closestPoint p s e =
        { x := fadd s.x (fmul (segmentParam p s e) (fsub e.x s.x)),
          y := fadd s.y (fmul (segmentParam p s e) (fsub e.y s.y)) }) ∧
    (lenSq s e ≠ 0 → segmentDistance p s e = pointDistance p (closestPoint p s e)) ∧
    (lenSq s e = 0 → segmentDistance p s e = pointDistance p s) ∧
    (s = e → lenSq s e = 0) ∧
    (ExactComputation p s e →
      (lenSq s e = 0 ↔ s = e) ∧
      segmentParam p s e = exactParam p s e ∧
      closestPoint p s e = exactClosestPoint p s e ∧
      0 ≤ max 0 (min (exactParam p s e) 1) ∧
      max 0 (min (exactParam p s e) 1) ≤ 1 ∧
      (s ≠ e → ∀ u : ℚ, 0 ≤ u → u ≤ 1 →
        exactDistanceSq p (closestPoint p s e) ≤
          exactDistanceSq p { x := s.x + u * (e.x - s.x), y := s.y + u * (e.y - s.y) })) := by
  refine ⟨?_, ?_, ?_, ?_, ?_, ?_, ?_⟩
  · intro h
    unfold closestPoint
    simp only [h, if_true]
  · intro h
    have h0 : ¬ segmentParam p s e < 0 := by linarith
    unfold closestPoint
    simp only [h0, if_false, gt_iff_lt, h, if_true]
  · intro h0 h1
    unfold closestPoint
    simp only [not_lt.mpr h0, if_false, gt_iff_lt, not_lt.mpr h1]
  · intro h
    unfold segmentDistance
    rw [if_neg h]
  · intro h
    unfold segmentDistance
    rw [if_pos h]
  · rintro rfl
    exact lenSq_self s
  · intro hexact
    refine ⟨?_, segmentParam_eq_exact p s e hexact, closestPoint_eq_exact p s e hexact,
      le_max_left _ _, max_le (by norm_num) (min_le_right _ _), ?_⟩
    · rw [lenSq_eq_exact p s e hexact]
      exact exactLenSq_eq_zero_iff s e
    · intro hne u hu0 hu1
      rw [closestPoint_eq_exact p s e hexact]
      exact exactDistanceSq_le p s e
        (fun h => hne ((exactLenSq_eq_zero_iff s e).mp h)) u hu0 hu1

/-- The click (1, 3) and the segment from (0, 0) to (4, 0): nothing rounds, `param` is
1/4, the closest point is (1, 0), and the midpoint (2, 0) of the segment is not nearer. -/
theorem closestPoint_is_clamped_projection_witness :
    ExactComputation ⟨1, 3⟩ ⟨0, 0⟩ ⟨4, 0⟩ ∧
    (⟨0, 0⟩ : Point) ≠ ⟨4, 0⟩ ∧
    segmentParam ⟨1, 3⟩ ⟨0, 0⟩ ⟨4, 0⟩ = 1 / 4 ∧
    closestPoint ⟨1, 3⟩ ⟨0, 0⟩ ⟨4, 0⟩ = ⟨1, 0⟩ ∧
    segmentDistance ⟨1, 3⟩ ⟨0, 0⟩ ⟨4, 0⟩ = 3 ∧
    exactDistanceSq ⟨1, 3⟩ (closestPoint ⟨1, 3⟩ ⟨0, 0⟩ ⟨4, 0⟩) ≤
      exactDistanceSq ⟨1, 3⟩
        { x := 0 + 1 / 2 * (4 - 0), y := 0 + 1 / 2 * (0 - 0) } :=
  have hexact : ExactComputation ⟨1, 3⟩ ⟨0, 0⟩ ⟨4, 0⟩ := by decide!
  have hne : (⟨0, 0⟩ : Point) ≠ ⟨4, 0⟩ := by decide!
  ⟨hexact, hne, by decide!, by decide!, by decide!,
    ((closestPoint_is_clamped_projection ⟨1, 3⟩ ⟨0, 0⟩ ⟨4, 0⟩).2.2.2.2.2.2 hexact).2.2.2.2.2
      hne (1 / 2) (by norm_num) (by norm_num)⟩

/-! ## Total distance and markers -/

theorem sumDistances_of_length_lt_two (env : Env) (route : List LatLng)
    (h : route.length < 2) : sumDistances env route = 0 := by
  match route, h with
  | [], _ => rfl
  | [_], _ => rfl

theorem updatePolyline_markers (s : RoutePlanner) :
    (updatePolyline s).markers.map Marker.routeIndex = List.range s.route.length ∧
    (updatePolyline s).markers.map Marker.latlng = s.route := by
  unfold updatePolyline
  simp only [List.map_map]
  constructor
  · have : (Marker.routeIndex ∘ fun p : Nat × LatLng => { latlng := p.2, routeIndex := p.1 }) =
        Prod.fst := rfl
    rw [this, List.enum_map_fst]
  · have : (Marker.latlng ∘ fun p : Nat × LatLng => { latlng := p.2, routeIndex := p.1 }) =
        Prod.snd := rfl
    rw [this, List.enum_map_snd]

theorem addPoint_markers (env : Env) (latlng : LatLng) (insertIndex : Int) (s : RoutePlanner) :
    (addPoint env latlng insertIndex s).markers.map Marker.routeIndex =
      List.range (addPoint env latlng insertIndex s).route.length ∧
    (addPoint env latlng insertIndex s).markers.map Marker.latlng =
      (addPoint env latlng insertIndex s).route :=
  updatePolyline_markers _

theorem removePoint_markers (env : Env) (index : Int) (s : RoutePlanner) :
    (removePoint env index s).markers.map Marker.routeIndex =
      List.range (removePoint env index s).route.length ∧
    (removePoint env index s).markers.map Marker.latlng = (removePoint env index s).route :=
  updatePolyline_markers _

theorem applyOp_markers (env : Env) (op : RouteOp) (s : RoutePlanner) :
    (applyOp env op s).markers.map Marker.routeIndex =
      List.range (applyOp env op s).route.length ∧
    (applyOp env op s).markers.map Marker.latlng = (applyOp env op s).route := by
  cases op with
  | append latlng => exact addPoint_markers env latlng (-1) s
  | insert latlng index => exact addPoint_markers env latlng index s
  | remove index => exact removePoint_markers env index s

theorem addPoint_route_length (env : Env) (latlng : LatLng) (insertIndex : Int)
    (s : RoutePlanner) : (addPoint env latlng insertIndex s).route.length = s.route.length + 1 := by
  simp only [addPoint, updateRouteInfo, updatePolyline, emit]
  split
  · simp
  · simp only [List.length_append, List.length_take, List.length_drop, List.length_singleton]
    have : spliceStart s.route.length insertIndex ≤ s.route.length := by
      unfold spliceStart
      simp only [Int.ofNat_eq_coe]
      split <;> omega
    omega

theorem removePoint_route_length (env : Env) (index : Nat) (s : RoutePlanner)
    (h : index < s.route.length) :
    (removePoint env index s).route.length + 1 = s.route.length := by
  have hstart : spliceStart s.route.length (index : Int) = index := by
    unfold spliceStart
    have : ¬ ((index : Int) < 0) := by omega
    rw [if_neg this]
    simp only [Int.toNat_ofNat]
    omega
  simp only [removePoint, updateRouteInfo, updatePolyline, emit, hstart, List.length_append,
    List.length_take, List.length_drop]
  omega

/-- The length of the route after a sequence of operations in range, and its markers. -/
theorem applyOps_spec (env : Env) (ops : List RouteOp) :
    ∀ s : RoutePlanner, OpsInRange env s ops →
      (applyOps env ops s).route.length + countRemoves ops = s.route.length + countAdds ops := by
  induction ops with
  | nil => intro s _; rfl
  | cons op rest ih =>
    intro s h
    obtain ⟨hop, hrest⟩ := h
    have hih := ih (applyOp env op s) hrest
    have hfold : applyOps env (op :: rest) s = applyOps env rest (applyOp env op s) := rfl
    rw [hfold]
    cases op with
    | append latlng =>
      have hlen : (applyOp env (RouteOp.append latlng) s).route.length = s.route.length + 1 :=
        addPoint_route_length env latlng (-1) s
      simp only [countAdds, countRemoves, List.countP_cons] at hih ⊢
      simp only [if_true, Bool.false_eq_true, if_false]
      omega
    | insert latlng index =>
      have hlen : (applyOp env (RouteOp.insert latlng index) s).route.length =
          s.route.length + 1 := addPoint_route_length env latlng index s
      simp only [countAdds, countRemoves, List.countP_cons] at hih ⊢
      simp only [if_true, Bool.false_eq_true, if_false]
      omega
    | remove index =>
      have hlen : (applyOp env (RouteOp.remove index) s).route.length + 1 = s.route.length :=
        removePoint_route_length env index s hop
      simp only [countAdds, countRemoves, List.countP_cons] at hih ⊢
      simp only [if_true, Bool.false_eq_true, if_false]
      omega

theorem applyOps_markers (env : Env) (ops : List RouteOp) (s : RoutePlanner)
    (hs : s.markers.map Marker.routeIndex = List.range s.route.length ∧
      s.markers.map Marker.latlng = s.route) :
    (applyOps env ops s).markers.map Marker.routeIndex =
      List.range (applyOps env ops s).route.length ∧
    (applyOps env ops s).markers.map Marker.latlng = (applyOps env ops s).route := by
  induction ops generalizing s with
  | nil => exact hs
  | cons op rest ih => exact ih (applyOp env op s) (applyOp_markers env op s)

theorem OpsInRange_take (env : Env) (ops : List RouteOp) :
    ∀ (s : RoutePlanner) (k : Nat), OpsInRange env s ops → OpsInRange env s (ops.take k) := by
  induction ops with
  | nil => intro s k h; simpa using h
  | cons op rest ih =>
    intro s k h
    cases k with
    | zero => trivial
    | succ k => exact ⟨h.1, ih (applyOp env op s) k h.2⟩

/-- C21 as stated fails for a drag move: with a distance of 1 km between different
latitudes, the route (0, 0), (1, 0) has `totalDistance` 1; dragging the marker of the second
waypoint onto the first overwrites `route[1]`, the distances of the route now sum to 0, and
`totalDistance` is still 1. -/
theorem drag_leaves_totalDistance_stale :
    northLeg.route = [wpOrigin, wpNorthOne] ∧
    northLeg.totalDistance = 1 ∧
    (drag 1 wpOrigin northLeg).route = [wpOrigin, wpOrigin] ∧
    sumDistances latStepEnv (drag 1 wpOrigin northLeg).route = 0 ∧
    (drag 1 wpOrigin northLeg).totalDistance = 1 ∧
    (drag 1 wpOrigin northLeg).totalDistance ≠
      sumDistances latStepEnv (drag 1 wpOrigin northLeg).route := by
  have hroute : northLeg.route = [wpOrigin, wpNorthOne] := by decide
  have htotal : northLeg.totalDistance = 1 := by
    have h : northLeg.totalDistance = sumDistances latStepEnv northLeg.route := rfl
    rw [h, hroute]
    decide!
  have hdrag : (drag 1 wpOrigin northLeg).route = [wpOrigin, wpOrigin] := by decide
  have hsum : sumDistances latStepEnv (drag 1 wpOrigin northLeg).route = 0 := by
    rw [hdrag]
    decide!
  have hstale : (drag 1 wpOrigin northLeg).totalDistance = 1 := by
    have h : (drag 1 wpOrigin northLeg).totalDistance = northLeg.totalDistance := by
      unfold drag
      split <;> rfl
    rw [h, htotal]
  refine ⟨hroute, htotal, hdrag, hsum, hstale, ?_⟩
  rw [hstale, hsum]
  norm_num

/-- C21, amended: after `addPoint`, `removePoint`, `clearRoute`, `loadRoute` and the
`dragend` handler, `totalDistance` is the sum of `calculateDistance` over the consecutive
waypoints of the current route, which is 0 for fewer than two waypoints; a `drag` move
overwrites `route[i]` and leaves `totalDistance` as it was, until `dragend`. -/
theorem totalDistance_after_operation (env : Env) (s : RoutePlanner) :
    (∀ latlng insertIndex,
      (addPoint env latlng insertIndex s).totalDistance =
        sumDistances env (addPoint env latlng insertIndex s).route) ∧
    (∀ index,
      (removePoint env index s).totalDistance =
        sumDistances env (removePoint env index s).route) ∧
    (clearRoute env s).totalDistance = sumDistances env (clearRoute env s).route ∧
    (∀ coordinates,
      (loadRoute env coordinates s).totalDistance =
        sumDistances env (loadRoute env coordinates s).route) ∧
    (dragend env s).totalDistance = sumDistances env (dragend env s).route ∧
    (∀ k newPos, (drag k newPos s).totalDistance = s.totalDistance) ∧
    (∀ route : List LatLng, route.length < 2 → sumDistances env route = 0) := by
  refine ⟨fun _ _ => rfl, fun _ => rfl, rfl, fun _ => rfl, rfl, ?_,
    fun route h => sumDistances_of_length_lt_two env route h⟩
  intro k newPos
  unfold drag
  split <;> rfl

/-- A route of one waypoint has total distance 0. -/
theorem totalDistance_after_operation_witness :
    [wpA].length < 2 ∧ sumDistances straightEnv [wpA] = 0 :=
  ⟨by decide, (totalDistance_after_operation straightEnv twoPoints).2.2.2.2.2.2 [wpA] (by decide)⟩

/-- C22: after every sequence of `addPoint` (append, or insert at an index in `0..n`) and
`removePoint` (index in `0..n-1`) calls on the initial planner, and so after each of its
operations, the length of the route is the number of adds minus the number of removes, and
there is one marker per waypoint, the marker `i` having `routeIndex` `i` and the position of
waypoint `i`. -/
theorem route_ops_length_and_markers (env : Env) (ops : List RouteOp)
    (h : OpsInRange env (init env) ops) (k : Nat) :
    ((applyOps env (ops.take k) (init env)).route.length : Int) =
      (countAdds (ops.take k) : Int) - (countRemoves (ops.take k) : Int) ∧
    (applyOps env (ops.take k) (init env)).markers.length =
      (applyOps env (ops.take k) (init env)).route.length ∧
    (applyOps env (ops.take k) (init env)).markers.map Marker.routeIndex =
      List.range (applyOps env (ops.take k) (init env)).route.length ∧
    (applyOps env (ops.take k) (init env)).markers.map Marker.latlng =
      (applyOps env (ops.take k) (init env)).route := by
  have hlen := applyOps_spec env (ops.take k) (init env) (OpsInRange_take env ops _ k h)
  have hmarkers := applyOps_markers env (ops.take k) (init env) ⟨rfl, rfl⟩
  have hinit : (init env).route.length = 0 := rfl
  refine ⟨by omega, ?_, hmarkers.1, hmarkers.2⟩
  have := congrArg List.length hmarkers.2
  simpa using this

/-- Two appends, an insertion at index 1 and the removal of the first waypoint. -/
theorem route_ops_length_and_markers_witness :
    OpsInRange straightEnv (init straightEnv)
      [RouteOp.append wpA, RouteOp.append wpB, RouteOp.insert wpC 1, RouteOp.remove 0] ∧
    (applyOps straightEnv
      [RouteOp.append wpA, RouteOp.append wpB, RouteOp.insert wpC 1, RouteOp.remove 0]
      (init straightEnv)).route = [wpC, wpB] ∧
    (applyOps straightEnv
      ([RouteOp.append wpA, RouteOp.append wpB, RouteOp.insert wpC 1, RouteOp.remove 0].take 4)
      (init straightEnv)).markers.map Marker.routeIndex =
      List.range (applyOps straightEnv
        ([RouteOp.append wpA, RouteOp.append wpB, RouteOp.insert wpC 1, RouteOp.remove 0].take 4)
        (init straightEnv)).route.length :=
  ⟨by decide, by decide,
    (route_ops_length_and_markers straightEnv
      [RouteOp.append wpA, RouteOp.append wpB, RouteOp.insert wpC 1, RouteOp.remove 0]
      (by decide) 4).2.2.1⟩

/-! ## The event registry -/

theorem JSMap.get_set_of_ne {β : Type} (m : JSMap β) (key other : String) (value : β)
    (h : other ≠ key) : (m.set key value).get other = m.get other := by
  cases m with
  | mk entries =>
    unfold JSMap.set
    split
    · rename_i hhas
      clear hhas
      simp only [JSMap.get]
      congr 1
      induction entries with
      | nil => rfl
      | cons p rest ih =>
        simp only [List.map_cons, List.find?_cons]
        by_cases hp : (p.1 == key) = true
        · have hpk : p.1 = key := by simpa using hp
          have hko : (key == other) = false := by
            simp only [beq_eq_false_iff_ne, ne_eq]
            exact fun hk => h hk.symm
          have hpo : (p.1 == other) = false := by rw [hpk]; exact hko
          simp only [hp, if_true, hko, hpo]
          exact ih
        · simp only [hp, Bool.false_eq_true, if_false]
          cases hpo : (p.1 == other) with
          | true => rfl
          | false => simpa using ih
    · simp only [JSMap.get]
      rw [List.find?_append]
      have hko : (key == other) = false := by
        simp only [beq_eq_false_iff_ne, ne_eq]
        exact fun hk => h hk.symm
      cases hfind : List.find? (fun p => p.1 == other) entries with
      | some p => simp
      | none => simp [List.find?_cons, hko]

/-- What `addEventListener` does for a topic that is not an inherited name: the callback is
put at the end of the array of the topic, the other arrays and the calls stay. -/
theorem EventBus.addEventListener_spec (event : String) (callback : Nat) (bus : EventBus)
    (h : event ∉ objectPrototypeNames) :
    ∃ bus1, bus.addEventListener event callback = Except.ok bus1 ∧
      bus1.calls = bus.calls ∧
      bus1.eventListeners.get event =
        some ((bus.eventListeners.get event).getD [] ++ [callback]) ∧
      ∀ other, other ≠ event → bus1.eventListeners.get other = bus.eventListeners.get other := by
  cases hget : bus.eventListeners.get event with
  | some cs =>
    have hprop : bus.property event = Property.callbacks cs := by
      simp only [EventBus.property, hget]
    refine ⟨{ bus with eventListeners := bus.eventListeners.set event (cs ++ [callback]) },
      ?_, rfl, ?_, ?_⟩
    · simp only [EventBus.addEventListener, hprop]
    · simp only [JSMap.get_set_self, Option.getD_some]
    · intro other hne
      exact JSMap.get_set_of_ne _ _ _ _ hne
  | none =>
    have hprop : bus.property event = Property.undefined := by
      simp only [EventBus.property, hget, h, if_false]
    have hprop1 : ({ bus with eventListeners := bus.eventListeners.set event [] } :
        EventBus).property event = Property.callbacks [] := by
      simp only [EventBus.property, JSMap.get_set_self]
    refine ⟨{ bus with
      eventListeners := (bus.eventListeners.set event []).set event ([] ++ [callback]) },
      ?_, rfl, ?_, ?_⟩
    · simp only [EventBus.addEventListener, hprop, hprop1]
    · simp only [JSMap.get_set_self, Option.getD_none]
    · intro other hne
      simp only
      rw [JSMap.get_set_of_ne _ _ _ _ hne, JSMap.get_set_of_ne _ _ _ _ hne]

/-- After the registrations `regs` the array of each topic holds the callbacks registered
for it, in the order of registration. -/
theorem EventBus.registerAll_spec (regs : List (String × Nat)) :
    ∀ bus : EventBus, (∀ r ∈ regs, r.1 ∉ objectPrototypeNames) →
      ∃ bus1, EventBus.registerAll regs bus = Except.ok bus1 ∧
        bus1.calls = bus.calls ∧
        ∀ topic, (bus1.eventListeners.get topic).getD [] =
          (bus.eventListeners.get topic).getD [] ++
            (regs.filter (fun r => r.1 = topic)).map (fun r => r.2) := by
  induction regs with
  | nil =>
    intro bus _
    exact ⟨bus, rfl, rfl, by simp⟩
  | cons r rest ih =>
    intro bus hall
    obtain ⟨event, callback⟩ := r
    have hevent : event ∉ objectPrototypeNames := hall (event, callback) (List.mem_cons_self _ _)
    obtain ⟨bus1, hadd, hcalls1, hself, hother⟩ :=
      EventBus.addEventListener_spec event callback bus hevent
    obtain ⟨bus2, hreg, hcalls2, hget2⟩ :=
      ih bus1 (fun x hx => hall x (List.mem_cons_of_mem _ hx))
    refine ⟨bus2, ?_, hcalls2.trans hcalls1, ?_⟩
    · simp only [EventBus.registerAll, hadd, hreg]
    · intro topic
      rw [hget2 topic]
      by_cases ht : topic = event
      · subst ht
        rw [hself]
        simp [List.filter_cons]
      · rw [hother topic ht]
        have hne : ¬ event = topic := fun hh => ht hh.symm
        simp [List.filter_cons, hne]

/-- What `emit` does for a topic that is not an inherited name. -/
theorem EventBus.emit_spec (event : String) (data : Option String) (bus : EventBus)
    (h : event ∉ objectPrototypeNames) :
    bus.emit event data =
      Except.ok { bus with
        calls := bus.calls ++
          ((bus.eventListeners.get event).getD []).map (fun callback => (callback, data)) } := by
  cases hget : bus.eventListeners.get event with
  | some cs => simp only [EventBus.emit, EventBus.property, hget, Option.getD_some]
  | none =>
    simp only [EventBus.emit, EventBus.property, hget, h, if_false, Option.getD_none,
      List.map_nil, List.append_nil]

/-- C23 (code bug): the registry is a plain object used as a map, so a topic named like a
property that every object inherits finds that property. Nothing is subscribed to
`toString` in a new registry, yet `emit` of that topic does not do nothing: it throws,
because `eventListeners["toString"]` is the inherited function and has no `forEach`.
`addEventListener` throws for that topic as well, so a callback registered for it is
never invoked. -/
theorem emit_inherited_topic_throws :
    "toString" ∈ objectPrototypeNames ∧
    EventBus.new.eventListeners.get "toString" = none ∧
    EventBus.new.emit "toString" none =
      Except.error "TypeError: this.eventListeners[event].forEach is not a function" ∧
    EventBus.new.emit "toString" none ≠ Except.ok EventBus.new ∧
    EventBus.new.addEventListener "toString" 1 =
      Except.error "TypeError: this.eventListeners[event].push is not a function" :=
  ⟨by decide, rfl, rfl, by simp [EventBus.emit, EventBus.property, EventBus.new, JSMap.get,
    objectPrototypeNames], rfl⟩

/-- Away from the names of properties inherited from `Object.prototype` the registry does
what is expected of it: after any sequence of `addEventListener` calls on a new registry,
`emit(topic, data)` calls the callbacks registered for that topic, once per registration, in
the order of registration, each with `data`, and calls no callback registered for another
topic; when nothing is registered for the topic it leaves the registry as it is. -/
theorem emit_calls_subscribers_in_order (regs : List (String × Nat)) (topic : String)
    (data : Option String) (hregs : ∀ r ∈ regs, r.1 ∉ objectPrototypeNames)
    (htopic : topic ∉ objectPrototypeNames) :
    ∃ bus, EventBus.registerAll regs EventBus.new = Except.ok bus ∧
      bus.calls = [] ∧
      bus.emit topic data =
        Except.ok { bus with
          calls := (regs.filter (fun r => r.1 = topic)).map (fun r => (r.2, data)) } ∧
      ((∀ r ∈ regs, r.1 ≠ topic) → bus.emit topic data = Except.ok bus) := by
  obtain ⟨bus, hreg, hcalls, hget⟩ := EventBus.registerAll_spec regs EventBus.new hregs
  have hcalls0 : bus.calls = [] := hcalls
  have hlist : (bus.eventListeners.get topic).getD [] =
      (regs.filter (fun r => r.1 = topic)).map (fun r => r.2) := by
    rw [hget topic]
    rfl
  have hemit : bus.emit topic data =
      Except.ok { bus with
        calls := (regs.filter (fun r => r.1 = topic)).map (fun r => (r.2, data)) } := by
    rw [EventBus.emit_spec topic data bus htopic, hlist, hcalls0]
    simp [List.map_map, Function.comp]
  refine ⟨bus, hreg, hcalls0, hemit, ?_⟩
  intro hnone
  rw [hemit]
  have hfilter : regs.filter (fun r => r.1 = topic) = [] := by
    rw [List.filter_eq_nil_iff]
    intro r hr
    simpa using hnone r hr
  rw [hfilter]
  cases bus with
  | mk listeners calls =>
    simp only at hcalls0
    subst hcalls0
    rfl

/-- Callbacks 1 and 3 subscribe to `routeChanged` and callback 2 to `routeUpdated`;
`emit('routeChanged')` calls 1 and then 3. -/
theorem emit_calls_subscribers_in_order_example :
    (∀ r ∈ [("routeChanged", 1), ("routeUpdated", 2), ("routeChanged", 3)],
      r.1 ∉ objectPrototypeNames) ∧
    "routeChanged" ∉ objectPrototypeNames ∧
    ∃ bus, EventBus.registerAll [("routeChanged", 1), ("routeUpdated", 2), ("routeChanged", 3)]
        EventBus.new = Except.ok bus ∧
      bus.calls = [] ∧
      bus.emit "routeChanged" none =
        Except.ok { bus with
          calls := ([("routeChanged", 1), ("routeUpdated", 2), ("routeChanged", 3)].filter
            (fun r => r.1 = "routeChanged")).map (fun r => (r.2, none)) } ∧
      ((∀ r ∈ [("routeChanged", 1), ("routeUpdated", 2), ("routeChanged", 3)],
        r.1 ≠ "routeChanged") → bus.emit "routeChanged" none = Except.ok bus) :=
  ⟨by decide, by decide,
    emit_calls_subscribers_in_order [("routeChanged", 1), ("routeUpdated", 2), ("routeChanged", 3)]
      "routeChanged" none (by decide) (by decide)⟩

/-! ## Cycling settings and positions along the route -/

theorem jsOr_true (x : Option Bool) : jsOr x true = true := by
  unfold jsOr
  split <;> rfl

theorem jsOr_false (x : Option Bool) : jsOr x false = x.getD false := by
  cases x with
  | none => rfl
  | some b => cases b <;> rfl

/-- C28: whatever the state of the three checkboxes, checked, unchecked or absent,
`getCyclingSettings` returns `avoidHighways = true` and `preferTrails = true`, and
`allowUnpaved` is the state of its checkbox, false when absent. So for every profile whose
name includes `cycling` the speed of `estimateTrailDuration` is the base speed times 0.9
times 0.85, and the base speed of `cycling-gravel` is 16 km/h. -/
theorem getCyclingSettings_defaults_win (env : Env) (controls : CyclingControls) :
    (getCyclingSettings controls).avoidHighways = true ∧
    (getCyclingSettings controls).preferTrails = true ∧
    (getCyclingSettings controls).allowUnpaved = controls.allowUnpaved.getD false ∧
    baseSpeedKmh (getCyclingSettings controls) "cycling-gravel" = 16 ∧
    (∀ profile : String, jsIncludes profile "cycling" = true →
      finalSpeed (getCyclingSettings controls) profile =
        baseSpeedKmh (getCyclingSettings controls) profile * (9 / 10) * (85 / 100) ∧
      ∀ routingProfile coordinates,
        estimateTrailDuration env controls routingProfile coordinates (some profile) =
          calculateRouteDistance env coordinates / 1000 /
            (baseSpeedKmh (getCyclingSettings controls) profile * (9 / 10) * (85 / 100)) *
            3600) := by
  have ha : (getCyclingSettings controls).avoidHighways = true := jsOr_true _
  have hp : (getCyclingSettings controls).preferTrails = true := jsOr_true _
  have hspeed : ∀ profile : String, jsIncludes profile "cycling" = true →
      finalSpeed (getCyclingSettings controls) profile =
        baseSpeedKmh (getCyclingSettings controls) profile * (9 / 10) * (85 / 100) := by
    intro profile hinc
    simp only [finalSpeed, ha, hp, hinc, Bool.and_self, if_true]
  refine ⟨ha, hp, jsOr_false _, ?_, ?_⟩
  · simp [baseSpeedKmh, hp]
  · intro profile hinc
    refine ⟨hspeed profile hinc, ?_⟩
    intro routingProfile coordinates
    have hne : profile ≠ "" := by
      intro h
      rw [h] at hinc
      exact absurd hinc (by decide)
    simp only [estimateTrailDuration, hne, if_false, hspeed profile hinc]

/-- All three checkboxes unchecked, and the profile `cycling-gravel`. -/
theorem getCyclingSettings_defaults_win_witness :
    jsIncludes "cycling-gravel" "cycling" = true ∧
    getCyclingSettings ⟨some false, some false, some false⟩ = ⟨true, true, false⟩ ∧
    finalSpeed (getCyclingSettings ⟨some false, some false, some false⟩) "cycling-gravel" =
      baseSpeedKmh (getCyclingSettings ⟨some false, some false, some false⟩) "cycling-gravel" *
        (9 / 10) * (85 / 100) :=
  ⟨by decide, by decide,
    ((getCyclingSettings_defaults_win straightEnv ⟨some false, some false, some false⟩).2.2.2.2
      "cycling-gravel" (by decide)).1⟩

/-- The accumulated distance does not fall when distances that are not negative are
added. -/
theorem le_foldl_fadd (env : Env)
    (hdist : ∀ lat1 lon1 lat2 lon2, 0 ≤ env.calculateDistance lat1 lon1 lat2 lon2)
    (l : List (LatLng × LatLng)) :
    ∀ acc : ℚ, Representable acc →
      acc ≤ l.foldl
        (fun acc p => fadd acc (env.calculateDistance p.1.lat p.1.lng p.2.lat p.2.lng)) acc := by
  induction l with
  | nil => intro acc _; exact le_refl _
  | cons p rest ih =>
    intro acc hacc
    simp only [List.foldl_cons]
    exact le_trans (le_fadd acc _ hacc (hdist _ _ _ _))
      (ih _ (representable_roundDouble _))

/-- The pair selected by the loop is a pair of consecutive waypoints, reached with less
than the target accumulated, and the sum computed for it reaches the target. -/
theorem selectSegment_spec (env : Env) (target : ℚ) (rt : List LatLng) :
    ∀ (acc : ℚ) (a b : LatLng) (acc' : ℚ), Representable acc → acc < target →
      selectSegment env target acc rt = some (a, b, acc') →
      Representable acc' ∧ acc' < target ∧
      target ≤ fadd acc' (env.calculateDistance a.lat a.lng b.lat b.lng) ∧
      ∃ i, pairAt rt i = some (a, b) := by
  induction rt with
  | nil => intro acc a b acc' _ _ h; simp [selectSegment] at h
  | cons x tl ih =>
    intro acc a b acc' hrep hacc h
    cases tl with
    | nil => simp [selectSegment] at h
    | cons y rest =>
      rw [selectSegment] at h
      split at h
      · rename_i hge
        simp only [Option.some.injEq, Prod.mk.injEq] at h
        obtain ⟨rfl, rfl, rfl⟩ := h
        exact ⟨hrep, hacc, hge, 0, rfl⟩
      · rename_i hlt
        obtain ⟨h0, h1, h2, i, hi⟩ :=
          ih _ a b acc' (representable_roundDouble _) (not_le.mp hlt) h
        exact ⟨h0, h1, h2, i + 1, by rw [pairAt_cons_succ]; exact hi⟩

/-- With distances that are not negative the distance accumulated before the selected pair
is not negative. -/
theorem selectSegment_acc_nonneg (env : Env)
    (hdist : ∀ lat1 lon1 lat2 lon2, 0 ≤ env.calculateDistance lat1 lon1 lat2 lon2)
    (target : ℚ) (rt : List LatLng) :
    ∀ (acc : ℚ) (a b : LatLng) (acc' : ℚ), 0 ≤ acc →
      selectSegment env target acc rt = some (a, b, acc') → 0 ≤ acc' := by
  induction rt with
  | nil => intro acc a b acc' _ h; simp [selectSegment] at h
  | cons x tl ih =>
    intro acc a b acc' hacc h
    cases tl with
    | nil => simp [selectSegment] at h
    | cons y rest =>
      rw [selectSegment] at h
      split at h
      · simp only [Option.some.injEq, Prod.mk.injEq] at h
        obtain ⟨_, _, rfl⟩ := h
        exact hacc
      · exact ih _ a b acc' (roundDouble_nonneg _ (add_nonneg hacc (hdist _ _ _ _))) h

/-- The loop selects no pair exactly when the distance accumulated over the whole route
stays below the target. -/
theorem selectSegment_eq_none_iff (env : Env)
    (hdist : ∀ lat1 lon1 lat2 lon2, 0 ≤ env.calculateDistance lat1 lon1 lat2 lon2)
    (target : ℚ) (rt : List LatLng) :
    ∀ acc : ℚ, Representable acc → acc < target →
      (selectSegment env target acc rt = none ↔
        (List.zip rt rt.tail).foldl
          (fun acc p => fadd acc (env.calculateDistance p.1.lat p.1.lng p.2.lat p.2.lng))
          acc < target) := by
  induction rt with
  | nil =>
    intro acc _ hacc
    simp [selectSegment, hacc]
  | cons x tl ih =>
    intro acc hrep hacc
    cases tl with
    | nil => simp [selectSegment, hacc]
    | cons y rest =>
      rw [selectSegment]
      simp only [List.tail_cons, List.zip_cons_cons, List.foldl_cons]
      split
      · rename_i hge
        simp only [reduceCtorEq, false_iff, not_lt]
        exact le_trans hge
          (le_foldl_fadd env hdist _ _ (representable_roundDouble _))
      · rename_i hlt
        have h := ih _ (representable_roundDouble (acc + env.calculateDistance x.lat x.lng y.lat y.lng))
          (not_le.mp hlt)
        simp only [List.tail_cons] at h
        exact h

/-- C29 as stated fails by rounding: on `meridianRoute`, with 2 km and then
0.9999999999999999 km between its waypoints, and the target 3 km, the exact sum of the
distances is below the target, but the sum computed at line 724 is rounded to 3 and the
second pair is selected. The ratio is 1 / 0.9999999999999999 rounded, which is
1 + 2^-52, above 1, and the point returned has the latitude 1 + 2^-52, beyond the end of
the pair at latitude 1. -/
theorem getPointAtDistance_ratio_above_one :
    roundingEnv.calculateDistance (-1) 0 0 0 = 2 ∧
    roundingEnv.calculateDistance 0 0 1 0 = 1 - 1 / 2 ^ 53 ∧
    (2 : ℚ) + (1 - 1 / 2 ^ 53) < 3 ∧
    fadd 2 (1 - 1 / 2 ^ 53) = 3 ∧
    selectSegment roundingEnv 3 0 meridianRoute = some (⟨0, 0⟩, ⟨1, 0⟩, 2) ∧
    segmentRatio roundingEnv 3 ⟨0, 0⟩ ⟨1, 0⟩ 2 = 1 + 1 / 2 ^ 52 ∧
    1 < segmentRatio roundingEnv 3 ⟨0, 0⟩ ⟨1, 0⟩ 2 ∧
    getPointAtDistance roundingEnv meridianRoute 3 = some ⟨1 + 1 / 2 ^ 52, 0⟩ := by
  refine ⟨by decide!, by decide!, by norm_num, by decide!, by decide!, by decide!, by decide!,
    by decide!⟩

/-- C29, amended: for a target distance above zero, whenever `getPointAtDistance` selects a
pair of consecutive waypoints, less than the target was accumulated before the pair and
the sum computed for the pair reaches the target, the distance between the two waypoints
is strictly positive, so the division is not by zero, the ratio is not negative, and the
returned point is the start of the pair moved by that ratio towards its end in double
arithmetic; the ratio can exceed 1 by rounding. With distances that are not negative, as
haversine distances are, the result is `null` exactly when the route has fewer than two
waypoints or the target exceeds the length of the route as the loop of `updateRouteInfo`
adds it up; and with distances that are doubles and not negative the ratio is at most 2. -/
theorem getPointAtDistance_spec (env : Env) (route : List LatLng) (target : ℚ)
    (hpos : 0 < target) :
    (∀ a b acc, selectSegment env target 0 route = some (a, b, acc) →
      (∃ i, pairAt route i = some (a, b)) ∧
      acc < target ∧
      target ≤ fadd acc (env.calculateDistance a.lat a.lng b.lat b.lng) ∧
      0 < env.calculateDistance a.lat a.lng b.lat b.lng ∧
      0 ≤ segmentRatio env target a b acc ∧
      getPointAtDistance env route target =
        some (interpolate a b (segmentRatio env target a b acc))) ∧
    (getPointAtDistance env route target ≠ none →
      ∃ a b acc, selectSegment env target 0 route = some (a, b, acc)) ∧
    ((∀ lat1 lon1 lat2 lon2, 0 ≤ env.calculateDistance lat1 lon1 lat2 lon2) →
      (getPointAtDistance env route target = none ↔
        route.length < 2 ∨ sumDistances env route < target)) ∧
    ((∀ lat1 lon1 lat2 lon2, 0 ≤ env.calculateDistance lat1 lon1 lat2 lon2) →
      (∀ lat1 lon1 lat2 lon2, Representable (env.calculateDistance lat1 lon1 lat2 lon2)) →
      ∀ a b acc, selectSegment env target 0 route = some (a, b, acc) →
        segmentRatio env target a b acc ≤ 2) := by
  refine ⟨?_, ?_, ?_, ?_⟩
  · intro a b acc hsel
    obtain ⟨hrep, hacc, hreach, hpair⟩ :=
      selectSegment_spec env target route 0 a b acc representable_zero hpos hsel
    have hseg : 0 < env.calculateDistance a.lat a.lng b.lat b.lng := by
      by_contra hcon
      have hle : acc + env.calculateDistance a.lat a.lng b.lat b.lng ≤ acc := by linarith
      have h1 := roundDouble_mono _ _ hle
      rw [hrep] at h1
      unfold fadd at hreach
      linarith
    have hlen : ¬ route.length < 2 := by
      intro hlt
      match route, hlt with
      | [], _ => simp [selectSegment] at hsel
      | [_], _ => simp [selectSegment] at hsel
    refine ⟨hpair, hacc, hreach, hseg, ?_, ?_⟩
    · unfold segmentRatio fdiv fsub
      apply roundDouble_nonneg
      exact div_nonneg (roundDouble_nonneg _ (by linarith)) (le_of_lt hseg)
    · unfold getPointAtDistance
      rw [if_neg hlen, hsel]
      rfl
  · intro hne
    unfold getPointAtDistance at hne
    split at hne
    · exact absurd rfl hne
    · cases hsel : selectSegment env target 0 route with
      | none => rw [hsel] at hne; exact absurd rfl hne
      | some sel => exact ⟨sel.1, sel.2.1, sel.2.2, rfl⟩
  · intro hdist
    have hiff := selectSegment_eq_none_iff env hdist target route 0 representable_zero hpos
    unfold getPointAtDistance
    by_cases hlen : route.length < 2
    · simp [hlen]
    · rw [if_neg hlen]
      simp only [Option.map_eq_none', hiff, hlen, false_or]
      rfl
  · intro hdist hrepd a b acc hsel
    obtain ⟨hrep, hacc, hreach, _⟩ :=
      selectSegment_spec env target route 0 a b acc representable_zero hpos hsel
    have hacc0 : 0 ≤ acc :=
      selectSegment_acc_nonneg env hdist target route 0 a b acc (le_refl _) hsel
    have hd0 := hdist a.lat a.lng b.lat b.lng
    have hseg : 0 < env.calculateDistance a.lat a.lng b.lat b.lng := by
      by_contra hcon
      have hle : acc + env.calculateDistance a.lat a.lng b.lat b.lng ≤ acc := by linarith
      have h1 := roundDouble_mono _ _ hle
      rw [hrep] at h1
      unfold fadd at hreach
      linarith
    have hnear := roundDouble_sub_le acc (acc + env.calculateDistance a.lat a.lng b.lat b.lng)
      hrep hacc0 (by linarith)
    unfold fadd at hreach
    have hdiff : target - acc ≤ 2 * env.calculateDistance a.lat a.lng b.lat b.lng := by
      linarith
    have hsub : fsub target acc ≤ 2 * env.calculateDistance a.lat a.lng b.lat b.lng := by
      unfold fsub
      have h := roundDouble_mono _ _ hdiff
      rwa [representable_two_mul _ (hrepd a.lat a.lng b.lat b.lng)] at h
    have htwo : roundDouble 2 = 2 := by decide!
    unfold segmentRatio fdiv
    rw [← htwo]
    apply roundDouble_mono
    rw [div_le_iff₀ hseg]
    exact hsub

/-- The route (0, 0), (1, 0) with 1 km between different latitudes, and the target 0.5 km:
the only pair is selected at ratio 1/2, and the point returned is (0.5, 0). -/
theorem getPointAtDistance_spec_witness :
    (0 : ℚ) < 1 / 2 ∧
    selectSegment latStepEnv (1 / 2) 0 [wpOrigin, wpNorthOne] = some (wpOrigin, wpNorthOne, 0) ∧
    0 < latStepEnv.calculateDistance wpOrigin.lat wpOrigin.lng wpNorthOne.lat wpNorthOne.lng ∧
    0 ≤ segmentRatio latStepEnv (1 / 2) wpOrigin wpNorthOne 0 ∧
    segmentRatio latStepEnv (1 / 2) wpOrigin wpNorthOne 0 = 1 / 2 ∧
    getPointAtDistance latStepEnv [wpOrigin, wpNorthOne] (1 / 2) = some ⟨1 / 2, 0⟩ ∧
    (∀ lat1 lon1 lat2 lon2, 0 ≤ latStepEnv.calculateDistance lat1 lon1 lat2 lon2) ∧
    (getPointAtDistance latStepEnv [wpOrigin, wpNorthOne] (1 / 2) = none ↔
      [wpOrigin, wpNorthOne].length < 2 ∨
        sumDistances latStepEnv [wpOrigin, wpNorthOne] < 1 / 2) :=
  have hdist : ∀ lat1 lon1 lat2 lon2 : ℚ,
      0 ≤ latStepEnv.calculateDistance lat1 lon1 lat2 lon2 := by
    intro lat1 lon1 lat2 lon2
    simp only [latStepEnv]
    split <;> norm_num
  have hsel : selectSegment latStepEnv (1 / 2) 0 [wpOrigin, wpNorthOne] =
      some (wpOrigin, wpNorthOne, 0) := by decide!
  have h := (getPointAtDistance_spec latStepEnv [wpOrigin, wpNorthOne] (1 / 2)
    (by norm_num)).1 wpOrigin wpNorthOne 0 hsel
  ⟨by norm_num, hsel, h.2.2.2.1, h.2.2.2.2.1, by decide!, by decide!, hdist,
    (getPointAtDistance_spec latStepEnv [wpOrigin, wpNorthOne] (1 / 2) (by norm_num)).2.2.1
      hdist⟩

/-! ## Distance markers -/

/-- A list of numbers between `0` and `M` that holds both, sorted and without repetition,
starts with `0` and ends with `M`. -/
theorem sorted_bounds (ds : List ℚ) (M : ℚ) (hs : ds.Sorted (· ≤ ·)) (h0 : (0 : ℚ) ∈ ds)
    (hM : M ∈ ds) (hall : ∀ d ∈ ds, 0 ≤ d ∧ d ≤ M) :
    ds.head? = some 0 ∧ ds.getLast? = some M := by
  constructor
  · cases ds with
    | nil => simp at h0
    | cons h t =>
      have hle : h ≤ 0 := by
        rcases List.mem_cons.mp h0 with h1 | h1
        · exact le_of_eq h1.symm
        · exact List.rel_of_sorted_cons hs 0 h1
      have hge := (hall h (List.mem_cons_self _ _)).1
      simp only [List.head?_cons, Option.some.injEq]
      exact le_antisymm hle hge
  · have hne : ds ≠ [] := List.ne_nil_of_mem h0
    rw [List.getLast?_eq_getLast ds hne]
    have hdecomp := List.dropLast_append_getLast hne
    have hlast_le : ds.getLast hne ≤ M := (hall _ (List.getLast_mem hne)).2
    have hM_le : M ≤ ds.getLast hne := by
      rw [← hdecomp] at hM hs
      rcases List.mem_append.mp hM with h1 | h1
      · have hp := (List.pairwise_append.mp hs).2.2
        exact hp M h1 _ (List.mem_singleton_self _)
      · exact le_of_eq (List.mem_singleton.mp h1)
    simp only [Option.some.injEq]
    exact le_antisymm hlast_le hM_le

theorem mem_uniqueMarkers (l : List DistanceMarker) (m : DistanceMarker)
    (h : m ∈ uniqueMarkers l) : m ∈ l := by
  unfold uniqueMarkers at h
  rw [List.mem_map] at h
  obtain ⟨p, hp, rfl⟩ := h
  have hp1 := (List.mem_filter.mp hp).1
  exact List.getElem?_mem (List.mem_enum_iff_getElem?.mp hp1)

theorem exists_mem_uniqueMarkers (l : List DistanceMarker) (d : ℚ)
    (h : ∃ m ∈ l, m.distance = d) : ∃ m ∈ uniqueMarkers l, m.distance = d := by
  have hex : ∃ x ∈ l, (fun m : DistanceMarker => decide (m.distance = d)) x = true := by
    obtain ⟨m, hm, hd⟩ := h
    exact ⟨m, hm, by simpa using hd⟩
  have hlt := List.findIdx_lt_length_of_exists hex
  have hprop := List.findIdx_getElem (w := hlt)
  have hdist : (l[l.findIdx (fun m => decide (m.distance = d))]).distance = d := by
    simpa using hprop
  refine ⟨l[l.findIdx (fun m => decide (m.distance = d))], ?_, hdist⟩
  unfold uniqueMarkers
  rw [List.mem_map]
  refine ⟨(l.findIdx (fun m => decide (m.distance = d)),
    l[l.findIdx (fun m => decide (m.distance = d))]), ?_, rfl⟩
  rw [List.mem_filter]
  constructor
  · rw [List.mk_mem_enum_iff_getElem?]
    exact List.getElem?_eq_getElem hlt
  · simp only [decide_eq_true_eq]
    rw [hdist]

theorem nodup_uniqueMarkers (l : List DistanceMarker) :
    ((uniqueMarkers l).map DistanceMarker.distance).Nodup := by
  unfold uniqueMarkers
  rw [List.map_map]
  rw [List.Nodup, List.pairwise_map]
  have hidx : l.enum.Pairwise (fun a b => a.1 < b.1) := by
    have h := List.pairwise_lt_range l.length
    rw [← List.enum_map_fst, List.pairwise_map] at h
    exact h
  have hfilter := List.Pairwise.filter
    (fun p : Nat × DistanceMarker =>
      decide (p.1 = l.findIdx (fun m => decide (m.distance = p.2.distance)))) hidx
  refine List.Pairwise.imp_of_mem ?_ hfilter
  intro a b ha hb hlt heq
  have ha2 := (List.mem_filter.mp ha).2
  have hb2 := (List.mem_filter.mp hb).2
  simp only [decide_eq_true_eq] at ha2 hb2
  simp only [Function.comp] at heq
  rw [heq] at ha2
  omega

/-- The markers added by the loop lie strictly between `0` and the maximum. -/
theorem mem_markerLoop (M I : ℚ) (fuel : Nat) :
    ∀ (cur : ℚ) (markers : List DistanceMarker) (m : DistanceMarker),
      m ∈ markerLoop M I fuel cur markers →
      m ∈ markers ∨ (0 < m.distance ∧ m.distance < M) := by
  induction fuel with
  | zero => intro cur markers m h; exact Or.inl h
  | succ fuel ih =>
    intro cur markers m h
    rw [markerLoop] at h
    split at h
    · generalize (if I ≥ 5 then (mathRound (cur / I) : ℚ) * I else cur) = md at h
      simp only at h
      rcases ih _ _ m h with h1 | h1
      · split at h1
        · rename_i hcond
          rcases List.mem_append.mp h1 with h2 | h2
          · exact Or.inl h2
          · rw [List.mem_singleton] at h2
            subst h2
            exact Or.inr ⟨hcond.2, hcond.1⟩
        · exact Or.inl h1
      · exact Or.inr h1
    · exact Or.inl h

/-- The loop keeps the markers it starts with. -/
theorem subset_markerLoop (M I : ℚ) (fuel : Nat) :
    ∀ (cur : ℚ) (markers : List DistanceMarker) (m : DistanceMarker),
      m ∈ markers → m ∈ markerLoop M I fuel cur markers := by
  induction fuel with
  | zero => intro cur markers m h; exact h
  | succ fuel ih =>
    intro cur markers m h
    rw [markerLoop]
    split
    · generalize (if I ≥ 5 then (mathRound (cur / I) : ℚ) * I else cur) = md
      simp only
      apply ih
      split
      · exact List.mem_append_left _ h
      · exact h
    · exact h

/-- More rounds than the loop needs change nothing: once `fuel` steps of the interval
reach the maximum, the loop has ended by its own test. -/
theorem markerLoop_fuel (M I : ℚ) (fuel extra : Nat) :
    ∀ (cur : ℚ) (markers : List DistanceMarker), M ≤ cur + fuel * I →
      markerLoop M I (fuel + extra) cur markers = markerLoop M I fuel cur markers := by
  induction fuel with
  | zero =>
    intro cur markers h
    have hcur : ¬ cur < M := by
      simp only [Nat.cast_zero, zero_mul, add_zero] at h
      exact not_lt.mpr h
    cases extra with
    | zero => rfl
    | succ extra =>
      rw [Nat.zero_add]
      show markerLoop M I (extra + 1) cur markers = markers
      rw [markerLoop, if_neg hcur]
  | succ fuel ih =>
    intro cur markers h
    have hadd : fuel + 1 + extra = (fuel + extra) + 1 := by omega
    rw [hadd, markerLoop, markerLoop]
    split
    · simp only
      apply ih
      push_cast at h
      linarith
    · rfl

theorem smartInterval_pos (M : ℚ) : 0 < smartInterval M := by
  unfold smartInterval
  split_ifs <;> norm_num

/-- The fuel given to the loop by `getSmartDistanceMarkers` is enough. -/
theorem markerLoop_fuel_enough (M : ℚ) (extra : Nat) (markers : List DistanceMarker) :
    markerLoop M (smartInterval M) (⌈M / smartInterval M⌉.toNat + extra) (smartInterval M)
        markers =
      markerLoop M (smartInterval M) ⌈M / smartInterval M⌉.toNat (smartInterval M) markers := by
  apply markerLoop_fuel M _
  have hI := smartInterval_pos M
  have h1 : M / smartInterval M ≤ (⌈M / smartInterval M⌉ : ℚ) := Int.le_ceil _
  have h2 : (⌈M / smartInterval M⌉ : ℚ) ≤ ((⌈M / smartInterval M⌉.toNat : ℕ) : ℚ) := by
    have := Int.self_le_toNat ⌈M / smartInterval M⌉
    exact_mod_cast this
  have h3 : M ≤ (⌈M / smartInterval M⌉.toNat : ℚ) * smartInterval M := by
    rw [← div_le_iff₀ hI]
    exact le_trans h1 h2
  linarith

/-- C27: for every `maxDistance` above 0.1 the distances of the markers returned by
`getSmartDistanceMarkers` are strictly increasing (sorted, none twice), the first is 0, the
last is `maxDistance`, and every one lies between 0 and `maxDistance`. Distances are exact
rationals. -/
theorem getSmartDistanceMarkers_sorted (M : ℚ) (hM : 1 / 10 < M) :
    ((getSmartDistanceMarkers M).map DistanceMarker.distance).Sorted (· < ·) ∧
    ((getSmartDistanceMarkers M).map DistanceMarker.distance).head? = some 0 ∧
    ((getSmartDistanceMarkers M).map DistanceMarker.distance).getLast? = some M ∧
    ∀ d ∈ (getSmartDistanceMarkers M).map DistanceMarker.distance, 0 ≤ d ∧ d ≤ M := by
  haveI : IsTotal DistanceMarker (fun a b => a.distance ≤ b.distance) :=
    ⟨fun a b => le_total _ _⟩
  haveI : IsTrans DistanceMarker (fun a b => a.distance ≤ b.distance) :=
    ⟨fun a b c hab hbc => le_trans hab hbc⟩
  have hMpos : 0 < M := by linarith
  unfold getSmartDistanceMarkers
  simp only [gt_iff_lt, hM, if_true]
  generalize hloop : markerLoop M (smartInterval M) ⌈M / smartInterval M⌉.toNat (smartInterval M)
    [{ distance := 0, label := "0" }] = loop
  have hmemloop : ∀ m ∈ loop, m.distance = 0 ∨ (0 < m.distance ∧ m.distance < M) := by
    intro m hm
    rw [← hloop] at hm
    rcases mem_markerLoop _ _ _ _ _ m hm with h1 | h1
    · rw [List.mem_singleton] at h1
      subst h1
      exact Or.inl rfl
    · exact Or.inr h1
  have hzero : ({ distance := 0, label := "0" } : DistanceMarker) ∈ loop := by
    rw [← hloop]
    exact subset_markerLoop _ _ _ _ _ _ (List.mem_singleton_self _)
  generalize hL : loop ++ [{ distance := M, label := toString (mathRound M) }] = L
  have hallL : ∀ m ∈ L, 0 ≤ m.distance ∧ m.distance ≤ M := by
    intro m hm
    rw [← hL] at hm
    rcases List.mem_append.mp hm with h1 | h1
    · rcases hmemloop m h1 with h2 | h2
      · rw [h2]
        exact ⟨le_refl _, le_of_lt hMpos⟩
      · exact ⟨le_of_lt h2.1, le_of_lt h2.2⟩
    · rw [List.mem_singleton] at h1
      subst h1
      exact ⟨le_of_lt hMpos, le_refl _⟩
  have h0L : ∃ m ∈ L, m.distance = 0 :=
    ⟨_, by rw [← hL]; exact List.mem_append_left _ hzero, rfl⟩
  have hML : ∃ m ∈ L, m.distance = M :=
    ⟨_, by rw [← hL]; exact List.mem_append_right _ (List.mem_singleton_self _), rfl⟩
  have hperm := List.perm_insertionSort (fun a b : DistanceMarker => a.distance ≤ b.distance)
    (uniqueMarkers L)
  have hsorted := List.sorted_insertionSort
    (fun a b : DistanceMarker => a.distance ≤ b.distance) (uniqueMarkers L)
  have hsd : ((List.insertionSort (fun a b : DistanceMarker => a.distance ≤ b.distance)
      (uniqueMarkers L)).map DistanceMarker.distance).Sorted (· ≤ ·) := by
    rw [List.Sorted, List.pairwise_map]
    exact hsorted
  have hnd : ((List.insertionSort (fun a b : DistanceMarker => a.distance ≤ b.distance)
      (uniqueMarkers L)).map DistanceMarker.distance).Nodup :=
    ((hperm.map DistanceMarker.distance).nodup_iff).mpr (nodup_uniqueMarkers L)
  have hmem : ∀ d, d ∈ (List.insertionSort (fun a b : DistanceMarker => a.distance ≤ b.distance)
      (uniqueMarkers L)).map DistanceMarker.distance ↔ ∃ m ∈ uniqueMarkers L, m.distance = d := by
    intro d
    rw [List.mem_map]
    constructor
    · rintro ⟨m, hm, rfl⟩
      exact ⟨m, hperm.mem_iff.mp hm, rfl⟩
    · rintro ⟨m, hm, rfl⟩
      exact ⟨m, hperm.mem_iff.mpr hm, rfl⟩
  have hall : ∀ d ∈ (List.insertionSort (fun a b : DistanceMarker => a.distance ≤ b.distance)
      (uniqueMarkers L)).map DistanceMarker.distance, 0 ≤ d ∧ d ≤ M := by
    intro d hd
    obtain ⟨m, hm, rfl⟩ := (hmem d).mp hd
    exact hallL m (mem_uniqueMarkers L m hm)
  have hb := sorted_bounds _ M hsd ((hmem 0).mpr (exists_mem_uniqueMarkers L 0 h0L))
    ((hmem M).mpr (exists_mem_uniqueMarkers L M hML)) hall
  exact ⟨hsd.lt_of_le hnd, hb.1, hb.2, hall⟩

/-- The claim at `maxDistance = 12`, where the markers stand at 0, 2, 4, 6, 8, 10 and 12. -/
theorem getSmartDistanceMarkers_sorted_witness :
    (1 / 10 : ℚ) < 12 ∧
    (((getSmartDistanceMarkers 12).map DistanceMarker.distance).Sorted (· < ·) ∧
      ((getSmartDistanceMarkers 12).map DistanceMarker.distance).head? = some 0 ∧
      ((getSmartDistanceMarkers 12).map DistanceMarker.distance).getLast? = some 12 ∧
      ∀ d ∈ (getSmartDistanceMarkers 12).map DistanceMarker.distance, 0 ≤ d ∧ d ≤ 12) :=
  ⟨by norm_num, getSmartDistanceMarkers_sorted 12 (by norm_num)⟩

/-! ## Durations -/

/-- For a duration that is not negative, `%` takes the floor of the quotient. -/
theorem jsRemainder_of_nonneg (a b : ℚ) (ha : 0 ≤ a) (hb : 0 < b) :
    jsRemainder a b = a - b * ⌊a / b⌋ := by
  unfold jsRemainder
  rw [if_neg (not_lt.mpr (div_nonneg ha (le_of_lt hb)))]

/-- The three parts of `formatDuration` add up to the rounded duration, the hours stay
below 24, and the minutes stay between 0 and 60, both ends included. -/
theorem duration_parts (t : ℚ) (ht : 0 ≤ t) :
    durationDays t * 1440 + durationHours t * 60 + durationMinutes t = mathRound t ∧
    0 ≤ durationDays t ∧
    (0 ≤ durationHours t ∧ durationHours t ≤ 23) ∧
    (0 ≤ durationMinutes t ∧ durationMinutes t ≤ 60) := by
  have h1440 : jsRemainder t (24 * 60) = t - 1440 * ⌊t / 1440⌋ := by
    rw [jsRemainder_of_nonneg t (24 * 60) ht (by norm_num)]
    norm_num
  have h60 : jsRemainder t 60 = t - 60 * ⌊t / 60⌋ :=
    jsRemainder_of_nonneg t 60 ht (by norm_num)
  have hd : durationDays t = ⌊t / 1440⌋ := by
    unfold durationDays
    norm_num
  have hh : durationHours t = ⌊t / 60⌋ - 24 * ⌊t / 1440⌋ := by
    unfold durationHours
    rw [h1440]
    have : (t - 1440 * (⌊t / 1440⌋ : ℚ)) / 60 = t / 60 - ((24 * ⌊t / 1440⌋ : ℤ) : ℚ) := by
      push_cast
      ring
    rw [this, Int.floor_sub_int]
  have hm : durationMinutes t = mathRound t - 60 * ⌊t / 60⌋ := by
    unfold durationMinutes mathRound
    rw [h60]
    have : t - 60 * (⌊t / 60⌋ : ℚ) + 1 / 2 = t + 1 / 2 - ((60 * ⌊t / 60⌋ : ℤ) : ℚ) := by
      push_cast
      ring
    rw [this, Int.floor_sub_int]
  have hf60 := Int.floor_le (t / 60)
  have hl60 := Int.lt_floor_add_one (t / 60)
  have hf1440 := Int.floor_le (t / 1440)
  have hl1440 := Int.lt_floor_add_one (t / 1440)
  have hdn : 0 ≤ ⌊t / 1440⌋ := Int.floor_nonneg.mpr (div_nonneg ht (by norm_num))
  refine ⟨by rw [hd, hh, hm]; ring, by rw [hd]; exact hdn, ⟨?_, ?_⟩, ⟨?_, ?_⟩⟩
  · rw [hh, sub_nonneg, Int.le_floor]
    push_cast
    linarith
  · rw [hh]
    have : ⌊t / 60⌋ < 24 * ⌊t / 1440⌋ + 24 := by
      rw [Int.floor_lt]
      push_cast
      linarith
    omega
  · rw [hm, sub_nonneg]
    unfold mathRound
    rw [Int.le_floor]
    push_cast
    linarith
  · rw [hm]
    have : mathRound t < 60 * ⌊t / 60⌋ + 61 := by
      unfold mathRound
      rw [Int.floor_lt]
      push_cast
      linarith
    omega

/-- C30 (code bug): at 119.5 minutes `formatDuration` computes 0 days, 1 hour and
`Math.round(59.5) = 60` minutes and renders "≈ 1 час 60 минут"; at 59.5 minutes it
renders "≈ 60 минут". The minutes component is 60 and the hour is not carried. -/
theorem formatDuration_minutes_reach_sixty :
    durationDays (239 / 2) = 0 ∧ durationHours (239 / 2) = 1 ∧
    durationMinutes (239 / 2) = 60 ∧ formatDuration (239 / 2) = "≈ 1 час 60 минут" ∧
    durationHours (119 / 2) = 0 ∧ durationMinutes (119 / 2) = 60 ∧
    formatDuration (119 / 2) = "≈ 60 минут" := by
  refine ⟨?_, ?_, ?_, ?_, ?_, ?_, ?_⟩ <;> decide!

/-! ## Routing providers -/

theorem tryInOrder_of_all_none (alternates : List (List Service × Option RouteData))
    (last : List Service × Except String RouteData) (h : ∀ a ∈ alternates, a.2 = none) :
    tryInOrder alternates last = ((alternates.map Prod.fst).flatten ++ last.1, last.2) := by
  induction alternates with
  | nil => rfl
  | cons a rest ih =>
    have ha : a.2 = none := h a (List.mem_cons_self _ _)
    have hrest := ih (fun b hb => h b (List.mem_cons_of_mem _ hb))
    rw [tryInOrder]
    simp only [ha, hrest, List.map_cons, List.flatten_cons, List.append_assoc]

theorem tryInOrder_of_first_some (before after : List (List Service × Option RouteData))
    (a : List Service × Option RouteData) (last : List Service × Except String RouteData)
    (routeData : RouteData) (hb : ∀ b ∈ before, b.2 = none) (ha : a.2 = some routeData) :
    tryInOrder (before ++ a :: after) last =
      ((before.map Prod.fst).flatten ++ a.1, Except.ok routeData) := by
  induction before with
  | nil =>
    rw [List.nil_append, tryInOrder]
    simp only [ha, List.map_nil, List.flatten_nil, List.nil_append]
  | cons b rest ih =>
    have hb1 : b.2 = none := hb b (List.mem_cons_self _ _)
    have hrest := ih (fun c hc => hb c (List.mem_cons_of_mem _ hc))
    rw [List.cons_append, tryInOrder]
    simp only [hb1, hrest, List.map_cons, List.flatten_cons, List.append_assoc]

theorem tryInOrder_error (alternates : List (List Service × Option RouteData))
    (last : List Service × Except String RouteData) (message : String)
    (h : (tryInOrder alternates last).2 = Except.error message) :
    (∀ a ∈ alternates, a.2 = none) ∧ last.2 = Except.error message := by
  induction alternates with
  | nil => exact ⟨fun a ha => absurd ha (List.not_mem_nil a), h⟩
  | cons a rest ih =>
    rw [tryInOrder] at h
    cases ha : a.2 with
    | some routeData =>
      rw [ha] at h
      simp only at h
      cases h
    | none =>
      rw [ha] at h
      simp only at h
      obtain ⟨h1, h2⟩ := ih h
      refine ⟨fun b hb => ?_, h2⟩
      rcases List.mem_cons.mp hb with hb1 | hb1
      · rw [hb1]; exact ha
      · exact h1 b hb1

theorem requestRouteFromORS_eq (w : Providers) (startPoint endPoint : LatLng) :
    requestRouteFromORS w startPoint endPoint =
      tryInOrder [openRouteServiceAttempt w startPoint endPoint]
        (requestRouteFromOSRM w startPoint endPoint) := by
  unfold requestRouteFromORS openRouteServiceAttempt
  by_cases hkey : orsApiKey w = ""
  · rw [if_pos hkey, if_pos hkey]
    rfl
  · rw [if_neg hkey, if_neg hkey]
    cases w.openRouteService startPoint endPoint with
    | rejected message => rfl
    | notOk status statusText => rfl
    | invalidJson message => rfl
    | json data =>
      cases data with
      | mk features =>
        cases features with
        | none => rfl
        | some features =>
          cases features with
          | nil => rfl
          | cons feature rest =>
            cases feature with
            | mk geometry segments =>
              cases segments with
              | none => rfl
              | some segments =>
                cases segments with
                | nil => rfl
                | cons segment others => rfl

theorem requestRouteFromOSRMTrails_eq (env : Env) (w : Providers) (startPoint endPoint : LatLng) :
    requestRouteFromOSRMTrails env w startPoint endPoint =
      tryInOrder
        [tryWaymarkedTrails env w startPoint endPoint,
          tryThunderforestOutdoors w startPoint endPoint]
        (requestRouteFromOSRM w startPoint endPoint) := by
  unfold requestRouteFromOSRMTrails
  rcases h1 : tryWaymarkedTrails env w startPoint endPoint with ⟨queried1, result1⟩
  rcases h2 : tryThunderforestOutdoors w startPoint endPoint with ⟨queried2, result2⟩
  cases result1 with
  | some trailRoute => rfl
  | none =>
    cases result2 with
    | some outdoorsRoute => rfl
    | none =>
      simp only [tryInOrder, List.append_assoc]

theorem requestRouteFromAPI_eq_tryInOrder (env : Env) (w : Providers)
    (startPoint endPoint : LatLng) :
    requestRouteFromAPI env w startPoint endPoint =
      tryInOrder (providerChain env w startPoint endPoint)
        (requestRouteFromOSRM w startPoint endPoint) := by
  unfold requestRouteFromAPI providerChain
  by_cases h1 : selectedEngine w = "osrm"
  · have h2 : selectedEngine w ≠ "osrm-trails" := by rw [h1]; decide
    have h3 : selectedEngine w ≠ "ors" := by rw [h1]; decide
    rw [if_pos h1, if_neg h2, if_neg h3]
    rfl
  · rw [if_neg h1]
    by_cases h2 : selectedEngine w = "osrm-trails"
    · rw [if_pos h2, if_pos h2]
      exact requestRouteFromOSRMTrails_eq env w startPoint endPoint
    · rw [if_neg h2, if_neg h2]
      by_cases h3 : selectedEngine w = "ors"
      · rw [if_pos h3, if_pos h3]
        exact requestRouteFromORS_eq w startPoint endPoint
      · rw [if_neg h3, if_neg h3]
        rfl

/-- C24: when no key is configured for OpenRouteService (the `apiKey` of line 3071 is
empty), `requestRouteFromORS` gives exactly what `requestRouteFromOSRM` gives for the same
points, route or error, and OpenRouteService is not among the services queried. -/
theorem requestRouteFromORS_without_key (w : Providers) (startPoint endPoint : LatLng)
    (hkey : orsApiKey w = "") :
    requestRouteFromORS w startPoint endPoint = requestRouteFromOSRM w startPoint endPoint ∧
    (requestRouteFromORS w startPoint endPoint).1 = [Service.osrm] ∧
    Service.openRouteService ∉ (requestRouteFromORS w startPoint endPoint).1 := by
  have h : requestRouteFromORS w startPoint endPoint =
      requestRouteFromOSRM w startPoint endPoint := by
    unfold requestRouteFromORS
    rw [if_pos hkey]
  rw [h]
  refine ⟨rfl, rfl, ?_⟩
  show Service.openRouteService ∉ [Service.osrm]
  decide

/-- The claim on a page whose configured key is the empty string and whose storage holds
none, although the service would have answered. -/
theorem requestRouteFromORS_without_key_witness :
    orsApiKey orsNoKey = "" ∧
    (requestRouteFromORS orsNoKey wpA wpB = requestRouteFromOSRM orsNoKey wpA wpB ∧
      (requestRouteFromORS orsNoKey wpA wpB).1 = [Service.osrm] ∧
      Service.openRouteService ∉ (requestRouteFromORS orsNoKey wpA wpB).1) :=
  ⟨by decide, requestRouteFromORS_without_key orsNoKey wpA wpB (by decide)⟩

/-- C25: for every engine selection `requestRouteFromAPI` is the chain of that engine
tried in order, with OSRM last (trail engine: Waymarked Trails, Thunderforest, OSRM; ORS
engine: OpenRouteService, OSRM; otherwise OSRM alone). The first provider with a route
supplies the result and the services queried end with it; when no provider before OSRM
has a route, all of them were passed and OSRM decides; an error comes out only when every
provider before OSRM had no route and OSRM failed with that error. -/
theorem requestRouteFromAPI_tries_chain_in_order (env : Env) (w : Providers)
    (startPoint endPoint : LatLng) :
    requestRouteFromAPI env w startPoint endPoint =
      tryInOrder (providerChain env w startPoint endPoint)
        (requestRouteFromOSRM w startPoint endPoint) ∧
    (∀ before a after routeData,
      providerChain env w startPoint endPoint = before ++ a :: after →
      (∀ b ∈ before, b.2 = none) → a.2 = some routeData →
      requestRouteFromAPI env w startPoint endPoint =
        ((before.map Prod.fst).flatten ++ a.1, Except.ok routeData)) ∧
    ((∀ a ∈ providerChain env w startPoint endPoint, a.2 = none) →
      requestRouteFromAPI env w startPoint endPoint =
        (((providerChain env w startPoint endPoint).map Prod.fst).flatten ++ [Service.osrm],
          (requestRouteFromOSRM w startPoint endPoint).2)) ∧
    (∀ message, (requestRouteFromAPI env w startPoint endPoint).2 = Except.error message →
      (∀ a ∈ providerChain env w startPoint endPoint, a.2 = none) ∧
      (requestRouteFromOSRM w startPoint endPoint).2 = Except.error message) := by
  have h := requestRouteFromAPI_eq_tryInOrder env w startPoint endPoint
  refine ⟨h, ?_, ?_, ?_⟩
  · intro before a after routeData hchain hb ha
    rw [h, hchain]
    exact tryInOrder_of_first_some before after a _ routeData hb ha
  · intro hall
    rw [h]
    exact tryInOrder_of_all_none _ _ hall
  · intro message hmessage
    rw [h] at hmessage
    exact tryInOrder_error _ _ message hmessage

/-- The claim on a page with the trail engine where no trail is found and Thunderforest
has a route: Waymarked Trails and Thunderforest are queried, in this order, OSRM is not. -/
theorem requestRouteFromAPI_tries_chain_in_order_witness :
    providerChain straightEnv trailsSecondWins wpA wpB =
      [] ++ ([Service.waymarkedTrails], none) ::
        [([Service.thunderforest], some ⟨straightAB, 9000, 2400⟩)] ∧
    requestRouteFromAPI straightEnv trailsSecondWins wpA wpB =
      ([Service.waymarkedTrails, Service.thunderforest], Except.ok ⟨straightAB, 9000, 2400⟩) :=
  ⟨rfl,
    (requestRouteFromAPI_tries_chain_in_order straightEnv trailsSecondWins wpA wpB).2.1
      [([Service.waymarkedTrails], none)] ([Service.thunderforest], some ⟨straightAB, 9000, 2400⟩)
      [] ⟨straightAB, 9000, 2400⟩ rfl
      (fun b hb => by rw [List.mem_singleton.mp hb]) rfl⟩

/-! ## Overlapping runs of the hybrid router -/

/-- C26 (code bug): `pendingRouteRequest` is never assigned, so a second
`calculateHybridRoute` started while the first run on `twoPoints` awaits its reply aborts
nothing and only empties `autoSegments`; when the reply to the first run then arrives, it
is written into `autoSegments[0]` and into the cache, and the first run ends with
`routeChanged`, while the second run is still waiting. -/
theorem late_reply_of_first_run_is_stored :
    firstRunStarted.1 = some awaitingAB ∧
    secondRunStarted.1 = some awaitingAB ∧
    secondRunStarted.2.pendingRouteRequest = false ∧
    Action.abort ∉ secondRunStarted.2.trace ∧
    secondRunStarted.2.autoSegments = [] ∧
    firstReplyArrived.1 = none ∧
    firstReplyArrived.2.autoSegments = [some ⟨wpA, wpB, straightAB, 111, 11⟩] ∧
    firstReplyArrived.2.routingCache.get awaitingAB.cacheKey = some replyToFirst ∧
    (deliverReply straightEnv awaitingAB (Except.ok replyToSecond)
        firstReplyArrived.2).2.autoSegments = [some ⟨wpA, wpB, straightAB, 222, 22⟩] := by
  refine ⟨?_, ?_, ?_, ?_, ?_, ?_, ?_, ?_, ?_⟩ <;> decide

/-- Without overlap the step model is `calculateHybridRoute`: a run that goes on from gap
`i` and receives every reply of `env` at once ends as the loop of the method does. -/
theorem settle_continueRun (env : Env) (l : List LatLng) :
    ∀ (i : Nat) (s : RoutePlanner) (fuel : Nat), s.route.drop i = l → l.length ≤ fuel + 1 →
      settle env fuel (continueRun env i s) =
        match hybridLoop env i l s with
        | (none, s1) => emit "routeChanged" none (updateRouteInfo env s1)
        | (some message, s1) => alert ("Ошибка расчета маршрута: " ++ message) s1 := by
  induction l with
  | nil =>
    intro i s fuel hl _
    unfold continueRun
    rw [hl]
    cases fuel <;> rfl
  | cons a rest ih =>
    intro i s fuel hl hlen
    cases rest with
    | nil =>
      unfold continueRun
      rw [hl]
      cases fuel <;> rfl
    | cons b rest =>
      have hdrop : ∀ s1 : RoutePlanner, s1.route = s.route → s1.route.drop (i + 1) = b :: rest := by
        intro s1 h1
        rw [h1, ← List.drop_drop, hl]
        rfl
      cases hget : ({ s with trace := s.trace ++
          [Action.cacheLookup i (getCacheKey s a b)] } : RoutePlanner).routingCache.get
            (getCacheKey s a b) with
      | some cached =>
        have hcont : continueRun env i s =
            continueRun env (i + 1)
              (displayAutoSegment cached.geometry i
                { s with trace := s.trace ++ [Action.cacheLookup i (getCacheKey s a b)] }) := by
          have hd := hdrop (displayAutoSegment cached.geometry i
            { s with trace := s.trace ++ [Action.cacheLookup i (getCacheKey s a b)] }) rfl
          unfold continueRun
          rw [hl, hd]
          conv_lhs => rw [loopUntilRequest]
          simp only [hget]
        have hstep : calculateAutoSegment env a b i s =
            (none, displayAutoSegment cached.geometry i
              { s with trace := s.trace ++ [Action.cacheLookup i (getCacheKey s a b)] }) := by
          unfold calculateAutoSegment
          simp only [hget]
        rw [hcont, hybridLoop, hstep]
        exact ih (i + 1) _ fuel (hdrop _ rfl) (by simp only [List.length_cons] at hlen ⊢; omega)
      | none =>
        have hcont : continueRun env i s =
            (some ⟨a, b, i, getCacheKey s a b⟩,
              { s with trace := s.trace ++ [Action.cacheLookup i (getCacheKey s a b)] ++
                [Action.providerRequest i a b] }) := by
          unfold continueRun
          rw [hl]
          conv_lhs => rw [loopUntilRequest]
          simp only [hget]
        cases fuel with
        | zero => simp only [List.length_cons] at hlen; omega
        | succ fuel =>
          rw [hcont, settle]
          simp only
          cases hreq : env.requestRouteFromAPI i a b with
          | error message =>
            have hstep : calculateAutoSegment env a b i s =
                (some message,
                  { s with trace := s.trace ++ [Action.cacheLookup i (getCacheKey s a b)] ++
                    [Action.providerRequest i a b] }) := by
              unfold calculateAutoSegment
              simp only [hget, hreq]
            rw [hybridLoop, hstep]
            cases fuel <;> rfl
          | ok routeData =>
            have hstep : calculateAutoSegment env a b i s =
                (none,
                  { displayAutoSegment routeData.geometry i
                      { s with
                        trace := s.trace ++ [Action.cacheLookup i (getCacheKey s a b)] ++
                          [Action.providerRequest i a b],
                        routingCache := s.routingCache.set (getCacheKey s a b) routeData } with
                    autoSegments :=
                      jsArraySet s.autoSegments i
                        { startPoint := a, endPoint := b, geometry := routeData.geometry,
                          distance := routeData.distance, duration := routeData.duration } }) := by
              unfold calculateAutoSegment
              simp only [hget, hreq]
              rfl
            rw [hybridLoop, hstep]
            simp only
            unfold deliverReply
            simp only
            exact ih (i + 1) _ fuel (hdrop _ rfl)
              (by simp only [List.length_cons] at hlen ⊢; omega)

/-- A run of `calculateHybridRoute` that no other run overlaps: started and given every
reply of `env`, it ends in the state of the method run in one piece. -/
theorem settle_startHybridRoute (env : Env) (s : RoutePlanner) :
    settle env s.route.length (startHybridRoute env s) = calculateHybridRoute env s := by
  unfold startHybridRoute calculateHybridRoute
  have hroute : (hybridStart s).route = s.route := by
    unfold hybridStart clearAutoSegments emit
    split <;> rfl
  by_cases h : s.route.length < 2
  · rw [if_pos h, if_pos h]
    cases s.route.length <;> rfl
  · rw [if_neg h, if_neg h]
    have := settle_continueRun env (hybridStart s).route 0 (hybridStart s) s.route.length
      (List.drop_zero _) (by rw [hroute]; omega)
    rw [this]

end Peakline
